import Mathlib

/-!
Verification of the JSBON binary codec (encoder/decoder engine and wire
format) against its natural-language specification.

The development shallowly embeds the codec source: JavaScript numbers are
split into integral values (`JSNum.ival`) and other doubles represented by
their IEEE-754 bit pattern (`JSNum.fval`); JavaScript strings are
represented by their UTF-8 byte sequences (the codec only ever moves
strings through an identity UTF-8 transcoding pair and NUL-terminated
writes); object and array identity is modelled with an explicit heap of
container cells addressed by natural numbers, mirroring the reference
semantics of JavaScript objects and the identity-keyed maps the codec
uses.  JavaScript 32-bit bitwise arithmetic (`|`, `<<`, `>>>`) is modelled
exactly, including sign reinterpretation and shift-count wrap-around.

Recursive walks are written with an explicit fuel argument so that every
definition is executable; theorems quantify over sufficient fuel or use
the canonical fuel of the public entry points.
-/

namespace JSBON

/-! ## JavaScript 32-bit integer semantics -/

/-- JS `ToUint32`: the unsigned 32-bit pattern of an integer. -/
def toUint32 (n : Int) : Nat := (n % 4294967296).toNat

/-- JS `ToInt32`: the signed 32-bit value with the same low 32 bits. -/
def toInt32 (n : Int) : Int := (n + 2147483648) % 4294967296 - 2147483648

/-- JS bitwise `|` on integers: both operands are reduced to 32 bits, the
patterns are or-ed, and the result is read back as a signed 32-bit value. -/
def jsOr (a b : Int) : Int := toInt32 ((toUint32 a ||| toUint32 b : Nat) : Int)

/-- JS `<<`: the shift count is taken mod 32 and the result is read back as
a signed 32-bit value. -/
def jsShl (a : Int) (k : Nat) : Int := toInt32 ((toUint32 a * 2 ^ (k % 32) : Nat) : Int)

/-! ## Data model

A JavaScript value is a primitive, or a reference to a container cell in
the heap.  Containers (objects and arrays) live in the heap so that
sharing and cycles are represented exactly as in the source language. -/

/-- A JavaScript number as the codec observes it: either a double whose
value is an integer (`ival`, carrying the exact value), or any other
double, carried by its 64-bit IEEE-754 pattern (`fval`). -/
inductive JSNum where
  | ival (n : Int)
  | fval (bits : Nat)
deriving DecidableEq, Repr

/-- Container addresses in the heap. -/
abbrev Addr := Nat

/-- A JavaScript value.  Strings and property names are represented by
their UTF-8 byte sequences.  `date` carries the IEEE-754 bit pattern of
the millisecond timestamp; `bytes` is a `Uint8Array`.  `ref` points to a
container cell in the heap. -/
inductive JSVal where
  | undef
  | null
  | bool (b : Bool)
  | num (n : JSNum)
  | str (s : List Nat)
  | date (bits : Nat)
  | bytes (bs : List Nat)
  | ref (a : Addr)
deriving DecidableEq, Repr

/-- A container cell: a plain object (ordered own fields) or an array. -/
inductive HObj where
  | obj (fields : List (List Nat × JSVal))
  | arr (elems : List JSVal)
deriving DecidableEq, Repr

/-- The heap: an association list from addresses to container cells. -/
abbrev Heap := List (Addr × HObj)

/-! ## Tags, options, version (shared constants from the source) -/

def MAJOR_VERSION : Nat := 1
def TAG_BOOLEAN_FALSE : Nat := 0x00
def TAG_BOOLEAN_TRUE : Nat := 0x01
def TAG_INT8 : Nat := 0x02
def TAG_INT16 : Nat := 0x03
def TAG_INT32 : Nat := 0x04
def TAG_NULL : Nat := 0x05
def TAG_UNDEFINED : Nat := 0x06
def TAG_OBJECT_REF : Nat := 0x07
def TAG_NUMBER : Nat := 0x09
def TAG_UINT8 : Nat := 0x12
def TAG_UINT16 : Nat := 0x13
def TAG_UINT32 : Nat := 0x14
def TAG_STRING_REF : Nat := 0x16
def TAG_DATE : Nat := 0x20
def TAG_OBJECT : Nat := 0x30
def TAG_ARRAY : Nat := 0x31
def TAG_UINT8ARRAY : Nat := 0x32
def OPTION_CRC32 : Nat := 0x80
def OPTION_NOCYCLE : Nat := 0x40

/-! ## Number tag selection (source: `getNumberTag`)

The source first tests `value === (value >>> 0)` (the value is an integer
in `[0, 2^32)`), choosing an unsigned tag by width; only then
`value === (value | 0)` (a signed 32-bit integer, necessarily negative at
this point), choosing a signed tag; all other numbers get `TAG_NUMBER`.
The width tests `(value & 0xFF) === value` and `(value & 0xFFFF) === value`
are, on `[0, 2^32)`, exactly `value < 256` and `value < 65536`. -/
def getNumberTag : JSNum → Nat
  | .fval _ => TAG_NUMBER
  | .ival v =>
    if 0 ≤ v ∧ v < 4294967296 then
      if v < 256 then TAG_UINT8
      else if v < 65536 then TAG_UINT16
      else TAG_UINT32
    else if -2147483648 ≤ v ∧ v < 2147483648 then
      if -128 ≤ v ∧ v ≤ 127 then TAG_INT8
      else if -32768 ≤ v ∧ v ≤ 32767 then TAG_INT16
      else TAG_INT32
    else TAG_NUMBER

/-! ## Varint count codec (source: `serializeCount` / `unserializeCount`)

The writer emits base-128 digits, low first, setting bit 7 on every byte
but the last; it runs only on unsigned 32-bit values (the `serializeCount`
entry guards this), so five iterations of fuel always suffice.

The reader is the exact JS loop: it accumulates `(b & 0x7F) << 7*c` with
JS `|=`, i.e. in signed 32-bit arithmetic with shift counts taken mod 32,
and keeps reading while bit 7 of the byte just read is set.  It returns
the accumulated (signed!) value and the number of bytes consumed, or
`none` if the stream ends on a continuation byte. -/

def serializeCountAux : Nat → Nat → List Nat
  | 0, v => [v % 256]
  | fuel+1, v => if v < 128 then [v] else (v % 128 + 128) :: serializeCountAux fuel (v / 128)

/-- The bytes the varint writer emits for `v` (meaningful for `v < 2^32`,
which the `serializeCount` entry point guarantees). -/
def serializeCountBytes (v : Nat) : List Nat := serializeCountAux 5 v

def unserializeCountAux : List Nat → Nat → Int → Option (Int × Nat)
  | [], _, _ => none
  | b :: rest, c, acc =>
    let bb := b % 256
    let acc2 := jsOr acc (jsShl ((bb &&& 127 : Nat) : Int) (7 * c))
    if bb &&& 128 ≠ 0 then
      (unserializeCountAux rest (c + 1) acc2).map (fun p => (p.1, p.2 + 1))
    else
      some (acc2, 1)

/-- The varint reader on a byte stream: returns the value read (with JS
signed 32-bit semantics) and the number of bytes consumed. -/
def unserializeCountBytes (bs : List Nat) : Option (Int × Nat) :=
  unserializeCountAux bs 0 0

/-! ## Errors

The failures both operations can raise.  `truncated` is the byte-stream
utility's underflow failure (the utility itself is an external collaborator
of the codec; its contract is fixed by the spec).  `fuelExhausted` marks
exhaustion of the explicit fuel of the embedded recursions and corresponds
to no behaviour of the source; theorems always supply sufficient fuel. -/
inductive Err where
  | invalidData
  | versionMismatch
  | checksumMismatch
  | unsupportedType
  | invalidCount
  | unexpectedTag
  | outOfBoundString
  | outOfBoundProperty
  | invalidObjectRef
  | truncated
  | fuelExhausted
deriving DecidableEq, Repr

/-! ## CRC-32 (source: `crc32`)

The source precomputes a 256-entry table by eight conditional
shift-and-xor steps over the reflected polynomial `0xEDB88320`
(3988292384), then folds `crc = crc >>> 8 ^ table[crc & 255 ^ byte]`
over the data, seeding and finalising with all bits set.  The model works
on the unsigned 32-bit patterns throughout (the JS code mixes signed and
unsigned views of the same patterns; xor, unsigned shift and masking agree
on patterns). -/

def crcStep (t : Nat) : Nat := if t % 2 = 1 then 3988292384 ^^^ (t / 2) else t / 2

def crcTable (i : Nat) : Nat := crcStep^[8] i

def crcUpdate (crc b : Nat) : Nat := (crc / 256) ^^^ crcTable ((crc % 256) ^^^ (b % 256))

def crc32 (data : List Nat) : Nat := (data.foldl crcUpdate 4294967295) ^^^ 4294967295

/-! ## Encoder (source: `Encoder`)

The encoder owns a working byte stream (`out`, whose length is the stream
position), the identity map from container addresses to the positions of
their emitted tag bytes (`object_refs`), the two interning tables in
insertion order (`string_keys`, 0-indexed; `string_refs`, 1-indexed on the
wire) and the cycle flag. -/

structure EncSt where
  out : List Nat
  object_refs : List (Addr × Nat)
  string_keys : List (List Nat)
  string_refs : List (List Nat)
  hasCycle : Bool
deriving DecidableEq, Repr

def initEncSt : EncSt := ⟨[], [], [], [], false⟩

/-- Modelled from the spec: the byte-stream utility's `writeUint8` (a byte
buffer stores values reduced mod 256). -/
def writeUint8 (b : Nat) (st : EncSt) : EncSt := { st with out := st.out ++ [b % 256] }

/-- Big-endian bytes of `v mod 256^w`, most significant first. -/
def bytesBE : Nat → Nat → List Nat
  | 0, _ => []
  | w+1, v => (v / 256 ^ w) % 256 :: bytesBE w v

/-- Modelled from the spec: the utility's big-endian unsigned writes. -/
def writeUintBE (w : Nat) (v : Nat) (st : EncSt) : EncSt :=
  { st with out := st.out ++ bytesBE w v }

/-- Modelled from the spec: the utility's big-endian two's-complement
signed writes (`writeInt8/16/32`). -/
def writeIntBE (w : Nat) (v : Int) (st : EncSt) : EncSt :=
  { st with out := st.out ++ bytesBE w (v % (256 ^ w)).toNat }

/-- Modelled from the spec: the utility's IEEE-754 float64 write, on the
64-bit pattern carried by the value.  A `JSNum.ival` reaches this path
only for integers outside the 32-bit ranges, which the spec's Value
universe does not contain; they are mapped through a fixed stand-in
pattern (the codec never relies on it and no claim touches it). -/
def float64Bits : JSNum → Nat
  | .fval bits => bits
  | .ival n => toUint32 n

def writeFloat64 (n : JSNum) (st : EncSt) : EncSt :=
  { st with out := st.out ++ bytesBE 8 (float64Bits n) }

/-- Modelled from the spec: the utility's NUL-terminated string write
(strings travel as their UTF-8 bytes; `encode_utf8` is the identity on
this representation). -/
def writeCString (s : List Nat) (st : EncSt) : EncSt :=
  { st with out := st.out ++ s.map (· % 256) ++ [0] }

def writeUint8Array (bs : List Nat) (st : EncSt) : EncSt :=
  { st with out := st.out ++ bs.map (· % 256) }

/-- Source `Encoder.prototype.serializeCount`: the value must be an
unsigned 32-bit integer (else `InvalidCount`); then the varint bytes are
emitted. -/
def serializeCount (v : Nat) (st : EncSt) : Except Err EncSt :=
  if v < 4294967296 then .ok { st with out := st.out ++ serializeCountBytes v }
  else .error .invalidCount

/-- Source `Encoder.prototype.serializeString` (the tag byte has already
been written by `serializeComponent`): the empty string is index 0; a
known string gets its 1-based index; an unknown string is appended to the
value table and gets index `size + 1`. -/
def serializeString (s : List Nat) (st : EncSt) : Except Err EncSt :=
  if s = [] then serializeCount 0 st
  else
    match st.string_refs.indexOf? s with
    | some i => serializeCount (i + 1) st
    | none =>
        serializeCount (st.string_refs.length + 1)
          { st with string_refs := st.string_refs ++ [s] }

def serializeDate (bits : Nat) (st : EncSt) : EncSt :=
  { st with out := st.out ++ bytesBE 8 bits }

/-- The integral payload of a number (the signed tags are only selected
for `ival` values, so the default is unreachable). -/
def ivalOf : JSNum → Int
  | .ival n => n
  | .fval _ => 0

/-- Source `Encoder.prototype.serializeNumber`: write the number's body
according to the already-chosen tag. -/
def serializeNumber (n : JSNum) (tag : Nat) (st : EncSt) : EncSt :=
  if tag = TAG_INT8 then writeIntBE 1 (ivalOf n) st
  else if tag = TAG_INT16 then writeIntBE 2 (ivalOf n) st
  else if tag = TAG_INT32 then writeIntBE 4 (ivalOf n) st
  else if tag = TAG_UINT8 then writeUintBE 1 (toUint32 (ivalOf n)) st
  else if tag = TAG_UINT16 then writeUintBE 2 (toUint32 (ivalOf n)) st
  else if tag = TAG_UINT32 then writeUintBE 4 (toUint32 (ivalOf n)) st
  else writeFloat64 n st

/-- Source `getValueTag`.  The source dispatches on `undefined`, `null`,
`instanceof Array`, `instanceof Date`, `instanceof Uint8Array`,
`typeof object/number/string/boolean` in that order (the constructors of
`JSVal` are disjoint, so the order is immaterial here); values outside the
universe (functions, symbols) do not exist in the model. -/
def getValueTag (h : Heap) : JSVal → Nat
  | .undef => TAG_UNDEFINED
  | .null => TAG_NULL
  | .ref a =>
      match h.lookup a with
      | some (.arr _) => TAG_ARRAY
      | _ => TAG_OBJECT
  | .date _ => TAG_DATE
  | .bytes _ => TAG_UINT8ARRAY
  | .num n => getNumberTag n
  | .str _ => TAG_STRING_REF
  | .bool b => if b then TAG_BOOLEAN_TRUE else TAG_BOOLEAN_FALSE

/-- Payload extractors for `serializeComponentPart`; each default is
unreachable because the tag dispatch matches the constructor. -/
def jsNumOf : JSVal → JSNum
  | .num n => n
  | _ => .ival 0

def strOf : JSVal → List Nat
  | .str s => s
  | _ => []

def dateBitsOf : JSVal → Nat
  | .date bits => bits
  | _ => 0

def bytesOf : JSVal → List Nat
  | .bytes bs => bs
  | _ => []

def addrOf : JSVal → Addr
  | .ref a => a
  | _ => 0

/-- Source `Encoder.prototype.serializeComponentPart`: the body of a
non-container value, dispatched on its (already written) tag.  The
`TAG_UINT8ARRAY` case of the source falls through into the no-op cases,
which is harmless. -/
def serializeComponentPart (v : JSVal) (tag : Nat) (st : EncSt) : Except Err EncSt :=
  if tag = TAG_NUMBER ∨ tag = TAG_INT8 ∨ tag = TAG_INT16 ∨ tag = TAG_INT32 ∨
      tag = TAG_UINT8 ∨ tag = TAG_UINT16 ∨ tag = TAG_UINT32 then
    .ok (serializeNumber (jsNumOf v) tag st)
  else if tag = TAG_STRING_REF then serializeString (strOf v) st
  else if tag = TAG_DATE then .ok (serializeDate (dateBitsOf v) st)
  else if tag = TAG_UINT8ARRAY then do
    let st ← serializeCount (bytesOf v).length st
    .ok (writeUint8Array (bytesOf v) st)
  else if tag = TAG_BOOLEAN_TRUE ∨ tag = TAG_BOOLEAN_FALSE ∨ tag = TAG_NULL ∨
      tag = TAG_UNDEFINED then
    .ok st
  else .error .unexpectedTag

/-- Key interning (the body of the source's per-key lookup in
`serializeObject`): a known name keeps its 0-based index, a new name is
appended to the name table. -/
def internKey (k : List Nat) (st : EncSt) : Nat × EncSt :=
  match st.string_keys.indexOf? k with
  | some i => (i, st)
  | none => (st.string_keys.length, { st with string_keys := st.string_keys ++ [k] })

/-- The per-property loop of `serializeObject`: intern the name, emit its
index as a count, then the value. -/
def serializeFields (comp : JSVal → EncSt → Except Err EncSt) :
    List (List Nat × JSVal) → EncSt → Except Err EncSt
  | [], st => .ok st
  | (k, v) :: rest, st => do
      let p := internKey k st
      let st ← serializeCount p.1 p.2
      let st ← comp v st
      serializeFields comp rest st

/-- Source `Encoder.prototype.serializeObject`: an unseen object is
registered in the identity map at the current position (the position of
the tag byte about to be written), then emitted by value — tag, property
count, properties.  (The source honours a `toJSON` method and filters out
function-valued properties; the model's universe contains neither, under
which both steps are the identity.)  A seen object is emitted as tag
`TAG_OBJECT_REF` plus its recorded position, latching the cycle flag. -/
def serializeObject (h : Heap) (comp : JSVal → EncSt → Except Err EncSt)
    (a : Addr) (st : EncSt) : Except Err EncSt :=
  match st.object_refs.lookup a with
  | some refindex => do
      let st ← serializeCount refindex (writeUint8 TAG_OBJECT_REF st)
      .ok { st with hasCycle := true }
  | none =>
      let st := { st with object_refs := st.object_refs ++ [(a, st.out.length)] }
      let st := writeUint8 TAG_OBJECT st
      match h.lookup a with
      | some (.obj fields) => do
          let st ← serializeCount fields.length st
          serializeFields comp fields st
      | _ => .error .unsupportedType

/-- The element loop of `serializeArray`. -/
def serializeElems (comp : JSVal → EncSt → Except Err EncSt) :
    List JSVal → EncSt → Except Err EncSt
  | [], st => .ok st
  | v :: rest, st => do
      let st ← comp v st
      serializeElems comp rest st

/-- Source `Encoder.prototype.serializeArray`, symmetric to objects. -/
def serializeArray (h : Heap) (comp : JSVal → EncSt → Except Err EncSt)
    (a : Addr) (st : EncSt) : Except Err EncSt :=
  match st.object_refs.lookup a with
  | some refindex => do
      let st ← serializeCount refindex (writeUint8 TAG_OBJECT_REF st)
      .ok { st with hasCycle := true }
  | none =>
      let st := { st with object_refs := st.object_refs ++ [(a, st.out.length)] }
      let st := writeUint8 TAG_ARRAY st
      match h.lookup a with
      | some (.arr elems) => do
          let st ← serializeCount elems.length st
          serializeElems comp elems st
      | _ => .error .unsupportedType

/-- Source `Encoder.prototype.serializeComponent`: dispatch on the value
tag; containers recurse (with one unit of fuel per nesting level), other
values write their tag and body. -/
def serializeComponent (h : Heap) : Nat → JSVal → EncSt → Except Err EncSt
  | 0, _, _ => .error .fuelExhausted
  | fuel+1, v, st =>
    let tag := getValueTag h v
    if tag = TAG_OBJECT then serializeObject h (serializeComponent h fuel) (addrOf v) st
    else if tag = TAG_ARRAY then serializeArray h (serializeComponent h fuel) (addrOf v) st
    else serializeComponentPart v tag (writeUint8 tag st)

/-- The string-table write loop of `serializeTOS`. -/
def writeStrings : List (List Nat) → EncSt → EncSt
  | [], st => st
  | s :: rest, st => writeStrings rest (writeCString s st)

/-- Source `Encoder.prototype.serializeTOS`: build the header stream —
version byte with the NOCYCLE bit iff no back-edge was emitted and the
CRC bit (plus the CRC32 of the payload as a big-endian u32) iff requested,
then the two tables, each a count followed by NUL-terminated strings in
insertion order — and prepend it to the payload. -/
def serializeTOS (st : EncSt) (hasCRC : Bool) : Except Err (List Nat) := do
  let v := if st.hasCycle then MAJOR_VERSION else MAJOR_VERSION ||| OPTION_NOCYCLE
  let hdr :=
    if hasCRC then writeUintBE 4 (crc32 st.out) (writeUint8 (v ||| OPTION_CRC32) initEncSt)
    else writeUint8 v initEncSt
  let hdr ← serializeCount st.string_keys.length hdr
  let hdr := writeStrings st.string_keys hdr
  let hdr ← serializeCount st.string_refs.length hdr
  let hdr := writeStrings st.string_refs hdr
  .ok (hdr.out ++ st.out)

/-- Source `encode`: serialize the value into the payload stream, then
prepend header and tables.  The payload walk nests one level per
container, and every by-value container visit registers a fresh address,
so `h.length + 2` fuel is always sufficient.  (The source also records an
`hasExperimental` option bit that nothing reads; it is omitted.) -/
def encode (h : Heap) (v : JSVal) (hasCRC : Bool) : Except Err (List Nat) := do
  let st ← serializeComponent h (h.length + 2) v initEncSt
  serializeTOS st hasCRC

/-! ## Decoder (source: `Decoder`)

The decoder keeps the full input with a cursor (`pos`), the reference map
from pre-table payload positions to materialized containers
(`object_refs`), the two tables read from the prefix, the `hasCycle`
flag (true until the NOCYCLE header bit clears it), a heap of containers
it allocates (`heap` with bump allocator `nextAddr`), and the payload
start `offset` recorded after the tables are consumed. -/

structure DecSt where
  input : List Nat
  pos : Nat
  object_refs : List (Nat × Addr)
  string_keys : List (List Nat)
  string_refs : List (List Nat)
  hasCycle : Bool
  heap : Heap
  nextAddr : Addr
  offset : Nat
deriving DecidableEq, Repr

def initDecSt (input : List Nat) : DecSt :=
  ⟨input, 0, [], [], [], true, [], 0, 0⟩

/-- Modelled from the spec: the byte-stream utility's `readUint8`; a byte
buffer holds bytes (values mod 256) and underflow raises `truncated`. -/
def readUint8 (st : DecSt) : Except Err (Nat × DecSt) :=
  match st.input[st.pos]? with
  | some b => .ok (b % 256, { st with pos := st.pos + 1 })
  | none => .error .truncated

/-- Modelled from the spec: a raw read of `n` bytes (underflow raises
`truncated`). -/
def readBytes (n : Nat) (st : DecSt) : Except Err (List Nat × DecSt) :=
  if st.pos + n ≤ st.input.length then
    .ok (((st.input.drop st.pos).take n).map (· % 256), { st with pos := st.pos + n })
  else .error .truncated

/-- The big-endian value of a byte list. -/
def beVal (bs : List Nat) : Nat := bs.foldl (fun acc b => acc * 256 + b % 256) 0

def readUintBE (w : Nat) (st : DecSt) : Except Err (Nat × DecSt) := do
  let p ← readBytes w st
  .ok (beVal p.1, p.2)

/-- Two's-complement reading of a `w`-byte big-endian value. -/
def asSigned (w : Nat) (n : Nat) : Int :=
  if n < 256 ^ w / 2 then (n : Int) else (n : Int) - 256 ^ w

/-- Modelled from the spec: the utility's NUL-terminated string read —
bytes up to the next NUL (or the end of the buffer), consuming the
terminator when present.  `decode_utf8` is the identity on the byte
representation of strings. -/
def readCString (st : DecSt) : List Nat × DecSt :=
  let rest := st.input.drop st.pos
  let s := (rest.takeWhile (fun b => b % 256 ≠ 0)).map (· % 256)
  let consumed := s.length + (if s.length < rest.length then 1 else 0)
  (s, { st with pos := st.pos + consumed })

/-- Source `Decoder.prototype.unserializeCount` on the decoder state. -/
def unserializeCount (st : DecSt) : Except Err (Int × DecSt) :=
  match unserializeCountBytes (st.input.drop st.pos) with
  | some p => .ok (p.1, { st with pos := st.pos + p.2 })
  | none => .error .truncated

/-- Source `Decoder.prototype.unserializeString`: index 0 is the empty
string; an index beyond the table is an error; otherwise the table entry
at `index - 1` (a negative index reaches the final `Map.get`, which
yields `undefined` in JS). -/
def unserializeString (st : DecSt) : Except Err (JSVal × DecSt) := do
  let (index, st) ← unserializeCount st
  if index = 0 then .ok (.str [], st)
  else if index > (st.string_refs.length : Int) then .error .outOfBoundString
  else
    match (if 0 ≤ index - 1 then st.string_refs[(index - 1).toNat]? else none) with
    | some s => .ok (.str s, st)
    | none => .ok (.undef, st)

def unserializeDate (st : DecSt) : Except Err (JSVal × DecSt) := do
  let (bits, st) ← readUintBE 8 st
  .ok (.date bits, st)

/-- Allocate a fresh container cell. -/
def allocCell (o : HObj) (st : DecSt) : Addr × DecSt :=
  (st.nextAddr, { st with heap := st.heap ++ [(st.nextAddr, o)], nextAddr := st.nextAddr + 1 })

/-- JS `obj[key] = v`: overwrite in place if the key exists, else append. -/
def assignField : List (List Nat × JSVal) → List Nat → JSVal → List (List Nat × JSVal)
  | [], k, v => [(k, v)]
  | (k', v') :: rest, k, v =>
      if k' = k then (k', v) :: rest else (k', v') :: assignField rest k v

def setField (a : Addr) (k : List Nat) (v : JSVal) (heap : Heap) : Heap :=
  heap.map (fun p =>
    if p.1 = a then
      (p.1, match p.2 with
            | .obj fields => HObj.obj (assignField fields k v)
            | .arr es => HObj.arr es)
    else p)

/-- JS `arr[i] = elem` at `i = arr.length`: append. -/
def pushElem (a : Addr) (v : JSVal) (heap : Heap) : Heap :=
  heap.map (fun p =>
    if p.1 = a then
      (p.1, match p.2 with
            | .obj fields => HObj.obj fields
            | .arr es => HObj.arr (es ++ [v]))
    else p)

/-- The UTF-8 bytes of the key JS produces for `obj[undefined]`. -/
def undefinedKeyBytes : List Nat := [117, 110, 100, 101, 102, 105, 110, 101, 100]

/-- The property loop of `unserializeObject`: read a name index, bounds
check it against the name table, resolve the name (a negative index slips
past the check and resolves, as in JS, to the key an undefined name
produces), read the value, assign. -/
def unserializeObjectLoop (comp : DecSt → Except Err (JSVal × DecSt)) (a : Addr) :
    Nat → DecSt → Except Err DecSt
  | 0, st => .ok st
  | n+1, st => do
      let (index, st) ← unserializeCount st
      if index ≥ (st.string_keys.length : Int) then .error .outOfBoundProperty
      else
        let key := match (if 0 ≤ index then st.string_keys[index.toNat]? else none) with
          | some k => k
          | none => undefinedKeyBytes
        let (v, st) ← comp st
        unserializeObjectLoop comp a n { st with heap := setField a key v st.heap }

/-- Source `Decoder.prototype.unserializeObject`: allocate an empty object
and — while cycles are possible — register it under the position of its
tag byte (one before the cursor), before reading the body. -/
def unserializeObject (comp : DecSt → Except Err (JSVal × DecSt)) (st : DecSt) :
    Except Err (JSVal × DecSt) := do
  let (a, st) := allocCell (.obj []) st
  let st :=
    if st.hasCycle then { st with object_refs := st.object_refs ++ [(st.pos - 1, a)] }
    else st
  let (size, st) ← unserializeCount st
  let st ← unserializeObjectLoop comp a size.toNat st
  .ok (.ref a, st)

/-- The element loop of `unserializeArray`. -/
def unserializeArrayLoop (comp : DecSt → Except Err (JSVal × DecSt)) (a : Addr) :
    Nat → DecSt → Except Err DecSt
  | 0, st => .ok st
  | n+1, st => do
      let (v, st) ← comp st
      unserializeArrayLoop comp a n { st with heap := pushElem a v st.heap }

/-- Source `Decoder.prototype.unserializeArray`, symmetric to objects. -/
def unserializeArray (comp : DecSt → Except Err (JSVal × DecSt)) (st : DecSt) :
    Except Err (JSVal × DecSt) := do
  let (a, st) := allocCell (.arr []) st
  let st :=
    if st.hasCycle then { st with object_refs := st.object_refs ++ [(st.pos - 1, a)] }
    else st
  let (size, st) ← unserializeCount st
  let st ← unserializeArrayLoop comp a size.toNat st
  .ok (.ref a, st)

/-- Source `Decoder.prototype.unserializeComponentPart`: the big tag
dispatch.  `TAG_NUMBER` reads a float64 and yields it as the double with
that pattern; the integer tags read their fixed-width bodies; the
reference tag reads a count, adds the payload offset and resolves it in
the reference map (a miss — in particular any negative key — is
`invalidObjectRef`).  An unknown tag is `unexpectedTag`. -/
def unserializeComponentPart (comp : DecSt → Except Err (JSVal × DecSt)) (tag : Nat)
    (st : DecSt) : Except Err (JSVal × DecSt) :=
  if tag = TAG_NUMBER then do
    let (bits, st) ← readUintBE 8 st
    .ok (.num (.fval bits), st)
  else if tag = TAG_INT8 then do
    let (b, st) ← readUint8 st
    .ok (.num (.ival (asSigned 1 b)), st)
  else if tag = TAG_INT16 then do
    let (n, st) ← readUintBE 2 st
    .ok (.num (.ival (asSigned 2 n)), st)
  else if tag = TAG_INT32 then do
    let (n, st) ← readUintBE 4 st
    .ok (.num (.ival (asSigned 4 n)), st)
  else if tag = TAG_UINT8 then do
    let (b, st) ← readUint8 st
    .ok (.num (.ival b), st)
  else if tag = TAG_UINT16 then do
    let (n, st) ← readUintBE 2 st
    .ok (.num (.ival n), st)
  else if tag = TAG_UINT32 then do
    let (n, st) ← readUintBE 4 st
    .ok (.num (.ival n), st)
  else if tag = TAG_STRING_REF then unserializeString st
  else if tag = TAG_DATE then unserializeDate st
  else if tag = TAG_UINT8ARRAY then do
    let (size, st) ← unserializeCount st
    if size < 0 then .error .truncated
    else do
      let (bs, st) ← readBytes size.toNat st
      .ok (.bytes bs, st)
  else if tag = TAG_BOOLEAN_TRUE then .ok (.bool true, st)
  else if tag = TAG_BOOLEAN_FALSE then .ok (.bool false, st)
  else if tag = TAG_NULL then .ok (.null, st)
  else if tag = TAG_UNDEFINED then .ok (.undef, st)
  else if tag = TAG_OBJECT then unserializeObject comp st
  else if tag = TAG_ARRAY then unserializeArray comp st
  else if tag = TAG_OBJECT_REF then do
    let (c, st) ← unserializeCount st
    match (if 0 ≤ c + (st.offset : Int) then st.object_refs.lookup (c + st.offset).toNat
           else none) with
    | some a => .ok (.ref a, st)
    | none => .error .invalidObjectRef
  else .error .unexpectedTag

/-- Source `Decoder.prototype.unserializeComponent`: read the tag byte and
dispatch, spending one unit of fuel per nesting level. -/
def unserializeComponent : Nat → DecSt → Except Err (JSVal × DecSt)
  | 0, _ => .error .fuelExhausted
  | fuel+1, st => do
      let (tag, st) ← readUint8 st
      unserializeComponentPart (unserializeComponent fuel) tag st

/-- The string-table read loop of `unserializeTOS`. -/
def readStringsLoop : Nat → DecSt → List (List Nat) × DecSt
  | 0, st => ([], st)
  | n+1, st =>
      let (s, st) := readCString st
      let (rest, st2) := readStringsLoop n st
      (s :: rest, st2)

/-- Source `Decoder.prototype.unserializeTOS`: version check on the low
nibble of byte 0; if the CRC bit is set, read (and save) the stored CRC;
the NOCYCLE bit clears `hasCycle`; read both tables; finally, if the CRC
bit was set, compute the CRC32 of the remaining bytes, compare, and leave
the cursor at the start of the payload. -/
def unserializeTOS (st : DecSt) : Except Err DecSt := do
  let (version, st) ← readUint8 st
  if version &&& 15 > MAJOR_VERSION then .error .versionMismatch
  else do
    let (crc, st) ←
      if version &&& OPTION_CRC32 ≠ 0 then do
        let (c, st) ← readUintBE 4 st
        pure ((some c, st) : Option Nat × DecSt)
      else pure (none, st)
    let st := if version &&& OPTION_NOCYCLE ≠ 0 then { st with hasCycle := false } else st
    let (nk, st) ← unserializeCount st
    let (keys, st) := readStringsLoop nk.toNat st
    let st := { st with string_keys := keys }
    let (ns, st) ← unserializeCount st
    let (strs, st) := readStringsLoop ns.toNat st
    let st := { st with string_refs := strs }
    match crc with
    | some c =>
        if crc32 ((st.input.drop st.pos).map (· % 256)) ≠ c then .error .checksumMismatch
        else .ok st
    | none => .ok st

/-- Source `Decoder.prototype.decode` composed with the `decode` entry of
the module: `none` models an input that is absent or not a byte buffer
(rejected up front as `invalidData`); a byte buffer is parsed — tables
first, then `offset` is recorded and the single payload value is read.
The result pairs the value with the decoder's container heap, which gives
`ref` values their meaning.  The payload walk nests one container level
per payload byte at most, so the remaining-length fuel is sufficient. -/
def decode : Option (List Nat) → Except Err (JSVal × Heap)
  | none => .error .invalidData
  | some input => do
      let st ← unserializeTOS (initDecSt input)
      let st := { st with offset := st.pos }
      let p ← unserializeComponent (input.length - st.pos + 1) st
      .ok (p.1, p.2.heap)

/-! ## Concrete scenario data (spec scenarios S4 and S5) -/

/-- The UTF-8 bytes of the property names of scenario S4. -/
def nameKey : List Nat := [110, 97, 109, 101]
def childrenKey : List Nat := [99, 104, 105, 108, 100, 114, 101, 110]
def parentKey : List Nat := [112, 97, 114, 101, 110, 116]

/-- The heap of scenario S4: `o = {name:"o1", children:[p]}` at address 0,
the `children` array at address 1, `p = {name:"o2", parent:o}` at
address 2 — a cycle `o → children → p → o`. -/
def cycleHeap : Heap :=
  [(0, .obj [(nameKey, .str [111, 49]), (childrenKey, .ref 1)]),
   (1, .arr [.ref 2]),
   (2, .obj [(nameKey, .str [111, 50]), (parentKey, .ref 0)])]

/-- The bytes `encode` produces for scenario S4: version byte 1 (NOCYCLE
clear), the two tables, and a payload whose final item is the back-edge
`0x07 0x00` pointing at payload position 0. -/
def cycleBytes : List Nat :=
  [1, 3, 110, 97, 109, 101, 0, 99, 104, 105, 108, 100, 114, 101, 110, 0,
   112, 97, 114, 101, 110, 116, 0, 2, 111, 49, 0, 111, 50, 0,
   48, 2, 0, 22, 1, 1, 49, 1, 48, 2, 0, 22, 2, 2, 7, 0]

/-- The heap the decoder rebuilds for scenario S4. -/
def cycleDecodedHeap : Heap :=
  [(0, .obj [(nameKey, .str [111, 49]), (childrenKey, .ref 1)]),
   (1, .arr [.ref 2]),
   (2, .obj [(nameKey, .str [111, 50]), (parentKey, .ref 0)])]

/-- The heap of scenario S5: `b = [1,2,3]` at address 0 and
`o = {x:b, y:b}` at address 1 — shared but acyclic. -/
def sharedHeap : Heap :=
  [(0, .arr [.num (.ival 1), .num (.ival 2), .num (.ival 3)]),
   (1, .obj [([120], .ref 0), ([121], .ref 0)])]

/-- The bytes `encode` produces for scenario S5: the version byte is 1,
without the NOCYCLE bit, because the second occurrence of `b` was emitted
by reference. -/
def sharedBytes : List Nat :=
  [1, 2, 120, 0, 121, 0, 0, 48, 2, 0, 49, 3, 18, 1, 18, 2, 18, 3, 1, 7, 3]

/-! ## Wire-format helper notions used by the correctness lemmas -/

/-- Strings that survive the NUL-terminated wire encoding: every byte is a
real byte and none is NUL. -/
def okString (s : List Nat) : Prop := ∀ b ∈ s, b < 256 ∧ b ≠ 0

/-- The wire form of one NUL-terminated string. -/
def cstringBytes (s : List Nat) : List Nat := s.map (· % 256) ++ [0]


/-- The decoder's reference map with all keys (absolute positions) shifted
by `d` — the effect of `d` extra header bytes before the payload. -/
def shiftRefs (d : Nat) (rs : List (Nat × Addr)) : List (Nat × Addr) :=
  rs.map (fun p => (p.1 + d, p.2))

/-- Simulation between a decoder state and the same state as it appears
when the whole stream is preceded by `d` extra header bytes: the unread
suffix is the same, the cursor and the payload offset are shifted by `d`,
the reference-map keys are shifted by `d`, and everything else agrees. -/
def simSt (d : Nat) (st st' : DecSt) : Prop :=
  st.input.drop st.pos = st'.input.drop st'.pos ∧
  st.pos ≤ st.input.length ∧
  st'.pos ≤ st'.input.length ∧
  st'.pos = st.pos + d ∧
  st'.offset = st.offset + d ∧
  st'.object_refs = shiftRefs d st.object_refs ∧
  st'.string_keys = st.string_keys ∧
  st'.string_refs = st.string_refs ∧
  st'.hasCycle = st.hasCycle ∧
  st'.heap = st.heap ∧
  st'.nextAddr = st.nextAddr

/-- Lift of `simSt` to results carrying a value. -/
def simExc {α : Type} (d : Nat) : Except Err (α × DecSt) → Except Err (α × DecSt) → Prop
  | .error e, .error e2 => e = e2
  | .ok p, .ok p2 => p.1 = p2.1 ∧ simSt d p.2 p2.2
  | _, _ => False

/-- Lift of `simSt` to plain state results. -/
def simExcSt (d : Nat) : Except Err DecSt → Except Err DecSt → Prop
  | .error e, .error e2 => e = e2
  | .ok s, .ok s2 => simSt d s s2
  | _, _ => False

/-- The decoder invariant of a NOCYCLE run: the cycle flag is off and the
reference map is (and stays) empty. -/
def decP (st : DecSt) : Prop := st.hasCycle = false ∧ st.object_refs = []

/-- The tail of `unserializeTOS` after the version byte and the optional
stored CRC have been read (a definitional abbreviation, see
`unserializeTOS_eq`). -/
def tosTail (version : Nat) (crc : Option Nat) (st0 : DecSt) : Except Err DecSt :=
  unserializeCount
      (if version &&& OPTION_NOCYCLE ≠ 0 then { st0 with hasCycle := false } else st0) >>=
    fun nk =>
      unserializeCount
          { (readStringsLoop nk.1.toNat nk.2).2 with
            string_keys := (readStringsLoop nk.1.toNat nk.2).1 } >>= fun ns =>
        match crc with
        | some c =>
            if crc32 ((({ (readStringsLoop ns.1.toNat ns.2).2 with
                string_refs := (readStringsLoop ns.1.toNat ns.2).1 } : DecSt).input.drop
                ({ (readStringsLoop ns.1.toNat ns.2).2 with
                  string_refs := (readStringsLoop ns.1.toNat ns.2).1 } : DecSt).pos).map
                (· % 256)) ≠ c then
              Except.error Err.checksumMismatch
            else
              Except.ok { (readStringsLoop ns.1.toNat ns.2).2 with
                string_refs := (readStringsLoop ns.1.toNat ns.2).1 }
        | none =>
            Except.ok { (readStringsLoop ns.1.toNat ns.2).2 with
              string_refs := (readStringsLoop ns.1.toNat ns.2).1 }

/-- Every successful outcome of `r` satisfies the NOCYCLE invariant. -/
def presP {α : Type} (r : Except Err (α × DecSt)) : Prop :=
  ∀ a s2, r = .ok (a, s2) → decP s2

def presPSt (r : Except Err DecSt) : Prop :=
  ∀ s2, r = .ok s2 → decP s2

/-- All bytes in the encoder's output stream are real bytes (< 256). -/
def outBytes (st : EncSt) : Prop := ∀ b ∈ st.out, b < 256

/-- The wire form of one string table (without its count). -/
def tableBytes : List (List Nat) → List Nat
  | [] => []
  | s :: rest => cstringBytes s ++ tableBytes rest

/-! Tree-shaped inputs: the spec's Value universe restricted to values in
which no container appears more than once is exactly the values whose
containers form a tree; `TVal` is that tree shape, with the spine of
objects and arrays made explicit for mutual recursion. -/

mutual
inductive TVal where
  | vundef
  | vnull
  | vbool (b : Bool)
  | vnum (n : JSNum)
  | vstr (s : List Nat)
  | vdate (bits : Nat)
  | vbytes (bs : List Nat)
  | vobj (fs : TFields)
  | varr (es : TList)
deriving DecidableEq, Repr
inductive TFields where
  | fnil
  | fcons (k : List Nat) (v : TVal) (rest : TFields)
deriving DecidableEq, Repr
inductive TList where
  | lnil
  | lcons (v : TVal) (rest : TList)
deriving DecidableEq, Repr
end

/-! Lay a tree out in a heap: containers get consecutive addresses in
pre-order starting at `base`, exactly the order in which the decoder's
bump allocator hands them out.  Returns the value, the heap cells of the
subtree (container cell first, then the descendants), and the next free
address. -/
mutual
def flattenV : TVal → Addr → JSVal × Heap × Addr
  | .vundef, a => (.undef, [], a)
  | .vnull, a => (.null, [], a)
  | .vbool b, a => (.bool b, [], a)
  | .vnum n, a => (.num n, [], a)
  | .vstr s, a => (.str s, [], a)
  | .vdate bits, a => (.date bits, [], a)
  | .vbytes bs, a => (.bytes bs, [], a)
  | .vobj fs, a =>
      let r := flattenF fs (a + 1)
      (.ref a, (a, .obj r.1) :: r.2.1, r.2.2)
  | .varr es, a =>
      let r := flattenL es (a + 1)
      (.ref a, (a, .arr r.1) :: r.2.1, r.2.2)
def flattenF : TFields → Addr → List (List Nat × JSVal) × Heap × Addr
  | .fnil, a => ([], [], a)
  | .fcons k v rest, a =>
      let rv := flattenV v a
      let rr := flattenF rest rv.2.2
      ((k, rv.1) :: rr.1, rv.2.1 ++ rr.2.1, rr.2.2)
def flattenL : TList → Addr → List JSVal × Heap × Addr
  | .lnil, a => ([], [], a)
  | .lcons v rest, a =>
      let rv := flattenV v a
      let rr := flattenL rest rv.2.2
      (rv.1 :: rr.1, rv.2.1 ++ rr.2.1, rr.2.2)
end

/-! Container-nesting depth: the fuel each walk spends. -/
mutual
def depthV : TVal → Nat
  | .vobj fs => 1 + depthF fs
  | .varr es => 1 + depthL es
  | _ => 1
def depthF : TFields → Nat
  | .fnil => 0
  | .fcons _ v rest => max (depthV v) (depthF rest)
def depthL : TList → Nat
  | .lnil => 0
  | .lcons v rest => max (depthV v) (depthL rest)
end

/-- The keys of a field spine, in order. -/
def fkeys : TFields → List (List Nat)
  | .fnil => []
  | .fcons k _ rest => k :: fkeys rest

/-- The number of fields / elements. -/
def flen : TFields → Nat
  | .fnil => 0
  | .fcons _ _ rest => 1 + flen rest

def llen : TList → Nat
  | .lnil => 0
  | .lcons _ rest => 1 + llen rest

/-! Well-formedness: the value lies in the spec's universe (32-bit
integers, 64-bit float/date patterns, byte-valued buffers), strings and
property names are NUL-free byte strings, sizes fit the varint reader's
exact range, and no object has two properties with the same name. -/
mutual
def wfV : TVal → Prop
  | .vundef => True
  | .vnull => True
  | .vbool _ => True
  | .vnum n =>
      match n with
      | .ival i => -2147483648 ≤ i ∧ i < 4294967296
      | .fval bits => bits < 18446744073709551616
  | .vstr s => okString s
  | .vdate bits => bits < 18446744073709551616
  | .vbytes bs => (∀ b ∈ bs, b < 256) ∧ bs.length < 2147483648
  | .vobj fs => wfF fs ∧ flen fs < 2147483648 ∧ (fkeys fs).Nodup
  | .varr es => wfL es ∧ llen es < 2147483648
def wfF : TFields → Prop
  | .fnil => True
  | .fcons k v rest => okString k ∧ wfV v ∧ wfF rest
def wfL : TList → Prop
  | .lnil => True
  | .lcons v rest => wfV v ∧ wfL rest
end

/-- The tables-only-grow relation. -/
def tabExt (t1 t2 : List (List Nat)) : Prop := ∃ t, t1 ++ t = t2

/-! The number of containers in a tree: how many addresses flattening
consumes and how many cells the decoder allocates. -/
mutual
def cntV : TVal → Nat
  | .vobj fs => 1 + cntF fs
  | .varr es => 1 + cntL es
  | _ => 0
def cntF : TFields → Nat
  | .fnil => 0
  | .fcons _ v rest => cntV v + cntF rest
def cntL : TList → Nat
  | .lnil => 0
  | .lcons v rest => cntV v + cntL rest
end

/-! Totals of property names and of non-empty-capable string values in a
tree: upper bounds on the growth of the two interning tables. -/
mutual
def nkeysV : TVal → Nat
  | .vobj fs => nkeysF fs
  | .varr es => nkeysL es
  | _ => 0
def nkeysF : TFields → Nat
  | .fnil => 0
  | .fcons _ v rest => 1 + nkeysV v + nkeysF rest
def nkeysL : TList → Nat
  | .lnil => 0
  | .lcons v rest => nkeysV v + nkeysL rest
end

mutual
def nstrsV : TVal → Nat
  | .vstr _ => 1
  | .vobj fs => nstrsF fs
  | .varr es => nstrsL es
  | _ => 0
def nstrsF : TFields → Nat
  | .fnil => 0
  | .fcons _ v rest => nstrsV v + nstrsF rest
def nstrsL : TList → Nat
  | .lnil => 0
  | .lcons v rest => nstrsV v + nstrsL rest
end

/-! The round-trip induction statement, one per spine type.  Phase A: the
encoder serializes the flattened value from any state whose identity map
only holds earlier addresses, extending the output by some byte string
`B`, growing the interning tables, preserving the cycle flag, and
registering only subtree addresses.  Phase B (about the same `B`): from
any decoder state whose cursor sits on `B`, whose tables extend the
encoder's, and whose cycle flag is off, the decoder consumes exactly `B`
and rebuilds the flattened value at its own bump allocator's addresses. -/

def StmtV (t : TVal) : Prop :=
  ∀ (h : Heap) (base : Addr) (st : EncSt) (fuel : Nat),
    wfV t →
    (∀ p ∈ (flattenV t base).2.1, h.lookup p.1 = some p.2) →
    (∀ q ∈ st.object_refs, q.1 < base) →
    depthV t ≤ fuel →
    st.string_keys.length + nkeysV t < 2147483648 →
    st.string_refs.length + nstrsV t < 2147483648 →
    ∃ st' B,
      serializeComponent h fuel (flattenV t base).1 st = .ok st' ∧
      st'.out = st.out ++ B ∧
      st'.hasCycle = st.hasCycle ∧
      tabExt st.string_keys st'.string_keys ∧
      tabExt st.string_refs st'.string_refs ∧
      st'.string_keys.length ≤ st.string_keys.length + nkeysV t ∧
      st'.string_refs.length ≤ st.string_refs.length + nstrsV t ∧
      (∀ q ∈ st'.object_refs, q.1 < (flattenV t base).2.2) ∧
      (∀ s ∈ st'.string_keys, s ∈ st.string_keys ∨ okString s) ∧
      (∀ s ∈ st'.string_refs, s ∈ st.string_refs ∨ okString s) ∧
      depthV t ≤ B.length ∧
      (∀ (Kfin Sfin : List (List Nat)) (dfuel : Nat) (ds : DecSt) (pre post : List Nat),
        tabExt st'.string_keys Kfin → tabExt st'.string_refs Sfin →
        Kfin.length < 2147483648 → Sfin.length < 2147483648 →
        depthV t ≤ dfuel →
        ds.input = pre ++ B ++ post → ds.pos = pre.length →
        ds.hasCycle = false → ds.string_keys = Kfin → ds.string_refs = Sfin →
        ds.heap.map Prod.fst = List.range' 0 ds.nextAddr →
        unserializeComponent dfuel ds =
          .ok ((flattenV t ds.nextAddr).1,
            { ds with
              pos := ds.pos + B.length,
              heap := ds.heap ++ (flattenV t ds.nextAddr).2.1,
              nextAddr := (flattenV t ds.nextAddr).2.2 }))

def StmtF (fs : TFields) : Prop :=
  ∀ (h : Heap) (base : Addr) (st : EncSt) (fuel : Nat),
    wfF fs →
    (fkeys fs).Nodup →
    (∀ p ∈ (flattenF fs base).2.1, h.lookup p.1 = some p.2) →
    (∀ q ∈ st.object_refs, q.1 < base) →
    depthF fs ≤ fuel →
    st.string_keys.length + nkeysF fs < 2147483648 →
    st.string_refs.length + nstrsF fs < 2147483648 →
    ∃ st' B,
      serializeFields (serializeComponent h fuel) ((flattenF fs base).1) st = .ok st' ∧
      st'.out = st.out ++ B ∧
      st'.hasCycle = st.hasCycle ∧
      tabExt st.string_keys st'.string_keys ∧
      tabExt st.string_refs st'.string_refs ∧
      st'.string_keys.length ≤ st.string_keys.length + nkeysF fs ∧
      st'.string_refs.length ≤ st.string_refs.length + nstrsF fs ∧
      (∀ q ∈ st'.object_refs, q.1 < (flattenF fs base).2.2) ∧
      (∀ s ∈ st'.string_keys, s ∈ st.string_keys ∨ okString s) ∧
      (∀ s ∈ st'.string_refs, s ∈ st.string_refs ∨ okString s) ∧
      depthF fs ≤ B.length ∧
      (∀ (Kfin Sfin : List (List Nat)) (dfuel : Nat) (ds : DecSt) (pre post : List Nat)
        (aObj : Addr) (H1 : Heap) (F0 : List (List Nat × JSVal)) (H2 : Heap),
        tabExt st'.string_keys Kfin → tabExt st'.string_refs Sfin →
        Kfin.length < 2147483648 → Sfin.length < 2147483648 →
        depthF fs ≤ dfuel →
        ds.input = pre ++ B ++ post → ds.pos = pre.length →
        ds.hasCycle = false → ds.string_keys = Kfin → ds.string_refs = Sfin →
        ds.heap = H1 ++ [(aObj, .obj F0)] ++ H2 →
        ds.heap.map Prod.fst = List.range' 0 ds.nextAddr →
        (∀ k ∈ fkeys fs, ∀ p ∈ F0, p.1 ≠ k) →
        unserializeObjectLoop (unserializeComponent dfuel) aObj (flen fs) ds =
          .ok { ds with
            pos := ds.pos + B.length,
            heap := H1 ++ [(aObj, .obj (F0 ++ (flattenF fs ds.nextAddr).1))] ++
              (H2 ++ (flattenF fs ds.nextAddr).2.1),
            nextAddr := (flattenF fs ds.nextAddr).2.2 })

def StmtL (es : TList) : Prop :=
  ∀ (h : Heap) (base : Addr) (st : EncSt) (fuel : Nat),
    wfL es →
    (∀ p ∈ (flattenL es base).2.1, h.lookup p.1 = some p.2) →
    (∀ q ∈ st.object_refs, q.1 < base) →
    depthL es ≤ fuel →
    st.string_keys.length + nkeysL es < 2147483648 →
    st.string_refs.length + nstrsL es < 2147483648 →
    ∃ st' B,
      serializeElems (serializeComponent h fuel) ((flattenL es base).1) st = .ok st' ∧
      st'.out = st.out ++ B ∧
      st'.hasCycle = st.hasCycle ∧
      tabExt st.string_keys st'.string_keys ∧
      tabExt st.string_refs st'.string_refs ∧
      st'.string_keys.length ≤ st.string_keys.length + nkeysL es ∧
      st'.string_refs.length ≤ st.string_refs.length + nstrsL es ∧
      (∀ q ∈ st'.object_refs, q.1 < (flattenL es base).2.2) ∧
      (∀ s ∈ st'.string_keys, s ∈ st.string_keys ∨ okString s) ∧
      (∀ s ∈ st'.string_refs, s ∈ st.string_refs ∨ okString s) ∧
      depthL es ≤ B.length ∧
      (∀ (Kfin Sfin : List (List Nat)) (dfuel : Nat) (ds : DecSt) (pre post : List Nat)
        (aArr : Addr) (H1 : Heap) (E0 : List JSVal) (H2 : Heap),
        tabExt st'.string_keys Kfin → tabExt st'.string_refs Sfin →
        Kfin.length < 2147483648 → Sfin.length < 2147483648 →
        depthL es ≤ dfuel →
        ds.input = pre ++ B ++ post → ds.pos = pre.length →
        ds.hasCycle = false → ds.string_keys = Kfin → ds.string_refs = Sfin →
        ds.heap = H1 ++ [(aArr, .arr E0)] ++ H2 →
        ds.heap.map Prod.fst = List.range' 0 ds.nextAddr →
        unserializeArrayLoop (unserializeComponent dfuel) aArr (llen es) ds =
          .ok { ds with
            pos := ds.pos + B.length,
            heap := H1 ++ [(aArr, .arr (E0 ++ (flattenL es ds.nextAddr).1))] ++
              (H2 ++ (flattenL es ds.nextAddr).2.1),
            nextAddr := (flattenL es ds.nextAddr).2.2 })

end JSBON

namespace JSBON

/-! ## Bitwise arithmetic lemmas -/

theorem xor_mod_two_pow (x y k : Nat) : (x ^^^ y) % 2 ^ k = x % 2 ^ k ^^^ y % 2 ^ k := by
  apply Nat.eq_of_testBit_eq
  intro i
  simp only [Nat.testBit_mod_two_pow, Nat.testBit_xor]
  by_cases h : i < k <;> simp [h]

theorem xor_div_two_pow (x y k : Nat) : (x ^^^ y) / 2 ^ k = x / 2 ^ k ^^^ y / 2 ^ k := by
  induction k with
  | zero => simp
  | succ k ih =>
      have e : ∀ z : Nat, z / 2 ^ (k + 1) = z / 2 ^ k / 2 := by
        intro z
        rw [Nat.pow_succ, Nat.div_div_eq_div_mul]
      rw [e, e, e, ih, Nat.xor_div_two]

theorem xor_left_comm (a b c : Nat) : a ^^^ (b ^^^ c) = b ^^^ (a ^^^ c) := by
  rw [← Nat.xor_assoc, Nat.xor_comm a b, Nat.xor_assoc]

theorem xor_lt_32 {a b : Nat} (ha : a < 4294967296) (hb : b < 4294967296) :
    a ^^^ b < 4294967296 := by
  have e : (4294967296 : Nat) = 2 ^ 32 := by norm_num
  rw [e] at ha hb ⊢
  exact Nat.xor_lt_two_pow ha hb

theorem xor_lt_256 {a b : Nat} (ha : a < 256) (hb : b < 256) : a ^^^ b < 256 := by
  have e : (256 : Nat) = 2 ^ 8 := by norm_num
  rw [e] at ha hb ⊢
  exact Nat.xor_lt_two_pow ha hb

/-! ## CRC-32 single-byte-error detection

The table is a linear map over GF(2): each of its eight generating steps
is linear, so `crcTable (i ^^^ j) = crcTable i ^^^ crcTable j`.  The state
update is therefore affine in the state with the byte only contributing an
additive term, so the xor-difference of two runs over a common suffix
evolves byte-independently by `d ↦ d >>> 8 ^^^ crcTable (d &&& 255)`.
That map kills no nonzero 32-bit difference: for a nonzero low byte the
table entry is at least `2^24` (a finite check over the 255 entries) while
the shifted part is below `2^24`, and for a zero low byte the map is a
plain shift.  Hence two payloads that differ in exactly one byte have
different CRC-32 values. -/

theorem crcStep_eq (t : Nat) : crcStep t = t / 2 ^^^ t % 2 * 3988292384 := by
  unfold crcStep
  rcases Nat.mod_two_eq_zero_or_one t with h | h <;> simp [h, Nat.xor_comm]

theorem crcStep_xor (a b : Nat) : crcStep (a ^^^ b) = crcStep a ^^^ crcStep b := by
  rw [crcStep_eq, crcStep_eq, crcStep_eq, Nat.xor_div_two]
  have hm : (a ^^^ b) % 2 = a % 2 ^^^ b % 2 := by
    have := xor_mod_two_pow a b 1
    simpa using this
  rw [hm]
  rcases Nat.mod_two_eq_zero_or_one a with ha | ha <;>
    rcases Nat.mod_two_eq_zero_or_one b with hb | hb <;>
      simp [ha, hb, Nat.xor_assoc, Nat.xor_comm, xor_left_comm, Nat.xor_self]

theorem crcTable_xor (i j : Nat) : crcTable (i ^^^ j) = crcTable i ^^^ crcTable j := by
  unfold crcTable
  induction 8 with
  | zero => simp
  | succ n ih => simp [Function.iterate_succ_apply', ih, crcStep_xor]

theorem crcTable_zero : crcTable 0 = 0 := rfl

set_option maxRecDepth 4000 in
theorem crcTable_big : ∀ i, i < 256 → i ≠ 0 → 16777216 ≤ crcTable i := by decide

set_option maxRecDepth 4000 in
theorem crcTable_lt32 : ∀ i, i < 256 → crcTable i < 4294967296 := by decide

theorem crcUpdate_lt {crc : Nat} (hc : crc < 4294967296) (b : Nat) :
    crcUpdate crc b < 4294967296 := by
  unfold crcUpdate
  have hidx : (crc % 256) ^^^ (b % 256) < 256 :=
    xor_lt_256 (Nat.mod_lt _ (by norm_num)) (Nat.mod_lt _ (by norm_num))
  exact xor_lt_32 (lt_of_le_of_lt (Nat.div_le_self _ _) hc) (crcTable_lt32 _ hidx)

theorem crcUpdate_diff_state (c1 c2 b : Nat) :
    crcUpdate c1 b ^^^ crcUpdate c2 b =
      (c1 ^^^ c2) / 256 ^^^ crcTable ((c1 ^^^ c2) % 256) := by
  unfold crcUpdate
  have e256 : (256 : Nat) = 2 ^ 8 := by norm_num
  rw [e256, xor_div_two_pow, xor_mod_two_pow, crcTable_xor, crcTable_xor, crcTable_xor]
  simp [Nat.xor_assoc, Nat.xor_comm, xor_left_comm, Nat.xor_self, Nat.xor_cancel_left,
    Nat.xor_cancel_right]

theorem crcUpdate_diff_byte (c x y : Nat) :
    crcUpdate c x ^^^ crcUpdate c y = crcTable (x % 256 ^^^ y % 256) := by
  unfold crcUpdate
  rw [crcTable_xor, crcTable_xor, crcTable_xor]
  simp [Nat.xor_assoc, Nat.xor_comm, xor_left_comm, Nat.xor_self, Nat.xor_cancel_left,
    Nat.xor_cancel_right]

theorem crcDiff_ne_zero {d : Nat} (hd : d ≠ 0) (hlt : d < 4294967296) :
    d / 256 ^^^ crcTable (d % 256) ≠ 0 := by
  intro h
  have he : d / 256 = crcTable (d % 256) := Nat.xor_eq_zero.mp h
  by_cases hlo : d % 256 = 0
  · rw [hlo, crcTable_zero] at he
    omega
  · have hbig : 16777216 ≤ crcTable (d % 256) :=
      crcTable_big _ (Nat.mod_lt _ (by norm_num)) hlo
    omega

theorem foldl_crcUpdate_lt {c : Nat} (hc : c < 4294967296) (l : List Nat) :
    l.foldl crcUpdate c < 4294967296 := by
  induction l generalizing c with
  | nil => simpa using hc
  | cons b rest ih => exact ih (crcUpdate_lt hc b)

theorem foldl_crcUpdate_ne (suffix : List Nat) :
    ∀ c1 c2 : Nat, c1 < 4294967296 → c2 < 4294967296 → c1 ≠ c2 →
      suffix.foldl crcUpdate c1 ≠ suffix.foldl crcUpdate c2 := by
  induction suffix with
  | nil => intro c1 c2 _ _ hne; simpa using hne
  | cons b rest ih =>
      intro c1 c2 h1 h2 hne
      simp only [List.foldl_cons]
      apply ih _ _ (crcUpdate_lt h1 b) (crcUpdate_lt h2 b)
      intro he
      have h0 : crcUpdate c1 b ^^^ crcUpdate c2 b = 0 := by rw [he, Nat.xor_self]
      rw [crcUpdate_diff_state] at h0
      exact crcDiff_ne_zero (fun h => hne (Nat.xor_eq_zero.mp h)) (xor_lt_32 h1 h2) h0

/-- Two byte lists that differ in exactly one byte position (as bytes, i.e.
mod 256) have different CRC-32 values. -/
theorem crc32_ne_of_byte_change (pre suf : List Nat) (x y : Nat)
    (hxy : x % 256 ≠ y % 256) :
    crc32 (pre ++ x :: suf) ≠ crc32 (pre ++ y :: suf) := by
  unfold crc32
  intro he
  have hf : (pre ++ x :: suf).foldl crcUpdate 4294967295 =
      (pre ++ y :: suf).foldl crcUpdate 4294967295 := by
    have h2 := congrArg (fun z => z ^^^ 4294967295) he
    simpa [Nat.xor_assoc, Nat.xor_self] using h2
  rw [List.foldl_append, List.foldl_append] at hf
  simp only [List.foldl_cons] at hf
  have hc : List.foldl crcUpdate 4294967295 pre < 4294967296 :=
    foldl_crcUpdate_lt (by norm_num) pre
  refine foldl_crcUpdate_ne suf _ _ (crcUpdate_lt hc x) (crcUpdate_lt hc y) ?_ hf
  intro he2
  have h0 : crcUpdate (List.foldl crcUpdate 4294967295 pre) x ^^^
      crcUpdate (List.foldl crcUpdate 4294967295 pre) y = 0 := by rw [he2, Nat.xor_self]
  rw [crcUpdate_diff_byte] at h0
  have hne2 : x % 256 ^^^ y % 256 ≠ 0 := fun h => hxy (Nat.xor_eq_zero.mp h)
  have hlt : x % 256 ^^^ y % 256 < 256 :=
    xor_lt_256 (Nat.mod_lt _ (by norm_num)) (Nat.mod_lt _ (by norm_num))
  have := crcTable_big _ hlt hne2
  omega

end JSBON

namespace JSBON

/-! ## JS 32-bit arithmetic on small values, and the varint round trip

On values below 2^31 the JS signed 32-bit reinterpretation is the
identity, the shift is a plain multiplication, and the or of values with
disjoint bit ranges is their sum; the varint writer/reader pair is then
exact for every count below 2^31 (and only there - see claim C5). -/

theorem toInt32_small {x : Int} (h1 : 0 ≤ x) (h2 : x < 2147483648) : toInt32 x = x := by
  unfold toInt32
  omega

theorem toUint32_natCast {n : Nat} (h : n < 4294967296) : toUint32 (n : Int) = n := by
  unfold toUint32
  omega

theorem jsShl_small {m s : Nat} (hs : s < 32) (h : m * 2 ^ s < 2147483648) :
    jsShl (m : Int) s = ((m * 2 ^ s : Nat) : Int) := by
  unfold jsShl
  have hm : m < 4294967296 := by
    have h1 : m ≤ m * 2 ^ s := Nat.le_mul_of_pos_right m (Nat.two_pow_pos s)
    omega
  rw [Nat.mod_eq_of_lt hs, toUint32_natCast hm]
  exact toInt32_small (by positivity) (by exact_mod_cast h)

theorem lor_disjoint {a b n : Nat} (ha : a < 2 ^ n) : a ||| b * 2 ^ n = a + b * 2 ^ n := by
  have h := Nat.mul_add_lt_is_or ha b
  rw [Nat.lor_comm, Nat.mul_comm b]
  omega

theorem jsOr_disjoint {a m k : Nat} (ha : a < 2 ^ k)
    (hsum : a + m * 2 ^ k < 2147483648) :
    jsOr (a : Int) ((m * 2 ^ k : Nat) : Int) = ((a + m * 2 ^ k : Nat) : Int) := by
  unfold jsOr
  rw [toUint32_natCast (by omega), toUint32_natCast (by omega), lor_disjoint ha]
  exact toInt32_small (by positivity) (by exact_mod_cast hsum)

set_option maxRecDepth 2000 in
theorem byte_and_128 : ∀ bb, bb < 256 → bb &&& 128 = if 128 ≤ bb then 128 else 0 := by decide

set_option maxRecDepth 2000 in
theorem byte_and_127 : ∀ bb, bb < 256 → bb &&& 127 = bb % 128 := by decide

theorem countAux_cons_stop {b : Nat} (hb : b % 256 &&& 128 = 0) (rest : List Nat)
    (k : Nat) (acc : Int) :
    unserializeCountAux (b :: rest) k acc =
      some (jsOr acc (jsShl ((b % 256 &&& 127 : Nat) : Int) (7 * k)), 1) := by
  simp [unserializeCountAux, hb]

theorem countAux_cons_go {b : Nat} (hb : b % 256 &&& 128 ≠ 0) (rest : List Nat)
    (k : Nat) (acc : Int) :
    unserializeCountAux (b :: rest) k acc =
      (unserializeCountAux rest (k + 1)
        (jsOr acc (jsShl ((b % 256 &&& 127 : Nat) : Int) (7 * k)))).map
          (fun p => (p.1, p.2 + 1)) := by
  simp [unserializeCountAux, hb]


theorem two_pow_7k_dvd {k : Nat} (hk : 7 * k ≤ 31) : (2:Nat) ^ (7 * k) ∣ 2147483648 := by
  have e : (2147483648 : Nat) = 2 ^ 31 := by norm_num
  rw [e]
  exact pow_dvd_pow 2 hk

theorem varint_next_multiple {c k : Nat} (hk : 7 * k ≤ 31)
    (hbound : c * 2 ^ (7 * k) < 2147483648) :
    c * 2 ^ (7 * k) + 2 ^ (7 * k) ≤ 2147483648 := by
  rcases two_pow_7k_dvd hk with ⟨q, hq⟩
  have hcq : c + 1 ≤ q := by
    rcases Nat.lt_or_ge c q with h | h
    · omega
    · exfalso
      have h2 : q * 2 ^ (7 * k) ≤ c * 2 ^ (7 * k) := Nat.mul_le_mul_right _ h
      rw [Nat.mul_comm] at hq
      omega
  have h3 : (c + 1) * 2 ^ (7 * k) ≤ q * 2 ^ (7 * k) := Nat.mul_le_mul_right _ hcq
  rw [Nat.mul_comm] at hq
  have h4 : (c + 1) * 2 ^ (7 * k) = c * 2 ^ (7 * k) + 2 ^ (7 * k) := by ring
  omega

theorem varint_roundtrip_aux (c : Nat) :
    ∀ k acc rest, k ≤ 4 → acc < 2 ^ (7 * k) → c * 2 ^ (7 * k) < 2147483648 →
      unserializeCountAux (serializeCountAux (5 - k) c ++ rest) k ((acc : Nat) : Int) =
        some (((acc + c * 2 ^ (7 * k) : Nat) : Int), (serializeCountAux (5 - k) c).length) := by
  induction c using Nat.strong_induction_on with
  | _ c ih =>
    intro k acc rest hk hacc hbound
    have hfuel : 5 - k = (4 - k) + 1 := by omega
    have hstep := varint_next_multiple (by omega) hbound
    by_cases hc : c < 128
    · rw [hfuel]
      simp only [serializeCountAux, if_pos hc, List.cons_append, List.nil_append]
      have hcb : c % 256 = c := Nat.mod_eq_of_lt (by omega)
      have e1 : c % 256 &&& 128 = 0 := by
        rw [hcb, byte_and_128 c (by omega), if_neg (by omega)]
      rw [countAux_cons_stop e1]
      have e2 : ((c % 256 &&& 127 : Nat) : Int) = ((c : Nat) : Int) := by
        rw [hcb, byte_and_127 c (by omega), Nat.mod_eq_of_lt hc]
      have hsum : acc + c * 2 ^ (7 * k) < 2147483648 := by omega
      rw [e2, jsShl_small (by omega) (by omega), jsOr_disjoint hacc hsum]
      rfl
    · have hk3 : k ≤ 3 := by
        by_contra hgt
        have hke : k = 4 := by omega
        subst hke
        have h2 : 128 * 2 ^ (7 * 4) ≤ c * 2 ^ (7 * 4) :=
          Nat.mul_le_mul_right _ (by omega)
        omega
      rw [hfuel]
      simp only [serializeCountAux, if_neg hc, List.cons_append]
      have hbb : (c % 128 + 128) % 256 = c % 128 + 128 := Nat.mod_eq_of_lt (by omega)
      have e1 : (c % 128 + 128) % 256 &&& 128 ≠ 0 := by
        rw [hbb, byte_and_128 _ (by omega), if_pos (by omega)]
        norm_num
      rw [countAux_cons_go e1]
      have e2 : (((c % 128 + 128) % 256 &&& 127 : Nat) : Int) = ((c % 128 : Nat) : Int) := by
        rw [hbb, byte_and_127 _ (by omega)]
        norm_num [Nat.add_mod]
      have hchle : c % 128 * 2 ^ (7 * k) ≤ c * 2 ^ (7 * k) :=
        Nat.mul_le_mul_right _ (Nat.mod_le c 128)
      have hchunk : c % 128 * 2 ^ (7 * k) < 2147483648 := by omega
      have hsum2 : acc + c % 128 * 2 ^ (7 * k) < 2147483648 := by omega
      rw [e2, jsShl_small (by omega) hchunk, jsOr_disjoint hacc hsum2]
      have he : (2:Nat) ^ (7 * (k + 1)) = 128 * 2 ^ (7 * k) := by
        have : 7 * (k + 1) = 7 * k + 7 := by ring
        rw [this, Nat.pow_add]
        ring
      have h127 : c % 128 * 2 ^ (7 * k) ≤ 127 * 2 ^ (7 * k) :=
        Nat.mul_le_mul_right _ (by omega)
      have hassoc : c / 128 * 2 ^ (7 * (k + 1)) = c / 128 * 128 * 2 ^ (7 * k) := by
        rw [he]
        ring
      have hdivle : c / 128 * 128 * 2 ^ (7 * k) ≤ c * 2 ^ (7 * k) :=
        Nat.mul_le_mul_right _ (Nat.div_mul_le_self c 128)
      have hc128 : c / 128 * 128 + c % 128 = c := by
        have := Nat.div_add_mod c 128
        omega
      have hsplit : c * 2 ^ (7 * k) = c / 128 * 128 * 2 ^ (7 * k) + c % 128 * 2 ^ (7 * k) := by
        conv_lhs => rw [← hc128]
        ring
      have hrec := ih (c / 128) (by omega) (k + 1) (acc + c % 128 * 2 ^ (7 * k)) rest
        (by omega) (by omega) (by omega)
      have hfe : 5 - (k + 1) = 4 - k := by omega
      rw [hfe] at hrec
      rw [hrec]
      have hval : acc + c % 128 * 2 ^ (7 * k) + c / 128 * 2 ^ (7 * (k + 1)) =
          acc + c * 2 ^ (7 * k) := by omega
      simp [hval]

theorem varint_roundtrip {c : Nat} (h : c < 2147483648) (rest : List Nat) :
    unserializeCountBytes (serializeCountBytes c ++ rest) =
      some ((c : Int), (serializeCountBytes c).length) := by
  have h0 := varint_roundtrip_aux c 0 0 rest (by omega) (by norm_num) (by simpa using h)
  simpa [unserializeCountBytes, serializeCountBytes] using h0

end JSBON

namespace JSBON

/-! ## Positional parsing lemmas

Each reader is characterised on an input decomposed as
`prefix ++ (bytes being read) ++ suffix` with the cursor at the start of
the middle part; the suffix is arbitrary, so the lemmas compose. -/

theorem map_mod_id {s : List Nat} (hs : ∀ b ∈ s, b < 256) : s.map (· % 256) = s := by
  induction s with
  | nil => rfl
  | cons b rest ih =>
      have hb := hs b (by simp)
      simp only [List.map_cons, Nat.mod_eq_of_lt hb, List.cons.injEq, true_and]
      exact ih (fun x hx => hs x (by simp [hx]))

theorem takeWhile_nulfree {s : List Nat} (hs : okString s) (post : List Nat) :
    (s ++ 0 :: post).takeWhile (fun b => b % 256 ≠ 0) = s := by
  induction s with
  | nil => simp [List.takeWhile]
  | cons b rest ih =>
      have hb := hs b (by simp)
      have hmod : b % 256 = b := Nat.mod_eq_of_lt hb.1
      simp only [List.cons_append, List.takeWhile_cons]
      rw [hmod, if_pos (by simpa using hb.2)]
      have h2 := ih (fun x hx => hs x (by simp [hx]))
      simpa using h2

theorem drop_pre {α : Type} (pre rest : List α) : (pre ++ rest).drop pre.length = rest := by
  simp

theorem readCString_spec {st : DecSt} {pre s post : List Nat} (hs : okString s)
    (hin : st.input = pre ++ s ++ 0 :: post) (hpos : st.pos = pre.length) :
    readCString st = (s, { st with pos := st.pos + (s.length + 1) }) := by
  have hdrop : st.input.drop st.pos = s ++ 0 :: post := by
    rw [hin, hpos, List.append_assoc, drop_pre]
  simp only [readCString, hdrop, takeWhile_nulfree hs post,
    map_mod_id (fun b hb => (hs b hb).1)]
  have hlen : s.length < (s ++ 0 :: post).length := by
    simp
  rw [if_pos hlen]

theorem readStringsLoop_spec :
    ∀ (L : List (List Nat)) (pre post : List Nat) (st : DecSt),
      (∀ s ∈ L, okString s) →
      st.input = pre ++ tableBytes L ++ post → st.pos = pre.length →
      readStringsLoop L.length st =
        (L, { st with pos := st.pos + (tableBytes L).length }) := by
  intro L
  induction L with
  | nil => intro pre post st _ _ hpos; simp [readStringsLoop, tableBytes]
  | cons s rest ih =>
      intro pre post st hL hin hpos
      have hss : okString s := hL s (by simp)
      have hmap : s.map (· % 256) = s := map_mod_id (fun b hb => (hss b hb).1)
      simp only [List.length_cons, readStringsLoop]
      have hin2 : st.input = pre ++ s ++ 0 :: (tableBytes rest ++ post) := by
        rw [hin]
        simp [tableBytes, cstringBytes, hmap]
      rw [readCString_spec hss hin2 hpos]
      have hrec := ih (pre ++ s ++ [0]) post { st with pos := st.pos + (s.length + 1) }
        (fun x hx => hL x (by simp [hx]))
        (by
          show st.input = pre ++ s ++ [0] ++ tableBytes rest ++ post
          rw [hin2]
          simp)
        (by
          show st.pos + (s.length + 1) = (pre ++ s ++ [0]).length
          simp only [List.length_append, List.length_cons, List.length_nil, hpos]
          omega)
      rw [hrec]
      simp [tableBytes, cstringBytes, hmap, Nat.add_assoc] <;> omega



theorem readUint8_spec {st : DecSt} {pre post : List Nat} {b : Nat}
    (hin : st.input = pre ++ b :: post) (hpos : st.pos = pre.length) :
    readUint8 st = .ok (b % 256, { st with pos := st.pos + 1 }) := by
  unfold readUint8
  have hget : st.input[st.pos]? = some b := by
    rw [hin, hpos, List.getElem?_append_right (Nat.le_refl _)]
    simp
  rw [hget]

theorem unserializeCount_spec {st : DecSt} {pre post : List Nat} {c : Nat}
    (hc : c < 2147483648)
    (hin : st.input = pre ++ serializeCountBytes c ++ post) (hpos : st.pos = pre.length) :
    unserializeCount st =
      .ok ((c : Int), { st with pos := st.pos + (serializeCountBytes c).length }) := by
  unfold unserializeCount
  have hdrop : st.input.drop st.pos = serializeCountBytes c ++ post := by
    rw [hin, hpos, List.append_assoc, drop_pre]
  rw [hdrop, varint_roundtrip hc post]

theorem readBytes_spec {st : DecSt} {pre mid post : List Nat}
    (hin : st.input = pre ++ mid ++ post) (hpos : st.pos = pre.length) :
    readBytes mid.length st =
      .ok (mid.map (· % 256), { st with pos := st.pos + mid.length }) := by
  unfold readBytes
  have hlen : st.pos + mid.length ≤ st.input.length := by
    rw [hin, hpos]
    simp only [List.length_append]
    omega
  rw [if_pos hlen]
  have hdrop : st.input.drop st.pos = mid ++ post := by
    rw [hin, hpos, List.append_assoc, drop_pre]
  rw [hdrop, List.take_left]

theorem readUintBE_spec {st : DecSt} {pre mid post : List Nat}
    (hin : st.input = pre ++ mid ++ post) (hpos : st.pos = pre.length) :
    readUintBE mid.length st =
      .ok (beVal (mid.map (· % 256)), { st with pos := st.pos + mid.length }) := by
  unfold readUintBE
  rw [readBytes_spec hin hpos]
  rfl



theorem bytesBE_length (w v : Nat) : (bytesBE w v).length = w := by
  induction w generalizing v with
  | zero => rfl
  | succ w ih => simp [bytesBE, ih]

theorem bytesBE_lt (w v : Nat) : ∀ b ∈ bytesBE w v, b < 256 := by
  induction w generalizing v with
  | zero => simp [bytesBE]
  | succ w ih =>
      intro b hb
      simp only [bytesBE, List.mem_cons] at hb
      rcases hb with h | h
      · subst h
        exact Nat.mod_lt _ (by norm_num)
      · exact ih v b h

theorem beVal_aux (w : Nat) : ∀ v acc : Nat,
    (bytesBE w v).foldl (fun acc b => acc * 256 + b % 256) acc =
      acc * 256 ^ w + v % 256 ^ w := by
  induction w with
  | zero => intro v acc; simp [bytesBE, Nat.mod_one]
  | succ w ih =>
      intro v acc
      simp only [bytesBE, List.foldl_cons]
      rw [ih]
      have hd : v / 256 ^ w % 256 % 256 = v / 256 ^ w % 256 := by omega
      have hsplit : v % 256 ^ (w + 1) = v % 256 ^ w + 256 ^ w * (v / 256 ^ w % 256) := by
        have e : (256:Nat) ^ (w + 1) = 256 ^ w * 256 := by ring
        rw [e, Nat.mod_mul]
      rw [hd, hsplit]
      ring

theorem beVal_bytesBE (w v : Nat) : beVal (bytesBE w v) = v % 256 ^ w := by
  unfold beVal
  rw [beVal_aux]
  simp

end JSBON

namespace JSBON

@[simp] theorem ok_bind {α β : Type} (a : α) (f : α → Except Err β) :
    (Except.ok a : Except Err α) >>= f = f a := rfl

@[simp] theorem error_bind {α β : Type} (e : Err) (f : α → Except Err β) :
    (Except.error e : Except Err α) >>= f = .error e := rfl

@[simp] theorem pure_bindE {α β : Type} (a : α) (f : α → Except Err β) :
    (pure a : Except Err α) >>= f = f a := rfl

theorem unserializeTOS_spec_nocrc {st : DecSt} {v0 : Nat} {keys strs : List (List Nat)}
    {payload : List Nat}
    (hv : v0 < 256) (hv15 : v0 &&& 15 ≤ 1) (hcrc : v0 &&& 128 = 0)
    (hkeys : ∀ s ∈ keys, okString s) (hstrs : ∀ s ∈ strs, okString s)
    (hklen : keys.length < 2147483648) (hslen : strs.length < 2147483648)
    (hin : st.input = v0 :: (serializeCountBytes keys.length ++ tableBytes keys ++
      serializeCountBytes strs.length ++ tableBytes strs) ++ payload)
    (hpos : st.pos = 0) :
    unserializeTOS st = .ok { st with
      pos := 1 + (serializeCountBytes keys.length).length + (tableBytes keys).length +
        (serializeCountBytes strs.length).length + (tableBytes strs).length,
      string_keys := keys, string_refs := strs,
      hasCycle := if v0 &&& 64 ≠ 0 then false else st.hasCycle } := by
  have hin0 : st.input = [] ++ v0 :: ((serializeCountBytes keys.length ++ tableBytes keys ++
      serializeCountBytes strs.length ++ tableBytes strs) ++ payload) := by
    simpa using hin
  unfold unserializeTOS
  rw [readUint8_spec hin0 (by simpa using hpos)]
  simp only [ok_bind, Nat.mod_eq_of_lt hv]
  rw [if_neg (by unfold MAJOR_VERSION; omega)]
  rw [if_neg (by unfold OPTION_CRC32; simp [hcrc])]
  simp only [pure_bindE]
  have hst2 : (if v0 &&& OPTION_NOCYCLE ≠ 0 then
        ({ st with pos := st.pos + 1, hasCycle := false } : DecSt)
      else { st with pos := st.pos + 1 }) =
      { st with
        pos := st.pos + 1,
        hasCycle := if v0 &&& 64 ≠ 0 then false else st.hasCycle } := by
    by_cases hnc : v0 &&& 64 ≠ 0 <;> simp [OPTION_NOCYCLE, hnc]
  rw [hst2]
  set st1 : DecSt := { st with
    pos := st.pos + 1,
    hasCycle := if v0 &&& 64 ≠ 0 then false else st.hasCycle } with hst1
  rw [unserializeCount_spec hklen
    (show st1.input = [v0] ++ serializeCountBytes keys.length ++ (tableBytes keys ++
        serializeCountBytes strs.length ++ tableBytes strs ++ payload) from by
      rw [hst1]; simp [hin])
    (show st1.pos = ([v0] : List Nat).length from by rw [hst1]; simp [hpos])]
  simp only [ok_bind, Int.toNat_natCast]
  set st2 : DecSt := { st1 with pos := st1.pos + (serializeCountBytes keys.length).length }
    with hst2b
  rw [readStringsLoop_spec keys ([v0] ++ serializeCountBytes keys.length)
    (serializeCountBytes strs.length ++ tableBytes strs ++ payload) st2 hkeys
    (by rw [hst2b, hst1]; simp [hin])
    (by rw [hst2b, hst1]; simp [hpos] <;> omega)]
  set st3 : DecSt := { st2 with
    pos := st2.pos + (tableBytes keys).length, string_keys := keys } with hst3
  rw [unserializeCount_spec hslen
    (show st3.input = ([v0] ++ serializeCountBytes keys.length ++ tableBytes keys) ++
        serializeCountBytes strs.length ++ (tableBytes strs ++ payload) from by
      rw [hst3, hst2b, hst1]; simp [hin])
    (show st3.pos = ([v0] ++ serializeCountBytes keys.length ++ tableBytes keys).length from by
      rw [hst3, hst2b, hst1]; simp [hpos] <;> omega)]
  simp only [ok_bind, Int.toNat_natCast]
  set st4 : DecSt := { st3 with pos := st3.pos + (serializeCountBytes strs.length).length }
    with hst4
  rw [readStringsLoop_spec strs
    ([v0] ++ serializeCountBytes keys.length ++ tableBytes keys ++
      serializeCountBytes strs.length) payload st4 hstrs
    (by rw [hst4, hst3, hst2b, hst1]; simp [hin])
    (by rw [hst4, hst3, hst2b, hst1]; simp [hpos] <;> omega)]
  rw [hst4, hst3, hst2b, hst1]
  simp [hpos, Nat.add_assoc]

end JSBON

namespace JSBON

theorem unserializeTOS_spec_crc {st : DecSt} {v0 : Nat} {crcB : List Nat}
    {keys strs : List (List Nat)} {payload : List Nat}
    (hv : v0 < 256) (hv15 : v0 &&& 15 ≤ 1) (hcrc : v0 &&& 128 ≠ 0)
    (hlen4 : crcB.length = 4)
    (hkeys : ∀ s ∈ keys, okString s) (hstrs : ∀ s ∈ strs, okString s)
    (hklen : keys.length < 2147483648) (hslen : strs.length < 2147483648)
    (hin : st.input = v0 :: crcB ++ (serializeCountBytes keys.length ++ tableBytes keys ++
      serializeCountBytes strs.length ++ tableBytes strs) ++ payload)
    (hpos : st.pos = 0) :
    unserializeTOS st =
      (if crc32 (payload.map (· % 256)) ≠ beVal (crcB.map (· % 256)) then
        .error .checksumMismatch
      else .ok { st with
        pos := 1 + 4 + (serializeCountBytes keys.length).length + (tableBytes keys).length +
          (serializeCountBytes strs.length).length + (tableBytes strs).length,
        string_keys := keys, string_refs := strs,
        hasCycle := if v0 &&& 64 ≠ 0 then false else st.hasCycle }) := by
  have hin0 : st.input = [] ++ v0 :: (crcB ++ ((serializeCountBytes keys.length ++
      tableBytes keys ++ serializeCountBytes strs.length ++ tableBytes strs) ++ payload)) := by
    simpa using hin
  unfold unserializeTOS
  rw [readUint8_spec hin0 (by simpa using hpos)]
  simp only [ok_bind, Nat.mod_eq_of_lt hv]
  rw [if_neg (by unfold MAJOR_VERSION; omega)]
  rw [if_pos (by unfold OPTION_CRC32; simpa using hcrc)]
  set st1 : DecSt := { st with pos := st.pos + 1 } with hst1
  have hrd : readUintBE crcB.length st1 =
      .ok (beVal (crcB.map (· % 256)), { st1 with pos := st1.pos + crcB.length }) :=
    readUintBE_spec
      (show st1.input = [v0] ++ crcB ++ ((serializeCountBytes keys.length ++ tableBytes keys ++
        serializeCountBytes strs.length ++ tableBytes strs) ++ payload) from by
          rw [hst1]; simp [hin])
      (show st1.pos = ([v0] : List Nat).length from by rw [hst1]; simp [hpos])
  rw [hlen4] at hrd
  rw [hrd]
  simp only [ok_bind, pure_bindE]
  have hst2 : (if v0 &&& OPTION_NOCYCLE ≠ 0 then
        ({ st1 with pos := st1.pos + 4, hasCycle := false } : DecSt)
      else { st1 with pos := st1.pos + 4 }) =
      { st1 with
        pos := st1.pos + 4,
        hasCycle := if v0 &&& 64 ≠ 0 then false else st1.hasCycle } := by
    by_cases hnc : v0 &&& 64 ≠ 0 <;> simp [OPTION_NOCYCLE, hnc]
  rw [hst2]
  set st2 : DecSt := { st1 with
    pos := st1.pos + 4,
    hasCycle := if v0 &&& 64 ≠ 0 then false else st1.hasCycle } with hst2b
  rw [unserializeCount_spec hklen
    (show st2.input = (v0 :: crcB) ++ serializeCountBytes keys.length ++ (tableBytes keys ++
        serializeCountBytes strs.length ++ tableBytes strs ++ payload) from by
      rw [hst2b, hst1]; simp [hin])
    (show st2.pos = (v0 :: crcB).length from by
      rw [hst2b, hst1]; simp [hpos, hlen4] <;> omega)]
  simp only [ok_bind, Int.toNat_natCast]
  set st3 : DecSt := { st2 with pos := st2.pos + (serializeCountBytes keys.length).length }
    with hst3
  rw [readStringsLoop_spec keys (v0 :: crcB ++ serializeCountBytes keys.length)
    (serializeCountBytes strs.length ++ tableBytes strs ++ payload) st3 hkeys
    (by rw [hst3, hst2b, hst1]; simp [hin])
    (by rw [hst3, hst2b, hst1]; simp [hpos, hlen4] <;> omega)]
  set st4 : DecSt := { st3 with
    pos := st3.pos + (tableBytes keys).length, string_keys := keys } with hst4
  rw [unserializeCount_spec hslen
    (show st4.input = (v0 :: crcB ++ serializeCountBytes keys.length ++ tableBytes keys) ++
        serializeCountBytes strs.length ++ (tableBytes strs ++ payload) from by
      rw [hst4, hst3, hst2b, hst1]; simp [hin])
    (show st4.pos = (v0 :: crcB ++ serializeCountBytes keys.length ++
        tableBytes keys).length from by
      rw [hst4, hst3, hst2b, hst1]; simp [hpos, hlen4] <;> omega)]
  simp only [ok_bind, Int.toNat_natCast]
  set st5 : DecSt := { st4 with pos := st4.pos + (serializeCountBytes strs.length).length }
    with hst5
  rw [readStringsLoop_spec strs
    (v0 :: crcB ++ serializeCountBytes keys.length ++ tableBytes keys ++
      serializeCountBytes strs.length) payload st5 hstrs
    (by rw [hst5, hst4, hst3, hst2b, hst1]; simp [hin])
    (by rw [hst5, hst4, hst3, hst2b, hst1]; simp [hpos, hlen4] <;> omega)]
  set st6 : DecSt := { st5 with
    pos := st5.pos + (tableBytes strs).length, string_refs := strs } with hst6
  have hdrop : st6.input.drop st6.pos = payload := by
    rw [hst6, hst5, hst4, hst3, hst2b, hst1]
    simp only
    rw [hin, hpos]
    have e : (v0 :: crcB ++ (serializeCountBytes keys.length ++ tableBytes keys ++
        serializeCountBytes strs.length ++ tableBytes strs) ++ payload) =
        (v0 :: crcB ++ (serializeCountBytes keys.length ++ tableBytes keys ++
          serializeCountBytes strs.length ++ tableBytes strs)) ++ payload := by
      simp
    rw [e]
    have e2 : 0 + 1 + 4 + (serializeCountBytes keys.length).length +
        (tableBytes keys).length + (serializeCountBytes strs.length).length +
        (tableBytes strs).length =
        (v0 :: crcB ++ (serializeCountBytes keys.length ++ tableBytes keys ++
          serializeCountBytes strs.length ++ tableBytes strs)).length := by
      simp [hlen4]
      omega
    rw [e2, drop_pre]
  rw [hdrop]
  by_cases hx : crc32 (payload.map (· % 256)) ≠ beVal (crcB.map (· % 256))
  · rw [if_pos hx, if_pos hx]
  · rw [if_neg hx, if_neg hx]
    rw [hst6, hst5, hst4, hst3, hst2b, hst1]
    simp [hpos, hlen4, Nat.add_assoc]

end JSBON

namespace JSBON

theorem writeStrings_spec (L : List (List Nat)) (st : EncSt) :
    writeStrings L st = { st with out := st.out ++ tableBytes L } := by
  induction L generalizing st with
  | nil => simp [writeStrings, tableBytes]
  | cons s rest ih =>
      simp [writeStrings, writeCString, ih, tableBytes, cstringBytes]

theorem serializeTOS_spec (st : EncSt) (hasCRC : Bool)
    (hk : st.string_keys.length < 4294967296) (hs : st.string_refs.length < 4294967296) :
    serializeTOS st hasCRC = .ok (
      (if hasCRC then
        ((if st.hasCycle then MAJOR_VERSION else MAJOR_VERSION ||| OPTION_NOCYCLE) |||
            OPTION_CRC32) % 256 ::
          bytesBE 4 (crc32 st.out)
       else [(if st.hasCycle then MAJOR_VERSION else MAJOR_VERSION ||| OPTION_NOCYCLE) % 256])
      ++ serializeCountBytes st.string_keys.length ++ tableBytes st.string_keys
      ++ serializeCountBytes st.string_refs.length ++ tableBytes st.string_refs
      ++ st.out) := by
  unfold serializeTOS
  cases hasCRC with
  | false =>
      simp only [if_neg (by simp : ¬ (false = true))]
      simp [serializeCount, if_pos hk, if_pos hs, writeStrings_spec, writeUint8,
        writeUintBE, initEncSt, List.append_assoc]
  | true =>
      simp only [if_pos rfl]
      simp [serializeCount, if_pos hk, if_pos hs, writeStrings_spec, writeUint8,
        writeUintBE, initEncSt, List.append_assoc]

end JSBON

namespace JSBON

theorem serializeCountAux_lt (fuel : Nat) : ∀ v, ∀ b ∈ serializeCountAux fuel v, b < 256 := by
  induction fuel with
  | zero =>
      intro v b hb
      simp only [serializeCountAux, List.mem_singleton] at hb
      subst hb
      exact Nat.mod_lt _ (by norm_num)
  | succ fuel ih =>
      intro v b hb
      simp only [serializeCountAux] at hb
      by_cases hv : v < 128
      · rw [if_pos hv] at hb
        simp only [List.mem_singleton] at hb
        omega
      · rw [if_neg hv] at hb
        simp only [List.mem_cons] at hb
        rcases hb with h | h
        · subst h
          have := Nat.mod_lt (v % 128 + 128) (y := 256) (by norm_num)
          omega
        · exact ih _ b h

theorem serializeCountBytes_lt (v : Nat) : ∀ b ∈ serializeCountBytes v, b < 256 :=
  serializeCountAux_lt 5 v

theorem mem_append_bytes {pre post : List Nat} (hpre : ∀ b ∈ pre, b < 256)
    (hpost : ∀ b ∈ post, b < 256) : ∀ b ∈ pre ++ post, b < 256 := by
  intro b hb
  rcases List.mem_append.mp hb with h | h
  · exact hpre b h
  · exact hpost b h

theorem serializeCount_outBytes {v : Nat} {st st' : EncSt}
    (h : serializeCount v st = .ok st') (hst : outBytes st) : outBytes st' := by
  unfold serializeCount at h
  by_cases hv : v < 4294967296
  · rw [if_pos hv] at h
    cases h
    exact mem_append_bytes hst (serializeCountBytes_lt v)
  · rw [if_neg hv] at h
    cases h

theorem serializeString_outBytes {s : List Nat} {st st' : EncSt}
    (h : serializeString s st = .ok st') (hst : outBytes st) : outBytes st' := by
  unfold serializeString at h
  by_cases he : s = []
  · rw [if_pos he] at h
    exact serializeCount_outBytes h hst
  · rw [if_neg he] at h
    cases hidx : st.string_refs.indexOf? s with
    | some i => rw [hidx] at h; exact serializeCount_outBytes h hst
    | none => rw [hidx] at h; exact serializeCount_outBytes h hst

theorem serializeNumber_outBytes {n : JSNum} {tag : Nat} {st : EncSt}
    (hst : outBytes st) : outBytes (serializeNumber n tag st) := by
  unfold serializeNumber
  split_ifs <;>
    exact mem_append_bytes hst (bytesBE_lt _ _)

theorem serializeComponentPart_outBytes {v : JSVal} {tag : Nat} {st st' : EncSt}
    (h : serializeComponentPart v tag st = .ok st') (hst : outBytes st) : outBytes st' := by
  unfold serializeComponentPart at h
  split_ifs at h
  · cases h
    exact serializeNumber_outBytes hst
  · exact serializeString_outBytes h hst
  · cases h
    exact mem_append_bytes hst (bytesBE_lt _ _)
  · rename_i h1 h2 h3 h4
    cases hc : serializeCount (bytesOf v).length st with
    | error e => rw [hc, error_bind] at h; cases h
    | ok stc =>
        rw [hc, ok_bind] at h
        cases h
        have hstc := serializeCount_outBytes hc hst
        apply mem_append_bytes hstc
        intro b hb
        simp only [List.mem_map] at hb
        rcases hb with ⟨x, _, hx⟩
        subst hx
        exact Nat.mod_lt _ (by norm_num)
  · cases h
    exact hst

theorem internKey_outBytes {k : List Nat} {st : EncSt} (hst : outBytes st) :
    outBytes (internKey k st).2 := by
  unfold internKey
  cases st.string_keys.indexOf? k <;> exact hst

theorem serializeFields_outBytes
    {comp : JSVal → EncSt → Except Err EncSt}
    (hcomp : ∀ v st st', comp v st = .ok st' → outBytes st → outBytes st') :
    ∀ {fields : List (List Nat × JSVal)} {st st' : EncSt},
      serializeFields comp fields st = .ok st' → outBytes st → outBytes st' := by
  intro fields
  induction fields with
  | nil =>
      intro st st' h hst
      unfold serializeFields at h
      cases h
      exact hst
  | cons p rest ih =>
      intro st st' h hst
      obtain ⟨k, v⟩ := p
      rw [show serializeFields comp ((k, v) :: rest) st =
          (serializeCount (internKey k st).1 (internKey k st).2 >>= fun st =>
            comp v st >>= fun st => serializeFields comp rest st) from rfl] at h
      cases hc : serializeCount (internKey k st).1 (internKey k st).2 with
      | error e => rw [hc, error_bind] at h; cases h
      | ok st1 =>
          rw [hc, ok_bind] at h
          have hst1 : outBytes st1 := serializeCount_outBytes hc (internKey_outBytes hst)
          cases hcm : comp v st1 with
          | error e => rw [hcm, error_bind] at h; cases h
          | ok st2 =>
              rw [hcm, ok_bind] at h
              exact ih h (hcomp v st1 st2 hcm hst1)

theorem serializeElems_outBytes
    {comp : JSVal → EncSt → Except Err EncSt}
    (hcomp : ∀ v st st', comp v st = .ok st' → outBytes st → outBytes st') :
    ∀ {elems : List JSVal} {st st' : EncSt},
      serializeElems comp elems st = .ok st' → outBytes st → outBytes st' := by
  intro elems
  induction elems with
  | nil =>
      intro st st' h hst
      unfold serializeElems at h
      cases h
      exact hst
  | cons v rest ih =>
      intro st st' h hst
      unfold serializeElems at h
      cases hcm : comp v st with
      | error e => rw [hcm, error_bind] at h; cases h
      | ok st1 =>
          rw [hcm, ok_bind] at h
          exact ih h (hcomp v st st1 hcm hst)

theorem writeUint8_outBytes {b : Nat} {st : EncSt} (hst : outBytes st) :
    outBytes (writeUint8 b st) := by
  intro x hx
  simp only [writeUint8, List.mem_append, List.mem_singleton] at hx
  rcases hx with h | h
  · exact hst x h
  · subst h
    exact Nat.mod_lt _ (by norm_num)

theorem serializeObject_seen {h : Heap} {comp : JSVal → EncSt → Except Err EncSt}
    {a : Addr} {st : EncSt} {refindex : Nat}
    (hl : st.object_refs.lookup a = some refindex) :
    serializeObject h comp a st =
      serializeCount refindex (writeUint8 TAG_OBJECT_REF st) >>= fun st1 =>
        .ok { st1 with hasCycle := true } := by
  unfold serializeObject
  rw [hl]

theorem serializeObject_new {h : Heap} {comp : JSVal → EncSt → Except Err EncSt}
    {a : Addr} {st : EncSt} {fields : List (List Nat × JSVal)}
    (hl : st.object_refs.lookup a = none) (hobj : h.lookup a = some (.obj fields)) :
    serializeObject h comp a st =
      serializeCount fields.length
          (writeUint8 TAG_OBJECT
            { st with object_refs := st.object_refs ++ [(a, st.out.length)] }) >>=
        fun st1 => serializeFields comp fields st1 := by
  unfold serializeObject
  rw [hl, hobj]

theorem serializeObject_new_bad {h : Heap} {comp : JSVal → EncSt → Except Err EncSt}
    {a : Addr} {st : EncSt}
    (hl : st.object_refs.lookup a = none)
    (hobj : ∀ fields, h.lookup a ≠ some (.obj fields)) :
    serializeObject h comp a st = .error .unsupportedType := by
  unfold serializeObject
  rw [hl]
  cases ho : h.lookup a with
  | none => rfl
  | some o =>
      cases o with
      | obj fields => exact absurd ho (hobj fields)
      | arr es => rfl

theorem serializeArray_seen {h : Heap} {comp : JSVal → EncSt → Except Err EncSt}
    {a : Addr} {st : EncSt} {refindex : Nat}
    (hl : st.object_refs.lookup a = some refindex) :
    serializeArray h comp a st =
      serializeCount refindex (writeUint8 TAG_OBJECT_REF st) >>= fun st1 =>
        .ok { st1 with hasCycle := true } := by
  unfold serializeArray
  rw [hl]

theorem serializeArray_new {h : Heap} {comp : JSVal → EncSt → Except Err EncSt}
    {a : Addr} {st : EncSt} {elems : List JSVal}
    (hl : st.object_refs.lookup a = none) (hobj : h.lookup a = some (.arr elems)) :
    serializeArray h comp a st =
      serializeCount elems.length
          (writeUint8 TAG_ARRAY
            { st with object_refs := st.object_refs ++ [(a, st.out.length)] }) >>=
        fun st1 => serializeElems comp elems st1 := by
  unfold serializeArray
  rw [hl, hobj]

theorem serializeArray_new_bad {h : Heap} {comp : JSVal → EncSt → Except Err EncSt}
    {a : Addr} {st : EncSt}
    (hl : st.object_refs.lookup a = none)
    (hobj : ∀ elems, h.lookup a ≠ some (.arr elems)) :
    serializeArray h comp a st = .error .unsupportedType := by
  unfold serializeArray
  rw [hl]
  cases ho : h.lookup a with
  | none => rfl
  | some o =>
      cases o with
      | obj fields => rfl
      | arr es => exact absurd ho (hobj es)

theorem serializeObject_outBytes
    {h : Heap} {comp : JSVal → EncSt → Except Err EncSt}
    (hcomp : ∀ v st st', comp v st = .ok st' → outBytes st → outBytes st')
    {a : Addr} {st st' : EncSt}
    (hc : serializeObject h comp a st = .ok st') (hst : outBytes st) : outBytes st' := by
  cases hl : st.object_refs.lookup a with
  | some refindex =>
      rw [serializeObject_seen hl] at hc
      cases hcnt : serializeCount refindex (writeUint8 TAG_OBJECT_REF st) with
      | error e => rw [hcnt, error_bind] at hc; cases hc
      | ok st1 =>
          rw [hcnt, ok_bind] at hc
          cases hc
          have hb1 := serializeCount_outBytes hcnt (writeUint8_outBytes hst)
          intro b hb
          exact hb1 b hb
  | none =>
      cases hobj : h.lookup a with
      | none =>
          rw [serializeObject_new_bad hl (fun fields hf => by rw [hobj] at hf; cases hf)] at hc
          cases hc
      | some o =>
          cases o with
          | arr es =>
              rw [serializeObject_new_bad hl (fun fields hf => by
                rw [hobj] at hf; cases hf)] at hc
              cases hc
          | obj fields =>
              rw [serializeObject_new hl hobj] at hc
              cases hcnt : serializeCount fields.length
                  (writeUint8 TAG_OBJECT { st with
                    object_refs := st.object_refs ++ [(a, st.out.length)] }) with
              | error e => rw [hcnt, error_bind] at hc; cases hc
              | ok st1 =>
                  rw [hcnt, ok_bind] at hc
                  exact serializeFields_outBytes hcomp hc
                    (serializeCount_outBytes hcnt (writeUint8_outBytes hst))

theorem serializeArray_outBytes
    {h : Heap} {comp : JSVal → EncSt → Except Err EncSt}
    (hcomp : ∀ v st st', comp v st = .ok st' → outBytes st → outBytes st')
    {a : Addr} {st st' : EncSt}
    (hc : serializeArray h comp a st = .ok st') (hst : outBytes st) : outBytes st' := by
  cases hl : st.object_refs.lookup a with
  | some refindex =>
      rw [serializeArray_seen hl] at hc
      cases hcnt : serializeCount refindex (writeUint8 TAG_OBJECT_REF st) with
      | error e => rw [hcnt, error_bind] at hc; cases hc
      | ok st1 =>
          rw [hcnt, ok_bind] at hc
          cases hc
          have hb1 := serializeCount_outBytes hcnt (writeUint8_outBytes hst)
          intro b hb
          exact hb1 b hb
  | none =>
      cases hobj : h.lookup a with
      | none =>
          rw [serializeArray_new_bad hl (fun elems hf => by rw [hobj] at hf; cases hf)] at hc
          cases hc
      | some o =>
          cases o with
          | obj fields =>
              rw [serializeArray_new_bad hl (fun elems hf => by
                rw [hobj] at hf; cases hf)] at hc
              cases hc
          | arr elems =>
              rw [serializeArray_new hl hobj] at hc
              cases hcnt : serializeCount elems.length
                  (writeUint8 TAG_ARRAY { st with
                    object_refs := st.object_refs ++ [(a, st.out.length)] }) with
              | error e => rw [hcnt, error_bind] at hc; cases hc
              | ok st1 =>
                  rw [hcnt, ok_bind] at hc
                  exact serializeElems_outBytes hcomp hc
                    (serializeCount_outBytes hcnt (writeUint8_outBytes hst))

theorem serializeComponent_outBytes :
    ∀ (fuel : Nat) (h : Heap) (v : JSVal) (st st' : EncSt),
      serializeComponent h fuel v st = .ok st' → outBytes st → outBytes st' := by
  intro fuel
  induction fuel with
  | zero => intro h v st st' hc; cases hc
  | succ fuel ih =>
      intro h v st st' hc hst
      rw [show serializeComponent h (fuel+1) v st =
          (if getValueTag h v = TAG_OBJECT then
            serializeObject h (serializeComponent h fuel) (addrOf v) st
          else if getValueTag h v = TAG_ARRAY then
            serializeArray h (serializeComponent h fuel) (addrOf v) st
          else serializeComponentPart v (getValueTag h v)
            (writeUint8 (getValueTag h v) st)) from rfl] at hc
      split_ifs at hc
      · exact serializeObject_outBytes (fun a b c hd he => ih h a b c hd he) hc hst
      · exact serializeArray_outBytes (fun a b c hd he => ih h a b c hd he) hc hst
      · exact serializeComponentPart_outBytes hc (writeUint8_outBytes hst)

end JSBON

namespace JSBON

theorem crc32_lt (data : List Nat) : crc32 data < 4294967296 := by
  unfold crc32
  exact xor_lt_32 (foldl_crcUpdate_lt (by norm_num) data) (by norm_num)

theorem decode_tos_error {input0 : List Nat} {e : Err}
    (h : unserializeTOS (initDecSt input0) = .error e) :
    decode (some input0) = .error e := by
  rw [show decode (some input0) = (unserializeTOS (initDecSt input0) >>= fun st =>
    unserializeComponent (input0.length - st.pos + 1) { st with offset := st.pos } >>=
      fun p => Except.ok (p.1, p.2.heap)) from rfl]
  rw [h, error_bind]

theorem set_mid (hdr pre suf : List Nat) (x y : Nat) :
    (hdr ++ (pre ++ x :: suf)).set (hdr.length + pre.length) y =
      hdr ++ (pre ++ y :: suf) := by
  rw [List.set_append_right _ _ (by omega)]
  congr 1
  rw [Nat.add_sub_cancel_left, List.set_append_right _ _ (by omega)]
  congr 1
  simp

/-- C6: when encoding is done with the CRC option enabled, changing any
single byte of the payload region of the encoded buffer (the bytes after
the header and the two string tables) causes `decode` of the corrupted
buffer to fail with `checksumMismatch`. -/
theorem c6_crc_corruption (h : Heap) (v : JSVal) (stP : EncSt)
    (pre suf : List Nat) (x y : Nat) (out : List Nat)
    (hser : serializeComponent h (h.length + 2) v initEncSt = .ok stP)
    (hP : stP.out = pre ++ x :: suf)
    (hkeys : ∀ s ∈ stP.string_keys, okString s)
    (hstrs : ∀ s ∈ stP.string_refs, okString s)
    (hklen : stP.string_keys.length < 2147483648)
    (hslen : stP.string_refs.length < 2147483648)
    (henc : encode h v true = .ok out)
    (hy : y < 256) (hxy : y ≠ x) :
    decode (some (out.set (out.length - stP.out.length + pre.length) y)) =
      .error .checksumMismatch := by
  have hout : outBytes stP := by
    apply serializeComponent_outBytes _ h v _ _ hser
    intro b hb
    exact absurd hb (by simp [initEncSt])
  have hx : x < 256 := hout x (by rw [hP]; simp)
  have hpre : ∀ b ∈ pre, b < 256 := fun b hb => hout b (by rw [hP]; simp [hb])
  have hsuf : ∀ b ∈ suf, b < 256 := fun b hb => hout b (by rw [hP]; simp [hb])
  unfold encode at henc
  rw [hser, ok_bind] at henc
  rw [serializeTOS_spec stP true (by omega) (by omega)] at henc
  rw [if_pos rfl] at henc
  cases henc
  set v0 : Nat :=
    ((if stP.hasCycle then MAJOR_VERSION else MAJOR_VERSION ||| OPTION_NOCYCLE) |||
      OPTION_CRC32) % 256 with hv0
  set hdr : List Nat := (v0 :: bytesBE 4 (crc32 stP.out)) ++
      serializeCountBytes stP.string_keys.length ++ tableBytes stP.string_keys ++
      serializeCountBytes stP.string_refs.length ++ tableBytes stP.string_refs with hhdr
  have hform : (v0 :: bytesBE 4 (crc32 stP.out)) ++
      serializeCountBytes stP.string_keys.length ++ tableBytes stP.string_keys ++
      serializeCountBytes stP.string_refs.length ++ tableBytes stP.string_refs ++
      stP.out = hdr ++ (pre ++ x :: suf) := by
    rw [hhdr, hP]
  rw [hform]
  have hlen : (hdr ++ (pre ++ x :: suf)).length - stP.out.length + pre.length =
      hdr.length + pre.length := by
    rw [hP]
    simp
  rw [hlen, set_mid]
  have hv0lt : v0 < 256 := by
    rw [hv0]; exact Nat.mod_lt _ (by norm_num)
  have hv0cases : v0 = 129 ∨ v0 = 193 := by
    rw [hv0]
    cases stP.hasCycle with
    | false => right; rfl
    | true => left; rfl
  apply decode_tos_error
  have hspec := @unserializeTOS_spec_crc (initDecSt (hdr ++ (pre ++ y :: suf)))
    v0 (bytesBE 4 (crc32 stP.out))
    stP.string_keys stP.string_refs (pre ++ y :: suf)
    hv0lt (by rcases hv0cases with h9 | h9 <;> rw [h9] <;> decide)
    (by rcases hv0cases with h9 | h9 <;> rw [h9] <;> decide)
    (bytesBE_length 4 _) hkeys hstrs hklen hslen
    (by rw [hhdr]; simp [initDecSt]) rfl
  rw [hspec]
  rw [if_pos]
  rw [map_mod_id (by
    intro b hb
    rcases List.mem_append.mp hb with h9 | h9
    · exact hpre b h9
    · rcases List.mem_cons.mp h9 with h9 | h9
      · omega
      · exact hsuf b h9)]
  rw [map_mod_id (bytesBE_lt 4 _), beVal_bytesBE,
    Nat.mod_eq_of_lt (by norm_num [crc32_lt stP.out, Nat.pow_succ])]
  rw [hP]
  exact crc32_ne_of_byte_change pre suf y x
    (by rw [Nat.mod_eq_of_lt hy, Nat.mod_eq_of_lt hx]; exact hxy)

end JSBON

namespace JSBON

theorem c6_crc_witness :
    decode (some (([193, 165, 5, 223, 27, 0, 0, 1] : List Nat).set 7 0)) =
      .error .checksumMismatch := by
  exact c6_crc_corruption [] (.bool true) ⟨[1], [], [], [], false⟩ [] [] 1 0
    [193, 165, 5, 223, 27, 0, 0, 1] rfl rfl (by simp) (by simp) (by norm_num) (by norm_num)
    rfl (by norm_num) (by norm_num)

end JSBON

namespace JSBON

theorem simSt_diff {d : Nat} {st st' : DecSt} (hsim : simSt d st st') :
    st.input.length - st.pos = st'.input.length - st'.pos := by
  have h := congrArg List.length hsim.1
  simpa using h

theorem simSt_advance {d : Nat} {st st' : DecSt} (hsim : simSt d st st') {k : Nat}
    (hk : st.pos + k ≤ st.input.length) :
    simSt d { st with pos := st.pos + k } { st' with pos := st'.pos + k } := by
  have hdiff := simSt_diff hsim
  obtain ⟨h1, h2, h3, h4, h5, h6, h7, h8, h9, h10, h11⟩ := hsim
  refine ⟨?_, by simpa using hk, by simp; omega, by simp; omega, by simpa using h5,
    by simpa using h6, by simpa using h7, by simpa using h8, by simpa using h9,
    by simpa using h10, by simpa using h11⟩
  show st.input.drop (st.pos + k) = st'.input.drop (st'.pos + k)
  rw [← List.drop_drop, ← List.drop_drop, h1]

theorem simExc_bind {α β : Type} {d : Nat} {r r' : Except Err (α × DecSt)}
    {f f' : α × DecSt → Except Err (β × DecSt)}
    (h : simExc d r r')
    (hf : ∀ a s s', a = a → simSt d s s' → simExc d (f (a, s)) (f' (a, s'))) :
    simExc d (r >>= f) (r' >>= f') := by
  cases r with
  | error e =>
      cases r' with
      | error e2 =>
          have he : e = e2 := h
          subst he
          exact rfl
      | ok p2 => exact h.elim
  | ok p =>
      cases r' with
      | error e2 => exact h.elim
      | ok p2 =>
          obtain ⟨hv, hs⟩ := h
          rw [ok_bind, ok_bind]
          obtain ⟨a, s⟩ := p
          obtain ⟨a2, s2⟩ := p2
          cases hv
          exact hf a s s2 rfl hs

theorem simExc_ok {α : Type} {d : Nat} {a : α} {s s' : DecSt} (hs : simSt d s s') :
    simExc d (.ok (a, s)) (.ok (a, s')) := ⟨rfl, hs⟩

theorem readUint8_sim {d : Nat} {st st' : DecSt} (hsim : simSt d st st') :
    simExc d (readUint8 st) (readUint8 st') := by
  have hget : st.input[st.pos]? = st'.input[st'.pos]? := by
    have e1 := List.getElem?_drop st.input st.pos 0
    have e2 := List.getElem?_drop st'.input st'.pos 0
    rw [hsim.1] at e1
    rw [e2] at e1
    simpa using e1.symm
  unfold readUint8
  rw [← hget]
  cases hb : st.input[st.pos]? with
  | none => exact rfl
  | some b =>
      obtain ⟨hlt, -⟩ := List.getElem?_eq_some_iff.mp hb
      exact ⟨rfl, simSt_advance hsim (by omega)⟩

theorem readBytes_sim {d n : Nat} {st st' : DecSt} (hsim : simSt d st st') :
    simExc d (readBytes n st) (readBytes n st') := by
  have hdiff := simSt_diff hsim
  have h2 := hsim.2.1
  have h3 := hsim.2.2.1
  unfold readBytes
  by_cases hcond : st.pos + n ≤ st.input.length
  · rw [if_pos hcond, if_pos (by omega)]
    exact ⟨by rw [hsim.1], simSt_advance hsim hcond⟩
  · rw [if_neg hcond, if_neg (by omega)]
    exact rfl

theorem readUintBE_sim {d w : Nat} {st st' : DecSt} (hsim : simSt d st st') :
    simExc d (readUintBE w st) (readUintBE w st') := by
  unfold readUintBE
  exact simExc_bind (readBytes_sim hsim) (fun a s s' _ hs => simExc_ok hs)

theorem takeWhile_length_le {p : Nat → Bool} (l : List Nat) :
    (l.takeWhile p).length ≤ l.length := by
  induction l with
  | nil => simp
  | cons a rest ih =>
      rw [List.takeWhile_cons]
      split_ifs <;> simp <;> omega

theorem readCString_sim {d : Nat} {st st' : DecSt} (hsim : simSt d st st') :
    (readCString st).1 = (readCString st').1 ∧
      simSt d (readCString st).2 (readCString st').2 := by
  unfold readCString
  rw [← hsim.1]
  refine ⟨rfl, ?_⟩
  apply simSt_advance hsim
  have hle := takeWhile_length_le (p := fun b => decide (b % 256 ≠ 0)) (st.input.drop st.pos)
  have hlen : (st.input.drop st.pos).length = st.input.length - st.pos := by simp
  have h2 := hsim.2.1
  by_cases hc : (((st.input.drop st.pos).takeWhile (fun b => decide (b % 256 ≠ 0))).map
      (· % 256)).length < (st.input.drop st.pos).length
  · rw [if_pos hc]
    simp only [List.length_map] at hc ⊢
    omega
  · rw [if_neg hc]
    simp only [List.length_map] at hc ⊢
    omega

set_option maxRecDepth 4000 in
theorem unserializeCountAux_le : ∀ (bs : List Nat) (c : Nat) (acc : Int) (v : Int) (k : Nat),
    unserializeCountAux bs c acc = some (v, k) → k ≤ bs.length := by
  intro bs
  induction bs with
  | nil => intro c acc v k h; cases h
  | cons b rest ih =>
      intro c acc v k h
      by_cases hb : b % 256 &&& 128 ≠ 0
      · rw [countAux_cons_go hb] at h
        cases ho : unserializeCountAux rest (c + 1)
            (jsOr acc (jsShl ((b % 256 &&& 127 : Nat) : Int) (7 * c))) with
        | none => rw [ho] at h; cases h
        | some p =>
            rw [ho] at h
            have hk : k = p.2 + 1 := (congrArg (fun q => q.2) (Option.some.inj h)).symm
            have := ih (c + 1) _ p.1 p.2 (by rw [ho])
            simp [hk]
            omega
      · rw [countAux_cons_stop (not_ne_iff.mp hb) rest] at h
        have hk : k = 1 := (congrArg (fun q => q.2) (Option.some.inj h)).symm
        simp [hk]

theorem simSt_pos {d : Nat} {st st' : DecSt} (h : simSt d st st') : st'.pos = st.pos + d :=
  h.2.2.2.1

theorem simSt_off {d : Nat} {st st' : DecSt} (h : simSt d st st') :
    st'.offset = st.offset + d := h.2.2.2.2.1

theorem simSt_refs {d : Nat} {st st' : DecSt} (h : simSt d st st') :
    st'.object_refs = shiftRefs d st.object_refs := h.2.2.2.2.2.1

theorem simSt_keys {d : Nat} {st st' : DecSt} (h : simSt d st st') :
    st'.string_keys = st.string_keys := h.2.2.2.2.2.2.1

theorem simSt_strs {d : Nat} {st st' : DecSt} (h : simSt d st st') :
    st'.string_refs = st.string_refs := h.2.2.2.2.2.2.2.1

theorem simSt_cyc {d : Nat} {st st' : DecSt} (h : simSt d st st') :
    st'.hasCycle = st.hasCycle := h.2.2.2.2.2.2.2.2.1

theorem simSt_heap {d : Nat} {st st' : DecSt} (h : simSt d st st') :
    st'.heap = st.heap := h.2.2.2.2.2.2.2.2.2.1

theorem simSt_next {d : Nat} {st st' : DecSt} (h : simSt d st st') :
    st'.nextAddr = st.nextAddr := h.2.2.2.2.2.2.2.2.2.2

theorem unserializeCount_sim {d : Nat} {st st' : DecSt} (hsim : simSt d st st') :
    simExc d (unserializeCount st) (unserializeCount st') := by
  unfold unserializeCount
  rw [← hsim.1]
  cases ho : unserializeCountBytes (st.input.drop st.pos) with
  | none => exact rfl
  | some p =>
      have hle : p.2 ≤ (st.input.drop st.pos).length :=
        unserializeCountAux_le _ 0 0 p.1 p.2 ho
      have h2 := hsim.2.1
      have hlen : (st.input.drop st.pos).length = st.input.length - st.pos := by simp
      exact ⟨rfl, simSt_advance hsim (by omega)⟩

theorem unserializeString_sim {d : Nat} {st st' : DecSt} (hsim : simSt d st st') :
    simExc d (unserializeString st) (unserializeString st') := by
  unfold unserializeString
  refine simExc_bind (unserializeCount_sim hsim) (fun index s s' _ hs => ?_)
  show simExc d
    (if index = 0 then Except.ok (JSVal.str [], s)
     else if index > (s.string_refs.length : Int) then Except.error Err.outOfBoundString
     else match (if 0 ≤ index - 1 then s.string_refs[(index - 1).toNat]? else none) with
       | some s0 => Except.ok (JSVal.str s0, s)
       | none => Except.ok (JSVal.undef, s))
    (if index = 0 then Except.ok (JSVal.str [], s')
     else if index > (s'.string_refs.length : Int) then Except.error Err.outOfBoundString
     else match (if 0 ≤ index - 1 then s'.string_refs[(index - 1).toNat]? else none) with
       | some s0 => Except.ok (JSVal.str s0, s')
       | none => Except.ok (JSVal.undef, s'))
  by_cases h0 : index = 0
  · rw [if_pos h0, if_pos h0]
    exact simExc_ok hs
  · rw [if_neg h0, if_neg h0]
    rw [simSt_strs hs]
    by_cases hgt : index > (s.string_refs.length : Int)
    · rw [if_pos hgt, if_pos hgt]
      exact rfl
    · rw [if_neg hgt, if_neg hgt]
      cases hm : (if 0 ≤ index - 1 then s.string_refs[(index - 1).toNat]? else none) with
      | some s0 => exact simExc_ok hs
      | none => exact simExc_ok hs

theorem unserializeDate_sim {d : Nat} {st st' : DecSt} (hsim : simSt d st st') :
    simExc d (unserializeDate st) (unserializeDate st') := by
  unfold unserializeDate
  exact simExc_bind (readUintBE_sim hsim) (fun a s s' _ hs => simExc_ok hs)

theorem lookup_shiftRefs {d k : Nat} : ∀ rs : List (Nat × Addr),
    (shiftRefs d rs).lookup (k + d) = rs.lookup k := by
  intro rs
  induction rs with
  | nil => rfl
  | cons p rest ih =>
      obtain ⟨p1, p2⟩ := p
      simp only [shiftRefs, List.map, List.lookup]
      by_cases hk : k = p1
      · subst hk
        simp
      · have h1 : (k == p1) = false := beq_eq_false_iff_ne.mpr hk
        have h2 : (k + d == p1 + d) = false := beq_eq_false_iff_ne.mpr (by omega)
        rw [h1, h2]
        exact ih

theorem lookup_shiftRefs_small {d k : Nat} (hk : k < d) : ∀ rs : List (Nat × Addr),
    (shiftRefs d rs).lookup k = none := by
  intro rs
  induction rs with
  | nil => rfl
  | cons p rest ih =>
      obtain ⟨p1, p2⟩ := p
      simp only [shiftRefs, List.map, List.lookup]
      have h2 : (k == p1 + d) = false := beq_eq_false_iff_ne.mpr (by omega)
      rw [h2]
      exact ih

theorem refLookup_sim {d : Nat} {s s' : DecSt} (hs : simSt d s s') (c : Int) :
    (if 0 ≤ c + (s'.offset : Int) then s'.object_refs.lookup (c + s'.offset).toNat
     else none) =
    (if 0 ≤ c + (s.offset : Int) then s.object_refs.lookup (c + s.offset).toNat
     else none) := by
  rw [simSt_off hs, simSt_refs hs]
  by_cases h0 : 0 ≤ c + (s.offset : Int)
  · rw [if_pos h0, if_pos (by push_cast; omega)]
    have he : (c + ((s.offset + d : Nat) : Int)).toNat = (c + (s.offset : Int)).toNat + d := by
      push_cast
      omega
    rw [he, lookup_shiftRefs]
  · rw [if_neg h0]
    by_cases h1 : 0 ≤ c + ((s.offset + d : Nat) : Int)
    · rw [if_pos h1]
      apply lookup_shiftRefs_small
      push_cast at h0 h1 ⊢
      omega
    · rw [if_neg h1]

theorem simExcSt_bind {α : Type} {d : Nat} {r r' : Except Err (α × DecSt)}
    {f f' : α × DecSt → Except Err DecSt}
    (h : simExc d r r')
    (hf : ∀ a s s', a = a → simSt d s s' → simExcSt d (f (a, s)) (f' (a, s'))) :
    simExcSt d (r >>= f) (r' >>= f') := by
  cases r with
  | error e =>
      cases r' with
      | error e2 =>
          have he : e = e2 := h
          subst he
          exact rfl
      | ok p2 => exact h.elim
  | ok p =>
      cases r' with
      | error e2 => exact h.elim
      | ok p2 =>
          obtain ⟨hv, hs⟩ := h
          rw [ok_bind, ok_bind]
          obtain ⟨a, s⟩ := p
          obtain ⟨a2, s2⟩ := p2
          cases hv
          exact hf a s s2 rfl hs

theorem simExcSt_bind_pair {β : Type} {d : Nat} {r r' : Except Err DecSt}
    {f f' : DecSt → Except Err (β × DecSt)}
    (h : simExcSt d r r')
    (hf : ∀ s s', simSt d s s' → simExc d (f s) (f' s')) :
    simExc d (r >>= f) (r' >>= f') := by
  cases r with
  | error e =>
      cases r' with
      | error e2 =>
          have he : e = e2 := h
          subst he
          exact rfl
      | ok p2 => exact h.elim
  | ok s =>
      cases r' with
      | error e2 => exact h.elim
      | ok s2 =>
          rw [ok_bind, ok_bind]
          exact hf s s2 h

theorem simSt_upd_heap {d : Nat} {st st' : DecSt} (hsim : simSt d st st') (H : Heap) :
    simSt d { st with heap := H } { st' with heap := H } := by
  obtain ⟨h1, h2, h3, h4, h5, h6, h7, h8, h9, h10, h11⟩ := hsim
  exact ⟨by simpa using h1, by simpa using h2, by simpa using h3, by simpa using h4,
    by simpa using h5, by simpa using h6, by simpa using h7, by simpa using h8,
    by simpa using h9, by simp, by simpa using h11⟩

theorem simSt_alloc {d : Nat} {st st' : DecSt} (hsim : simSt d st st') (o : HObj) :
    simSt d
      { st with heap := st.heap ++ [(st.nextAddr, o)], nextAddr := st.nextAddr + 1 }
      { st' with heap := st'.heap ++ [(st'.nextAddr, o)], nextAddr := st'.nextAddr + 1 } := by
  obtain ⟨h1, h2, h3, h4, h5, h6, h7, h8, h9, h10, h11⟩ := hsim
  exact ⟨by simpa using h1, by simpa using h2, by simpa using h3, by simpa using h4,
    by simpa using h5, by simpa using h6, by simpa using h7, by simpa using h8,
    by simpa using h9, by simp [h10, h11], by simp [h11]⟩

theorem simSt_register {d : Nat} {st st' : DecSt} (hsim : simSt d st st')
    (hpos : 1 ≤ st.pos) (a : Addr) :
    simSt d
      { st with object_refs := st.object_refs ++ [(st.pos - 1, a)] }
      { st' with object_refs := st'.object_refs ++ [(st'.pos - 1, a)] } := by
  have hp := simSt_pos hsim
  obtain ⟨h1, h2, h3, h4, h5, h6, h7, h8, h9, h10, h11⟩ := hsim
  refine ⟨by simpa using h1, by simpa using h2, by simpa using h3, by simpa using h4,
    by simpa using h5, ?_, by simpa using h7, by simpa using h8,
    by simpa using h9, by simpa using h10, by simpa using h11⟩
  show st'.object_refs ++ [(st'.pos - 1, a)] =
    shiftRefs d (st.object_refs ++ [(st.pos - 1, a)])
  rw [h6]
  simp only [shiftRefs, List.map_append, List.map]
  have he : st'.pos - 1 = st.pos - 1 + d := by omega
  rw [he]

theorem unserializeObjectLoop_sim {d : Nat} {comp : DecSt → Except Err (JSVal × DecSt)}
    (hcomp : ∀ s s', simSt d s s' → simExc d (comp s) (comp s')) (a : Addr) :
    ∀ (n : Nat) {st st' : DecSt}, simSt d st st' →
      simExcSt d (unserializeObjectLoop comp a n st)
        (unserializeObjectLoop comp a n st') := by
  intro n
  induction n with
  | zero => intro st st' hsim; exact hsim
  | succ n ih =>
      intro st st' hsim
      unfold unserializeObjectLoop
      refine simExcSt_bind (unserializeCount_sim hsim) (fun index s s' _ hs => ?_)
      show simExcSt d
        (if index ≥ (s.string_keys.length : Int) then Except.error Err.outOfBoundProperty
         else
           (comp s >>= fun p =>
             unserializeObjectLoop comp a n
               { p.2 with heap := setField a (match (if 0 ≤ index then s.string_keys[index.toNat]? else none) with | some k => k | none => undefinedKeyBytes) p.1 p.2.heap }))
        (if index ≥ (s'.string_keys.length : Int) then Except.error Err.outOfBoundProperty
         else
           (comp s' >>= fun p =>
             unserializeObjectLoop comp a n
               { p.2 with heap := setField a (match (if 0 ≤ index then s'.string_keys[index.toNat]? else none) with | some k => k | none => undefinedKeyBytes) p.1 p.2.heap }))
      rw [simSt_keys hs]
      by_cases hge : index ≥ (s.string_keys.length : Int)
      · rw [if_pos hge, if_pos hge]
        exact rfl
      · rw [if_neg hge, if_neg hge]
        refine simExcSt_bind (hcomp s s' hs) ?_
        intro v s2 s2' hvv hs2
        have hh := simSt_heap hs2
        refine ih ?_
        have hupd := simSt_upd_heap hs2 (setField a (match (if 0 ≤ index then s.string_keys[index.toNat]? else none) with | some k => k | none => undefinedKeyBytes) v s2.heap)
        rw [hh]
        exact hupd

theorem unserializeArrayLoop_sim {d : Nat} {comp : DecSt → Except Err (JSVal × DecSt)}
    (hcomp : ∀ s s', simSt d s s' → simExc d (comp s) (comp s')) (a : Addr) :
    ∀ (n : Nat) {st st' : DecSt}, simSt d st st' →
      simExcSt d (unserializeArrayLoop comp a n st)
        (unserializeArrayLoop comp a n st') := by
  intro n
  induction n with
  | zero => intro st st' hsim; exact hsim
  | succ n ih =>
      intro st st' hsim
      unfold unserializeArrayLoop
      refine simExcSt_bind (hcomp st st' hsim) ?_
      intro v s2 s2' hvv hs2
      show simExcSt d (unserializeArrayLoop comp a n { s2 with heap := pushElem a v s2.heap })
        (unserializeArrayLoop comp a n { s2' with heap := pushElem a v s2'.heap })
      have hh := simSt_heap hs2
      refine ih ?_
      have hupd := simSt_upd_heap hs2 (pushElem a v s2.heap)
      rw [hh]
      exact hupd

theorem unserializeObject_sim {d : Nat} {comp : DecSt → Except Err (JSVal × DecSt)}
    (hcomp : ∀ s s', simSt d s s' → simExc d (comp s) (comp s'))
    {st st' : DecSt} (hpos : 1 ≤ st.pos) (hsim : simSt d st st') :
    simExc d (unserializeObject comp st) (unserializeObject comp st') := by
  have e : ∀ s : DecSt, unserializeObject comp s =
      (unserializeCount (if s.hasCycle then { s with heap := s.heap ++ [(s.nextAddr, HObj.obj [])], nextAddr := s.nextAddr + 1, object_refs := s.object_refs ++ [(s.pos - 1, s.nextAddr)] } else { s with heap := s.heap ++ [(s.nextAddr, HObj.obj [])], nextAddr := s.nextAddr + 1 }) >>= fun p =>
        unserializeObjectLoop comp s.nextAddr p.1.toNat p.2 >>= fun s2 =>
          Except.ok (JSVal.ref s.nextAddr, s2)) := fun s => rfl
  rw [e st, e st']
  rw [simSt_next hsim]
  have halloc := simSt_alloc hsim (HObj.obj [])
  rw [simSt_next hsim] at halloc
  have hreg : simSt d
      { st with heap := st.heap ++ [(st.nextAddr, HObj.obj [])], nextAddr := st.nextAddr + 1, object_refs := st.object_refs ++ [(st.pos - 1, st.nextAddr)] }
      { st' with heap := st'.heap ++ [(st.nextAddr, HObj.obj [])], nextAddr := st.nextAddr + 1, object_refs := st'.object_refs ++ [(st'.pos - 1, st.nextAddr)] } := by
    have h9 := simSt_register halloc (by simpa using hpos) st.nextAddr
    simpa using h9
  by_cases hcy : st.hasCycle
  · rw [if_pos hcy, if_pos (by rw [simSt_cyc hsim]; exact hcy)]
    refine simExc_bind (unserializeCount_sim hreg) ?_
    intro size s2 s2' hvv hs2
    exact simExcSt_bind_pair (unserializeObjectLoop_sim hcomp st.nextAddr size.toNat hs2)
      (fun s3 s3' hs3 => simExc_ok hs3)
  · rw [if_neg hcy, if_neg (by rw [simSt_cyc hsim]; exact hcy)]
    refine simExc_bind (unserializeCount_sim halloc) ?_
    intro size s2 s2' hvv hs2
    exact simExcSt_bind_pair (unserializeObjectLoop_sim hcomp st.nextAddr size.toNat hs2)
      (fun s3 s3' hs3 => simExc_ok hs3)

theorem unserializeArray_sim {d : Nat} {comp : DecSt → Except Err (JSVal × DecSt)}
    (hcomp : ∀ s s', simSt d s s' → simExc d (comp s) (comp s'))
    {st st' : DecSt} (hpos : 1 ≤ st.pos) (hsim : simSt d st st') :
    simExc d (unserializeArray comp st) (unserializeArray comp st') := by
  have e : ∀ s : DecSt, unserializeArray comp s =
      (unserializeCount (if s.hasCycle then { s with heap := s.heap ++ [(s.nextAddr, HObj.arr [])], nextAddr := s.nextAddr + 1, object_refs := s.object_refs ++ [(s.pos - 1, s.nextAddr)] } else { s with heap := s.heap ++ [(s.nextAddr, HObj.arr [])], nextAddr := s.nextAddr + 1 }) >>= fun p =>
        unserializeArrayLoop comp s.nextAddr p.1.toNat p.2 >>= fun s2 =>
          Except.ok (JSVal.ref s.nextAddr, s2)) := fun s => rfl
  rw [e st, e st']
  rw [simSt_next hsim]
  have halloc := simSt_alloc hsim (HObj.arr [])
  rw [simSt_next hsim] at halloc
  have hreg : simSt d
      { st with heap := st.heap ++ [(st.nextAddr, HObj.arr [])], nextAddr := st.nextAddr + 1, object_refs := st.object_refs ++ [(st.pos - 1, st.nextAddr)] }
      { st' with heap := st'.heap ++ [(st.nextAddr, HObj.arr [])], nextAddr := st.nextAddr + 1, object_refs := st'.object_refs ++ [(st'.pos - 1, st.nextAddr)] } := by
    have h9 := simSt_register halloc (by simpa using hpos) st.nextAddr
    simpa using h9
  by_cases hcy : st.hasCycle
  · rw [if_pos hcy, if_pos (by rw [simSt_cyc hsim]; exact hcy)]
    refine simExc_bind (unserializeCount_sim hreg) ?_
    intro size s2 s2' hvv hs2
    exact simExcSt_bind_pair (unserializeArrayLoop_sim hcomp st.nextAddr size.toNat hs2)
      (fun s3 s3' hs3 => simExc_ok hs3)
  · rw [if_neg hcy, if_neg (by rw [simSt_cyc hsim]; exact hcy)]
    refine simExc_bind (unserializeCount_sim halloc) ?_
    intro size s2 s2' hvv hs2
    exact simExcSt_bind_pair (unserializeArrayLoop_sim hcomp st.nextAddr size.toNat hs2)
      (fun s3 s3' hs3 => simExc_ok hs3)

set_option maxHeartbeats 1000000 in
theorem unserializeComponentPart_sim {d : Nat} {comp : DecSt → Except Err (JSVal × DecSt)}
    (hcomp : ∀ s s', simSt d s s' → simExc d (comp s) (comp s')) (tag : Nat)
    {st st' : DecSt} (hpos : 1 ≤ st.pos) (hsim : simSt d st st') :
    simExc d (unserializeComponentPart comp tag st)
      (unserializeComponentPart comp tag st') := by
  unfold unserializeComponentPart
  by_cases h1 : tag = TAG_NUMBER
  · rw [if_pos h1, if_pos h1]
    exact simExc_bind (readUintBE_sim hsim) (fun a s s' _ hs => simExc_ok hs)
  rw [if_neg h1, if_neg h1]
  by_cases h2 : tag = TAG_INT8
  · rw [if_pos h2, if_pos h2]
    exact simExc_bind (readUint8_sim hsim) (fun a s s' _ hs => simExc_ok hs)
  rw [if_neg h2, if_neg h2]
  by_cases h3 : tag = TAG_INT16
  · rw [if_pos h3, if_pos h3]
    exact simExc_bind (readUintBE_sim hsim) (fun a s s' _ hs => simExc_ok hs)
  rw [if_neg h3, if_neg h3]
  by_cases h4 : tag = TAG_INT32
  · rw [if_pos h4, if_pos h4]
    exact simExc_bind (readUintBE_sim hsim) (fun a s s' _ hs => simExc_ok hs)
  rw [if_neg h4, if_neg h4]
  by_cases h5 : tag = TAG_UINT8
  · rw [if_pos h5, if_pos h5]
    exact simExc_bind (readUint8_sim hsim) (fun a s s' _ hs => simExc_ok hs)
  rw [if_neg h5, if_neg h5]
  by_cases h6 : tag = TAG_UINT16
  · rw [if_pos h6, if_pos h6]
    exact simExc_bind (readUintBE_sim hsim) (fun a s s' _ hs => simExc_ok hs)
  rw [if_neg h6, if_neg h6]
  by_cases h7 : tag = TAG_UINT32
  · rw [if_pos h7, if_pos h7]
    exact simExc_bind (readUintBE_sim hsim) (fun a s s' _ hs => simExc_ok hs)
  rw [if_neg h7, if_neg h7]
  by_cases h8 : tag = TAG_STRING_REF
  · rw [if_pos h8, if_pos h8]
    exact unserializeString_sim hsim
  rw [if_neg h8, if_neg h8]
  by_cases h9 : tag = TAG_DATE
  · rw [if_pos h9, if_pos h9]
    exact unserializeDate_sim hsim
  rw [if_neg h9, if_neg h9]
  by_cases h10 : tag = TAG_UINT8ARRAY
  · rw [if_pos h10, if_pos h10]
    refine simExc_bind (unserializeCount_sim hsim) (fun size s s' _ hs => ?_)
    show simExc d
      (if size < 0 then Except.error Err.truncated
       else (readBytes size.toNat s >>= fun p => Except.ok (JSVal.bytes p.1, p.2)))
      (if size < 0 then Except.error Err.truncated
       else (readBytes size.toNat s' >>= fun p => Except.ok (JSVal.bytes p.1, p.2)))
    by_cases hneg : size < 0
    · rw [if_pos hneg, if_pos hneg]
      exact rfl
    · rw [if_neg hneg, if_neg hneg]
      exact simExc_bind (readBytes_sim hs) (fun a s2 s2' _ hs2 => simExc_ok hs2)
  rw [if_neg h10, if_neg h10]
  by_cases h11 : tag = TAG_BOOLEAN_TRUE
  · rw [if_pos h11, if_pos h11]
    exact simExc_ok hsim
  rw [if_neg h11, if_neg h11]
  by_cases h12 : tag = TAG_BOOLEAN_FALSE
  · rw [if_pos h12, if_pos h12]
    exact simExc_ok hsim
  rw [if_neg h12, if_neg h12]
  by_cases h13 : tag = TAG_NULL
  · rw [if_pos h13, if_pos h13]
    exact simExc_ok hsim
  rw [if_neg h13, if_neg h13]
  by_cases h14 : tag = TAG_UNDEFINED
  · rw [if_pos h14, if_pos h14]
    exact simExc_ok hsim
  rw [if_neg h14, if_neg h14]
  by_cases h15 : tag = TAG_OBJECT
  · rw [if_pos h15, if_pos h15]
    exact unserializeObject_sim hcomp hpos hsim
  rw [if_neg h15, if_neg h15]
  by_cases h16 : tag = TAG_ARRAY
  · rw [if_pos h16, if_pos h16]
    exact unserializeArray_sim hcomp hpos hsim
  rw [if_neg h16, if_neg h16]
  by_cases h17 : tag = TAG_OBJECT_REF
  · rw [if_pos h17, if_pos h17]
    refine simExc_bind (unserializeCount_sim hsim) (fun c s s' _ hs => ?_)
    show simExc d
      (match (if 0 ≤ c + (s.offset : Int) then s.object_refs.lookup (c + s.offset).toNat else none) with
       | some a => Except.ok (JSVal.ref a, s)
       | none => Except.error Err.invalidObjectRef)
      (match (if 0 ≤ c + (s'.offset : Int) then s'.object_refs.lookup (c + s'.offset).toNat else none) with
       | some a => Except.ok (JSVal.ref a, s')
       | none => Except.error Err.invalidObjectRef)
    rw [refLookup_sim hs c]
    cases hm : (if 0 ≤ c + (s.offset : Int) then s.object_refs.lookup (c + s.offset).toNat else none) with
    | some a => exact simExc_ok hs
    | none => exact rfl
  rw [if_neg h17, if_neg h17]
  exact rfl

theorem readUint8_ok_pos {st : DecSt} {p : Nat × DecSt} (h : readUint8 st = .ok p) :
    p.2.pos = st.pos + 1 := by
  unfold readUint8 at h
  cases hb : st.input[st.pos]? with
  | none => rw [hb] at h; cases h
  | some b =>
      rw [hb] at h
      have := congrArg (fun q => q.2.pos) (Except.ok.inj h)
      simpa using this.symm

theorem unserializeComponent_sim (d : Nat) :
    ∀ (fuel : Nat) {st st' : DecSt}, simSt d st st' →
      simExc d (unserializeComponent fuel st) (unserializeComponent fuel st') := by
  intro fuel
  induction fuel with
  | zero => intro st st' hsim; exact rfl
  | succ fuel ih =>
      intro st st' hsim
      unfold unserializeComponent
      have hr := readUint8_sim hsim
      cases hc : readUint8 st with
      | error e =>
          cases hc' : readUint8 st' with
          | error e2 =>
              rw [hc, hc'] at hr
              have he : e = e2 := hr
              subst he
              exact rfl
          | ok p2 =>
              rw [hc, hc'] at hr
              exact hr.elim
      | ok p =>
          cases hc' : readUint8 st' with
          | error e2 =>
              rw [hc, hc'] at hr
              exact hr.elim
          | ok p2 =>
              rw [hc, hc'] at hr
              obtain ⟨hv, hs⟩ := hr
              have hp1 : 1 ≤ p.2.pos := by
                rw [readUint8_ok_pos hc]
                omega
              obtain ⟨t, s⟩ := p
              obtain ⟨t2, s2⟩ := p2
              cases hv
              exact unserializeComponentPart_sim (fun a b hab => ih hab) t hp1 hs

/-- C9 (counterexample): the claim promises identical decode results for
every value on which both encodes succeed.  For the object `{"a\x00":
false}` — one property whose name embeds a NUL byte — both encodes
succeed, but the NUL-terminated name table desynchronises the plain
decode, which silently returns `false`, while the CRC decode compares the
checksum of the desynchronised remainder against the stored payload CRC
and fails with `checksumMismatch`: the two results differ. -/
theorem c9_counterexample :
    encode [(0, HObj.obj [([97, 0], JSVal.bool false)])] (.ref 0) false =
      .ok [65, 1, 97, 0, 0, 0, 48, 1, 0, 0] ∧
    decode (some [65, 1, 97, 0, 0, 0, 48, 1, 0, 0]) = .ok (.bool false, []) ∧
    (∃ outC, encode [(0, HObj.obj [([97, 0], JSVal.bool false)])] (.ref 0) true =
        .ok outC ∧
      decode (some outC) = .error .checksumMismatch) ∧
    (Except.ok ((JSVal.bool false : JSVal), ([] : Heap)) :
      Except Err (JSVal × Heap)) ≠ .error .checksumMismatch :=
  ⟨rfl, rfl, ⟨_, rfl, rfl⟩, fun h9 => Except.noConfusion h9⟩

/-- C9 (amended): provided every interned string and property name is
NUL-free — the condition under which the NUL-terminated table wire format
is faithful at all — enabling the CRC option changes only the header (bit
7 of byte 0 and the inserted 4-byte CRC field), never the decoded result:
decoding the CRC-enabled encoding gives exactly the same value (and error
behaviour) as decoding the plain encoding. -/
theorem c9_crc_option_transparent (h : Heap) (v : JSVal) (stP : EncSt)
    (outN outC : List Nat)
    (hser : serializeComponent h (h.length + 2) v initEncSt = .ok stP)
    (hkeys : ∀ s ∈ stP.string_keys, okString s)
    (hstrs : ∀ s ∈ stP.string_refs, okString s)
    (hklen : stP.string_keys.length < 2147483648)
    (hslen : stP.string_refs.length < 2147483648)
    (hencN : encode h v false = .ok outN)
    (hencC : encode h v true = .ok outC) :
    decode (some outC) = decode (some outN) := by
  have hout : outBytes stP := by
    apply serializeComponent_outBytes _ h v _ _ hser
    intro b hb
    exact absurd hb (by simp [initEncSt])
  unfold encode at hencN hencC
  rw [hser, ok_bind] at hencN hencC
  rw [serializeTOS_spec stP false (by omega) (by omega)] at hencN
  rw [serializeTOS_spec stP true (by omega) (by omega)] at hencC
  rw [if_neg (by simp)] at hencN
  rw [if_pos rfl] at hencC
  cases hencN
  cases hencC
  set vv : Nat := if stP.hasCycle then MAJOR_VERSION else MAJOR_VERSION ||| OPTION_NOCYCLE
    with hvv
  have hvvcases : vv = 1 ∨ vv = 65 := by
    rw [hvv]
    cases stP.hasCycle with
    | true => left; rfl
    | false => right; rfl
  have hdecEq : ∀ inp : List Nat, decode (some inp) =
      (unserializeTOS (initDecSt inp) >>= fun st =>
        unserializeComponent (inp.length - st.pos + 1) { st with offset := st.pos } >>=
          fun p => Except.ok (p.1, p.2.heap)) := fun inp => rfl
  rw [hdecEq, hdecEq]
  have hspecN := @unserializeTOS_spec_nocrc
    (initDecSt ([vv % 256] ++ serializeCountBytes stP.string_keys.length ++
      tableBytes stP.string_keys ++ serializeCountBytes stP.string_refs.length ++
      tableBytes stP.string_refs ++ stP.out))
    (vv % 256) stP.string_keys stP.string_refs
    stP.out
    (Nat.mod_lt _ (by norm_num))
    (by rcases hvvcases with h9 | h9 <;> rw [h9] <;> decide)
    (by rcases hvvcases with h9 | h9 <;> rw [h9] <;> decide)
    hkeys hstrs hklen hslen
    (by simp [initDecSt]) rfl
  have hspecC := @unserializeTOS_spec_crc
    (initDecSt ((vv ||| OPTION_CRC32) % 256 :: bytesBE 4 (crc32 stP.out) ++
      serializeCountBytes stP.string_keys.length ++ tableBytes stP.string_keys ++
      serializeCountBytes stP.string_refs.length ++ tableBytes stP.string_refs ++ stP.out))
    ((vv ||| OPTION_CRC32) % 256) (bytesBE 4 (crc32 stP.out))
    stP.string_keys stP.string_refs stP.out
    (Nat.mod_lt _ (by norm_num))
    (by rcases hvvcases with h9 | h9 <;> rw [h9] <;> decide)
    (by rcases hvvcases with h9 | h9 <;> rw [h9] <;> decide)
    (bytesBE_length 4 _) hkeys hstrs hklen hslen
    (by simp [initDecSt]) rfl
  rw [if_neg (by
    rw [map_mod_id hout, map_mod_id (bytesBE_lt 4 _), beVal_bytesBE,
      Nat.mod_eq_of_lt (by norm_num [crc32_lt stP.out, Nat.pow_succ])]
    simp)] at hspecC
  rw [hspecN, hspecC, ok_bind, ok_bind]
  show (unserializeComponent
      (((vv ||| OPTION_CRC32) % 256 :: bytesBE 4 (crc32 stP.out) ++
          serializeCountBytes stP.string_keys.length ++ tableBytes stP.string_keys ++
          serializeCountBytes stP.string_refs.length ++ tableBytes stP.string_refs ++
          stP.out).length -
        (1 + 4 + (serializeCountBytes stP.string_keys.length).length +
          (tableBytes stP.string_keys).length +
          (serializeCountBytes stP.string_refs.length).length +
          (tableBytes stP.string_refs).length) + 1)
      { input := (vv ||| OPTION_CRC32) % 256 :: bytesBE 4 (crc32 stP.out) ++
          serializeCountBytes stP.string_keys.length ++ tableBytes stP.string_keys ++
          serializeCountBytes stP.string_refs.length ++ tableBytes stP.string_refs ++ stP.out,
        pos := 1 + 4 + (serializeCountBytes stP.string_keys.length).length +
          (tableBytes stP.string_keys).length +
          (serializeCountBytes stP.string_refs.length).length +
          (tableBytes stP.string_refs).length,
        object_refs := [], string_keys := stP.string_keys, string_refs := stP.string_refs,
        hasCycle := if (vv ||| OPTION_CRC32) % 256 &&& 64 ≠ 0 then false else true,
        heap := [], nextAddr := 0,
        offset := 1 + 4 + (serializeCountBytes stP.string_keys.length).length +
          (tableBytes stP.string_keys).length +
          (serializeCountBytes stP.string_refs.length).length +
          (tableBytes stP.string_refs).length } >>=
      fun p => Except.ok (p.1, p.2.heap)) =
    (unserializeComponent
      (([vv % 256] ++ serializeCountBytes stP.string_keys.length ++ tableBytes stP.string_keys ++
          serializeCountBytes stP.string_refs.length ++ tableBytes stP.string_refs ++
          stP.out).length -
        (1 + (serializeCountBytes stP.string_keys.length).length +
          (tableBytes stP.string_keys).length +
          (serializeCountBytes stP.string_refs.length).length +
          (tableBytes stP.string_refs).length) + 1)
      { input := [vv % 256] ++ serializeCountBytes stP.string_keys.length ++
          tableBytes stP.string_keys ++ serializeCountBytes stP.string_refs.length ++
          tableBytes stP.string_refs ++ stP.out,
        pos := 1 + (serializeCountBytes stP.string_keys.length).length +
          (tableBytes stP.string_keys).length +
          (serializeCountBytes stP.string_refs.length).length +
          (tableBytes stP.string_refs).length,
        object_refs := [], string_keys := stP.string_keys, string_refs := stP.string_refs,
        hasCycle := if vv % 256 &&& 64 ≠ 0 then false else true,
        heap := [], nextAddr := 0,
        offset := 1 + (serializeCountBytes stP.string_keys.length).length +
          (tableBytes stP.string_keys).length +
          (serializeCountBytes stP.string_refs.length).length +
          (tableBytes stP.string_refs).length } >>=
      fun p => Except.ok (p.1, p.2.heap))
  rw [show ((vv ||| OPTION_CRC32) % 256 :: bytesBE 4 (crc32 stP.out) ++
      serializeCountBytes stP.string_keys.length ++ tableBytes stP.string_keys ++
      serializeCountBytes stP.string_refs.length ++ tableBytes stP.string_refs ++
      stP.out).length -
      (1 + 4 + (serializeCountBytes stP.string_keys.length).length +
        (tableBytes stP.string_keys).length +
        (serializeCountBytes stP.string_refs.length).length +
        (tableBytes stP.string_refs).length) + 1 = stP.out.length + 1 from by
    simp [bytesBE_length]
    omega]
  rw [show ([vv % 256] ++ serializeCountBytes stP.string_keys.length ++
      tableBytes stP.string_keys ++ serializeCountBytes stP.string_refs.length ++
      tableBytes stP.string_refs ++ stP.out).length -
      (1 + (serializeCountBytes stP.string_keys.length).length +
        (tableBytes stP.string_keys).length +
        (serializeCountBytes stP.string_refs.length).length +
        (tableBytes stP.string_refs).length) + 1 = stP.out.length + 1 from by
    simp
    omega]
  have hsim0 : simSt 4
      { input := [vv % 256] ++ serializeCountBytes stP.string_keys.length ++
          tableBytes stP.string_keys ++ serializeCountBytes stP.string_refs.length ++
          tableBytes stP.string_refs ++ stP.out,
        pos := 1 + (serializeCountBytes stP.string_keys.length).length +
          (tableBytes stP.string_keys).length +
          (serializeCountBytes stP.string_refs.length).length +
          (tableBytes stP.string_refs).length,
        object_refs := [], string_keys := stP.string_keys, string_refs := stP.string_refs,
        hasCycle := if vv % 256 &&& 64 ≠ 0 then false else true,
        heap := [], nextAddr := 0,
        offset := 1 + (serializeCountBytes stP.string_keys.length).length +
          (tableBytes stP.string_keys).length +
          (serializeCountBytes stP.string_refs.length).length +
          (tableBytes stP.string_refs).length }
      { input := (vv ||| OPTION_CRC32) % 256 :: bytesBE 4 (crc32 stP.out) ++
          serializeCountBytes stP.string_keys.length ++ tableBytes stP.string_keys ++
          serializeCountBytes stP.string_refs.length ++ tableBytes stP.string_refs ++ stP.out,
        pos := 1 + 4 + (serializeCountBytes stP.string_keys.length).length +
          (tableBytes stP.string_keys).length +
          (serializeCountBytes stP.string_refs.length).length +
          (tableBytes stP.string_refs).length,
        object_refs := [], string_keys := stP.string_keys, string_refs := stP.string_refs,
        hasCycle := if (vv ||| OPTION_CRC32) % 256 &&& 64 ≠ 0 then false else true,
        heap := [], nextAddr := 0,
        offset := 1 + 4 + (serializeCountBytes stP.string_keys.length).length +
          (tableBytes stP.string_keys).length +
          (serializeCountBytes stP.string_refs.length).length +
          (tableBytes stP.string_refs).length } := by
    refine ⟨?_, ?_, ?_, by simp; omega, by simp; omega, rfl, rfl, rfl, ?_, rfl, rfl⟩
    · show ([vv % 256] ++ serializeCountBytes stP.string_keys.length ++
          tableBytes stP.string_keys ++ serializeCountBytes stP.string_refs.length ++
          tableBytes stP.string_refs ++ stP.out).drop
          (1 + (serializeCountBytes stP.string_keys.length).length +
            (tableBytes stP.string_keys).length +
            (serializeCountBytes stP.string_refs.length).length +
            (tableBytes stP.string_refs).length) =
        ((vv ||| OPTION_CRC32) % 256 :: bytesBE 4 (crc32 stP.out) ++
          serializeCountBytes stP.string_keys.length ++ tableBytes stP.string_keys ++
          serializeCountBytes stP.string_refs.length ++ tableBytes stP.string_refs ++
          stP.out).drop
          (1 + 4 + (serializeCountBytes stP.string_keys.length).length +
            (tableBytes stP.string_keys).length +
            (serializeCountBytes stP.string_refs.length).length +
            (tableBytes stP.string_refs).length)
      rw [show [vv % 256] ++ serializeCountBytes stP.string_keys.length ++
          tableBytes stP.string_keys ++ serializeCountBytes stP.string_refs.length ++
          tableBytes stP.string_refs ++ stP.out =
          ([vv % 256] ++ serializeCountBytes stP.string_keys.length ++
            tableBytes stP.string_keys ++ serializeCountBytes stP.string_refs.length ++
            tableBytes stP.string_refs) ++ stP.out from by simp]
      rw [show (vv ||| OPTION_CRC32) % 256 :: bytesBE 4 (crc32 stP.out) ++
          serializeCountBytes stP.string_keys.length ++ tableBytes stP.string_keys ++
          serializeCountBytes stP.string_refs.length ++ tableBytes stP.string_refs ++
          stP.out =
          ((vv ||| OPTION_CRC32) % 256 :: bytesBE 4 (crc32 stP.out) ++
            serializeCountBytes stP.string_keys.length ++ tableBytes stP.string_keys ++
            serializeCountBytes stP.string_refs.length ++ tableBytes stP.string_refs) ++
            stP.out from by simp]
      rw [show 1 + (serializeCountBytes stP.string_keys.length).length +
          (tableBytes stP.string_keys).length +
          (serializeCountBytes stP.string_refs.length).length +
          (tableBytes stP.string_refs).length =
          ([vv % 256] ++ serializeCountBytes stP.string_keys.length ++
            tableBytes stP.string_keys ++ serializeCountBytes stP.string_refs.length ++
            tableBytes stP.string_refs).length from by simp; omega]
      rw [show 1 + 4 + (serializeCountBytes stP.string_keys.length).length +
          (tableBytes stP.string_keys).length +
          (serializeCountBytes stP.string_refs.length).length +
          (tableBytes stP.string_refs).length =
          ((vv ||| OPTION_CRC32) % 256 :: bytesBE 4 (crc32 stP.out) ++
            serializeCountBytes stP.string_keys.length ++ tableBytes stP.string_keys ++
            serializeCountBytes stP.string_refs.length ++
            tableBytes stP.string_refs).length from by simp [bytesBE_length]; omega]
      rw [drop_pre, drop_pre]
    · show 1 + (serializeCountBytes stP.string_keys.length).length +
          (tableBytes stP.string_keys).length +
          (serializeCountBytes stP.string_refs.length).length +
          (tableBytes stP.string_refs).length ≤
        ([vv % 256] ++ serializeCountBytes stP.string_keys.length ++
          tableBytes stP.string_keys ++ serializeCountBytes stP.string_refs.length ++
          tableBytes stP.string_refs ++ stP.out).length
      simp
      omega
    · show 1 + 4 + (serializeCountBytes stP.string_keys.length).length +
          (tableBytes stP.string_keys).length +
          (serializeCountBytes stP.string_refs.length).length +
          (tableBytes stP.string_refs).length ≤
        ((vv ||| OPTION_CRC32) % 256 :: bytesBE 4 (crc32 stP.out) ++
          serializeCountBytes stP.string_keys.length ++ tableBytes stP.string_keys ++
          serializeCountBytes stP.string_refs.length ++ tableBytes stP.string_refs ++
          stP.out).length
      simp [bytesBE_length]
      omega
    · show (if (vv ||| OPTION_CRC32) % 256 &&& 64 ≠ 0 then false else true) =
        (if vv % 256 &&& 64 ≠ 0 then false else true)
      rcases hvvcases with h9 | h9 <;> rw [h9] <;> decide
  have hrun := unserializeComponent_sim 4 (stP.out.length + 1) hsim0
  cases hcN : unserializeComponent (stP.out.length + 1)
      { input := [vv % 256] ++ serializeCountBytes stP.string_keys.length ++
          tableBytes stP.string_keys ++ serializeCountBytes stP.string_refs.length ++
          tableBytes stP.string_refs ++ stP.out,
        pos := 1 + (serializeCountBytes stP.string_keys.length).length +
          (tableBytes stP.string_keys).length +
          (serializeCountBytes stP.string_refs.length).length +
          (tableBytes stP.string_refs).length,
        object_refs := [], string_keys := stP.string_keys, string_refs := stP.string_refs,
        hasCycle := if vv % 256 &&& 64 ≠ 0 then false else true,
        heap := [], nextAddr := 0,
        offset := 1 + (serializeCountBytes stP.string_keys.length).length +
          (tableBytes stP.string_keys).length +
          (serializeCountBytes stP.string_refs.length).length +
          (tableBytes stP.string_refs).length } with
  | error e =>
      cases hcC : unserializeComponent (stP.out.length + 1)
          { input := (vv ||| OPTION_CRC32) % 256 :: bytesBE 4 (crc32 stP.out) ++
              serializeCountBytes stP.string_keys.length ++ tableBytes stP.string_keys ++
              serializeCountBytes stP.string_refs.length ++ tableBytes stP.string_refs ++
              stP.out,
            pos := 1 + 4 + (serializeCountBytes stP.string_keys.length).length +
              (tableBytes stP.string_keys).length +
              (serializeCountBytes stP.string_refs.length).length +
              (tableBytes stP.string_refs).length,
            object_refs := [], string_keys := stP.string_keys,
            string_refs := stP.string_refs,
            hasCycle := if (vv ||| OPTION_CRC32) % 256 &&& 64 ≠ 0 then false else true,
            heap := [], nextAddr := 0,
            offset := 1 + 4 + (serializeCountBytes stP.string_keys.length).length +
              (tableBytes stP.string_keys).length +
              (serializeCountBytes stP.string_refs.length).length +
              (tableBytes stP.string_refs).length } with
      | error e2 =>
          rw [hcN, hcC] at hrun
          have he : e = e2 := hrun
          subst he
          rfl
      | ok p2 =>
          rw [hcN, hcC] at hrun
          exact hrun.elim
  | ok p =>
      cases hcC : unserializeComponent (stP.out.length + 1)
          { input := (vv ||| OPTION_CRC32) % 256 :: bytesBE 4 (crc32 stP.out) ++
              serializeCountBytes stP.string_keys.length ++ tableBytes stP.string_keys ++
              serializeCountBytes stP.string_refs.length ++ tableBytes stP.string_refs ++
              stP.out,
            pos := 1 + 4 + (serializeCountBytes stP.string_keys.length).length +
              (tableBytes stP.string_keys).length +
              (serializeCountBytes stP.string_refs.length).length +
              (tableBytes stP.string_refs).length,
            object_refs := [], string_keys := stP.string_keys,
            string_refs := stP.string_refs,
            hasCycle := if (vv ||| OPTION_CRC32) % 256 &&& 64 ≠ 0 then false else true,
            heap := [], nextAddr := 0,
            offset := 1 + 4 + (serializeCountBytes stP.string_keys.length).length +
              (tableBytes stP.string_keys).length +
              (serializeCountBytes stP.string_refs.length).length +
              (tableBytes stP.string_refs).length } with
      | error e2 =>
          rw [hcN, hcC] at hrun
          exact hrun.elim
      | ok p2 =>
          rw [hcN, hcC] at hrun
          obtain ⟨hv1, hs1⟩ := hrun
          rw [ok_bind, ok_bind, hv1, simSt_heap hs1]

theorem c9_witness :
    decode (some [193, 165, 5, 223, 27, 0, 0, 1]) = decode (some [65, 0, 0, 1]) :=
  c9_crc_option_transparent [] (.bool true) ⟨[1], [], [], [], false⟩ [65, 0, 0, 1]
    [193, 165, 5, 223, 27, 0, 0, 1] rfl (by simp) (by simp) (by norm_num) (by norm_num) rfl rfl

end JSBON

namespace JSBON

theorem readUint8_frame {st : DecSt} {p : Nat × DecSt} (h : readUint8 st = .ok p) :
    p.2.object_refs = st.object_refs ∧ p.2.input = st.input ∧
      p.2.hasCycle = st.hasCycle ∧ p.2.string_keys = st.string_keys ∧
      p.2.string_refs = st.string_refs := by
  unfold readUint8 at h
  cases hb : st.input[st.pos]? with
  | none => rw [hb] at h; cases h
  | some b =>
      rw [hb] at h
      cases Except.ok.inj h
      exact ⟨rfl, rfl, rfl, rfl, rfl⟩

theorem readBytes_frame {n : Nat} {st : DecSt} {p : List Nat × DecSt}
    (h : readBytes n st = .ok p) :
    p.2.object_refs = st.object_refs ∧ p.2.input = st.input ∧
      p.2.hasCycle = st.hasCycle ∧ p.2.string_keys = st.string_keys ∧
      p.2.string_refs = st.string_refs := by
  unfold readBytes at h
  by_cases hc : st.pos + n ≤ st.input.length
  · rw [if_pos hc] at h
    cases Except.ok.inj h
    exact ⟨rfl, rfl, rfl, rfl, rfl⟩
  · rw [if_neg hc] at h
    cases h

theorem readUintBE_frame {w : Nat} {st : DecSt} {p : Nat × DecSt}
    (h : readUintBE w st = .ok p) :
    p.2.object_refs = st.object_refs ∧ p.2.input = st.input ∧
      p.2.hasCycle = st.hasCycle ∧ p.2.string_keys = st.string_keys ∧
      p.2.string_refs = st.string_refs := by
  unfold readUintBE at h
  cases hb : readBytes w st with
  | error e => rw [hb, error_bind] at h; cases h
  | ok q =>
      rw [hb, ok_bind] at h
      cases Except.ok.inj h
      exact readBytes_frame hb

theorem unserializeCount_frame {st : DecSt} {p : Int × DecSt}
    (h : unserializeCount st = .ok p) :
    p.2.object_refs = st.object_refs ∧ p.2.input = st.input ∧
      p.2.hasCycle = st.hasCycle ∧ p.2.string_keys = st.string_keys ∧
      p.2.string_refs = st.string_refs := by
  unfold unserializeCount at h
  cases hb : unserializeCountBytes (st.input.drop st.pos) with
  | none => rw [hb] at h; cases h
  | some q =>
      rw [hb] at h
      cases Except.ok.inj h
      exact ⟨rfl, rfl, rfl, rfl, rfl⟩

theorem unserializeCount_error {st : DecSt} {e : Err}
    (h : unserializeCount st = .error e) : e = .truncated := by
  unfold unserializeCount at h
  cases hb : unserializeCountBytes (st.input.drop st.pos) with
  | none =>
      rw [hb] at h
      cases h
      rfl
  | some q => rw [hb] at h; cases h

theorem readCString_frame (st : DecSt) :
    (readCString st).2.object_refs = st.object_refs ∧
      (readCString st).2.input = st.input ∧
      (readCString st).2.hasCycle = st.hasCycle ∧
      (readCString st).2.string_keys = st.string_keys ∧
      (readCString st).2.string_refs = st.string_refs :=
  ⟨rfl, rfl, rfl, rfl, rfl⟩

theorem readStringsLoop_frame : ∀ (n : Nat) (st : DecSt),
    (readStringsLoop n st).2.object_refs = st.object_refs ∧
      (readStringsLoop n st).2.input = st.input ∧
      (readStringsLoop n st).2.hasCycle = st.hasCycle ∧
      (readStringsLoop n st).2.string_keys = st.string_keys ∧
      (readStringsLoop n st).2.string_refs = st.string_refs := by
  intro n
  induction n with
  | zero => intro st; exact ⟨rfl, rfl, rfl, rfl, rfl⟩
  | succ n ih =>
      intro st
      have h1 := ih (readCString st).2
      exact ⟨h1.1, h1.2.1, h1.2.2.1, h1.2.2.2.1, h1.2.2.2.2⟩




theorem unserializeTOS_eq (st : DecSt) :
    unserializeTOS st =
      (readUint8 st >>= fun p =>
        if p.1 &&& 15 > MAJOR_VERSION then Except.error Err.versionMismatch
        else if p.1 &&& OPTION_CRC32 ≠ 0 then
          readUintBE 4 p.2 >>= fun q => tosTail p.1 (some q.1) q.2
        else tosTail p.1 none p.2) := rfl

theorem tosTail_shape {version : Nat} {crc : Option Nat} {st0 st' : DecSt}
    (h : tosTail version crc st0 = .ok st') :
    st'.object_refs = st0.object_refs ∧ st'.input = st0.input ∧
      (version &&& OPTION_NOCYCLE ≠ 0 → st'.hasCycle = false) := by
  unfold tosTail at h
  set st1 : DecSt :=
    if version &&& OPTION_NOCYCLE ≠ 0 then { st0 with hasCycle := false } else st0 with hst1
  have hst1_refs : st1.object_refs = st0.object_refs := by
    rw [hst1]
    split_ifs <;> rfl
  have hst1_input : st1.input = st0.input := by
    rw [hst1]
    split_ifs <;> rfl
  have hst1_cyc : version &&& OPTION_NOCYCLE ≠ 0 → st1.hasCycle = false := by
    intro hnc
    rw [hst1, if_pos hnc]
  cases hnk : unserializeCount st1 with
  | error e => rw [hnk, error_bind] at h; cases h
  | ok nk =>
      rw [hnk, ok_bind] at h
      have hfnk := unserializeCount_frame hnk
      have hL1 := readStringsLoop_frame nk.1.toNat nk.2
      cases hns : unserializeCount
          { (readStringsLoop nk.1.toNat nk.2).2 with
            string_keys := (readStringsLoop nk.1.toNat nk.2).1 } with
      | error e => rw [hns, error_bind] at h; cases h
      | ok ns =>
          rw [hns, ok_bind] at h
          have hfns := unserializeCount_frame hns
          have hL2 := readStringsLoop_frame ns.1.toNat ns.2
          cases crc with
          | none =>
              cases Except.ok.inj h
              exact ⟨hL2.1.trans (hfns.1.trans (hL1.1.trans (hfnk.1.trans hst1_refs))),
                hL2.2.1.trans (hfns.2.1.trans (hL1.2.1.trans (hfnk.2.1.trans hst1_input))),
                fun hnc => hL2.2.2.1.trans (hfns.2.2.1.trans (hL1.2.2.1.trans hfnk.2.2.1)) |>.trans
                  (hst1_cyc hnc)⟩
          | some c =>
              replace h :
                  (if crc32 ((({ (readStringsLoop ns.1.toNat ns.2).2 with
                      string_refs := (readStringsLoop ns.1.toNat ns.2).1 } : DecSt).input.drop
                      ({ (readStringsLoop ns.1.toNat ns.2).2 with
                        string_refs := (readStringsLoop ns.1.toNat ns.2).1 } : DecSt).pos).map
                      (· % 256)) ≠ c then
                    Except.error Err.checksumMismatch
                  else
                    Except.ok { (readStringsLoop ns.1.toNat ns.2).2 with
                      string_refs := (readStringsLoop ns.1.toNat ns.2).1 }) =
                  Except.ok st' := h
              split_ifs at h
              cases Except.ok.inj h
              exact ⟨hL2.1.trans (hfns.1.trans (hL1.1.trans (hfnk.1.trans hst1_refs))),
                hL2.2.1.trans (hfns.2.1.trans (hL1.2.1.trans (hfnk.2.1.trans hst1_input))),
                fun hnc => hL2.2.2.1.trans (hfns.2.2.1.trans (hL1.2.2.1.trans hfnk.2.2.1)) |>.trans
                  (hst1_cyc hnc)⟩

theorem unserializeTOS_shape {st st' : DecSt} (h : unserializeTOS st = .ok st') :
    st'.object_refs = st.object_refs ∧ st'.input = st.input ∧
      (∀ b, st.input[st.pos]? = some b → b % 256 &&& OPTION_NOCYCLE ≠ 0 →
        st'.hasCycle = false) := by
  rw [unserializeTOS_eq] at h
  cases hr : readUint8 st with
  | error e => rw [hr, error_bind] at h; cases h
  | ok p =>
      rw [hr, ok_bind] at h
      have hver : ∀ b, st.input[st.pos]? = some b → p.1 = b % 256 := by
        intro b hb
        unfold readUint8 at hr
        rw [hb] at hr
        cases Except.ok.inj hr
        rfl
      have hfr := readUint8_frame hr
      by_cases hv : p.1 &&& 15 > MAJOR_VERSION
      · rw [if_pos hv] at h
        cases h
      rw [if_neg hv] at h
      by_cases hcrc : p.1 &&& OPTION_CRC32 ≠ 0
      · rw [if_pos hcrc] at h
        cases hq : readUintBE 4 p.2 with
        | error e => rw [hq, error_bind] at h; cases h
        | ok q =>
            rw [hq, ok_bind] at h
            have hfq := readUintBE_frame hq
            have hts := tosTail_shape h
            refine ⟨hts.1.trans (hfq.1.trans hfr.1),
              hts.2.1.trans (hfq.2.1.trans hfr.2.1), ?_⟩
            intro b hb hbit
            apply hts.2.2
            rw [hver b hb]
            exact hbit
      · rw [if_neg hcrc] at h
        have hts := tosTail_shape h
        refine ⟨hts.1.trans hfr.1, hts.2.1.trans hfr.2.1, ?_⟩
        intro b hb hbit
        apply hts.2.2
        rw [hver b hb]
        exact hbit


theorem presP_bind {α β : Type} {r : Except Err (α × DecSt)}
    {f : α × DecSt → Except Err (β × DecSt)}
    (hr : presP r) (hf : ∀ a s, decP s → presP (f (a, s))) : presP (r >>= f) := by
  intro b s3 h
  cases r with
  | error e => rw [error_bind] at h; cases h
  | ok p =>
      rw [ok_bind] at h
      exact hf p.1 p.2 (hr p.1 p.2 rfl) b s3 h

theorem presPSt_bind {α : Type} {r : Except Err (α × DecSt)}
    {f : α × DecSt → Except Err DecSt}
    (hr : presP r) (hf : ∀ a s, decP s → presPSt (f (a, s))) : presPSt (r >>= f) := by
  intro s3 h
  cases r with
  | error e => rw [error_bind] at h; cases h
  | ok p =>
      rw [ok_bind] at h
      exact hf p.1 p.2 (hr p.1 p.2 rfl) s3 h

theorem presPSt_bind_pair {β : Type} {r : Except Err DecSt}
    {f : DecSt → Except Err (β × DecSt)}
    (hr : presPSt r) (hf : ∀ s, decP s → presP (f s)) : presP (r >>= f) := by
  intro b s3 h
  cases r with
  | error e => rw [error_bind] at h; cases h
  | ok s =>
      rw [ok_bind] at h
      exact hf s (hr s rfl) b s3 h

theorem presP_readUint8 {st : DecSt} (hP : decP st) : presP (readUint8 st) := by
  intro a s2 h
  have hf := readUint8_frame h
  exact ⟨hf.2.2.1.trans hP.1, hf.1.trans hP.2⟩

theorem presP_readBytes {n : Nat} {st : DecSt} (hP : decP st) : presP (readBytes n st) := by
  intro a s2 h
  have hf := readBytes_frame h
  exact ⟨hf.2.2.1.trans hP.1, hf.1.trans hP.2⟩

theorem presP_readUintBE {w : Nat} {st : DecSt} (hP : decP st) : presP (readUintBE w st) := by
  intro a s2 h
  have hf := readUintBE_frame h
  exact ⟨hf.2.2.1.trans hP.1, hf.1.trans hP.2⟩

theorem presP_unserializeCount {st : DecSt} (hP : decP st) : presP (unserializeCount st) := by
  intro a s2 h
  have hf := unserializeCount_frame h
  exact ⟨hf.2.2.1.trans hP.1, hf.1.trans hP.2⟩

theorem presP_ok {α : Type} {a : α} {s : DecSt} (hP : decP s) : presP (Except.ok (a, s)) := by
  intro b s2 h
  cases Except.ok.inj h
  exact hP

theorem presP_error {α : Type} {e : Err} : presP (Except.error e : Except Err (α × DecSt)) := by
  intro b s2 h
  cases h

theorem presP_unserializeString {st : DecSt} (hP : decP st) :
    presP (unserializeString st) := by
  unfold unserializeString
  refine presP_bind (presP_unserializeCount hP) (fun index s hs => ?_)
  intro b s2 h
  replace h :
      (if index = 0 then Except.ok (JSVal.str [], s)
       else if index > (s.string_refs.length : Int) then Except.error Err.outOfBoundString
       else match (if 0 ≤ index - 1 then s.string_refs[(index - 1).toNat]? else none) with
         | some s0 => Except.ok (JSVal.str s0, s)
         | none => Except.ok (JSVal.undef, s)) = Except.ok (b, s2) := h
  split_ifs at h
  · cases Except.ok.inj h
    exact hs
  · cases hm : s.string_refs[(index - 1).toNat]? with
    | some s0 =>
        rw [hm] at h
        cases Except.ok.inj h
        exact hs
    | none =>
        rw [hm] at h
        cases Except.ok.inj h
        exact hs
  · cases Except.ok.inj h
    exact hs

theorem presP_unserializeDate {st : DecSt} (hP : decP st) : presP (unserializeDate st) := by
  unfold unserializeDate
  exact presP_bind (presP_readUintBE hP) (fun a s hs => presP_ok hs)

theorem presPSt_objLoop {comp : DecSt → Except Err (JSVal × DecSt)}
    (hcomp : ∀ s, decP s → presP (comp s)) (a : Addr) :
    ∀ (n : Nat) {st : DecSt}, decP st → presPSt (unserializeObjectLoop comp a n st) := by
  intro n
  induction n with
  | zero =>
      intro st hP s2 h
      cases Except.ok.inj h
      exact hP
  | succ n ih =>
      intro st hP
      unfold unserializeObjectLoop
      refine presPSt_bind (presP_unserializeCount hP) (fun index s hs => ?_)
      intro s3 h
      replace h :
          (if index ≥ (s.string_keys.length : Int) then Except.error Err.outOfBoundProperty
           else
             (comp s >>= fun p =>
               unserializeObjectLoop comp a n
                 { p.2 with heap := setField a (match (if 0 ≤ index then s.string_keys[index.toNat]? else none) with | some k => k | none => undefinedKeyBytes) p.1 p.2.heap })) =
            Except.ok s3 := h
      split_ifs at h
      all_goals exact presPSt_bind (hcomp s hs) (fun v s4 hs4 => ih (by exact ⟨hs4.1, hs4.2⟩)) s3 h

theorem presPSt_arrLoop {comp : DecSt → Except Err (JSVal × DecSt)}
    (hcomp : ∀ s, decP s → presP (comp s)) (a : Addr) :
    ∀ (n : Nat) {st : DecSt}, decP st → presPSt (unserializeArrayLoop comp a n st) := by
  intro n
  induction n with
  | zero =>
      intro st hP s2 h
      cases Except.ok.inj h
      exact hP
  | succ n ih =>
      intro st hP
      unfold unserializeArrayLoop
      exact presPSt_bind (hcomp st hP) (fun v s hs => ih (by exact ⟨hs.1, hs.2⟩))

theorem presP_unserializeObject {comp : DecSt → Except Err (JSVal × DecSt)}
    (hcomp : ∀ s, decP s → presP (comp s)) {st : DecSt} (hP : decP st) :
    presP (unserializeObject comp st) := by
  have e : unserializeObject comp st =
      (unserializeCount (if st.hasCycle then { st with heap := st.heap ++ [(st.nextAddr, HObj.obj [])], nextAddr := st.nextAddr + 1, object_refs := st.object_refs ++ [(st.pos - 1, st.nextAddr)] } else { st with heap := st.heap ++ [(st.nextAddr, HObj.obj [])], nextAddr := st.nextAddr + 1 }) >>= fun p =>
        unserializeObjectLoop comp st.nextAddr p.1.toNat p.2 >>= fun s2 =>
          Except.ok (JSVal.ref st.nextAddr, s2)) := rfl
  rw [e, hP.1]
  rw [if_neg (by simp)]
  refine presP_bind (presP_unserializeCount ⟨rfl, hP.2⟩) (fun size s hs => ?_)
  exact presPSt_bind_pair (presPSt_objLoop hcomp st.nextAddr size.toNat hs)
    (fun s2 hs2 => presP_ok hs2)

theorem presP_unserializeArray {comp : DecSt → Except Err (JSVal × DecSt)}
    (hcomp : ∀ s, decP s → presP (comp s)) {st : DecSt} (hP : decP st) :
    presP (unserializeArray comp st) := by
  have e : unserializeArray comp st =
      (unserializeCount (if st.hasCycle then { st with heap := st.heap ++ [(st.nextAddr, HObj.arr [])], nextAddr := st.nextAddr + 1, object_refs := st.object_refs ++ [(st.pos - 1, st.nextAddr)] } else { st with heap := st.heap ++ [(st.nextAddr, HObj.arr [])], nextAddr := st.nextAddr + 1 }) >>= fun p =>
        unserializeArrayLoop comp st.nextAddr p.1.toNat p.2 >>= fun s2 =>
          Except.ok (JSVal.ref st.nextAddr, s2)) := rfl
  rw [e, hP.1]
  rw [if_neg (by simp)]
  refine presP_bind (presP_unserializeCount ⟨rfl, hP.2⟩) (fun size s hs => ?_)
  exact presPSt_bind_pair (presPSt_arrLoop hcomp st.nextAddr size.toNat hs)
    (fun s2 hs2 => presP_ok hs2)

theorem presP_unserializeComponentPart {comp : DecSt → Except Err (JSVal × DecSt)}
    (hcomp : ∀ s, decP s → presP (comp s)) (tag : Nat) {st : DecSt} (hP : decP st) :
    presP (unserializeComponentPart comp tag st) := by
  unfold unserializeComponentPart
  by_cases h1 : tag = TAG_NUMBER
  · rw [if_pos h1]
    exact presP_bind (presP_readUintBE hP) (fun a s hs => presP_ok hs)
  rw [if_neg h1]
  by_cases h2 : tag = TAG_INT8
  · rw [if_pos h2]
    exact presP_bind (presP_readUint8 hP) (fun a s hs => presP_ok hs)
  rw [if_neg h2]
  by_cases h3 : tag = TAG_INT16
  · rw [if_pos h3]
    exact presP_bind (presP_readUintBE hP) (fun a s hs => presP_ok hs)
  rw [if_neg h3]
  by_cases h4 : tag = TAG_INT32
  · rw [if_pos h4]
    exact presP_bind (presP_readUintBE hP) (fun a s hs => presP_ok hs)
  rw [if_neg h4]
  by_cases h5 : tag = TAG_UINT8
  · rw [if_pos h5]
    exact presP_bind (presP_readUint8 hP) (fun a s hs => presP_ok hs)
  rw [if_neg h5]
  by_cases h6 : tag = TAG_UINT16
  · rw [if_pos h6]
    exact presP_bind (presP_readUintBE hP) (fun a s hs => presP_ok hs)
  rw [if_neg h6]
  by_cases h7 : tag = TAG_UINT32
  · rw [if_pos h7]
    exact presP_bind (presP_readUintBE hP) (fun a s hs => presP_ok hs)
  rw [if_neg h7]
  by_cases h8 : tag = TAG_STRING_REF
  · rw [if_pos h8]
    exact presP_unserializeString hP
  rw [if_neg h8]
  by_cases h9 : tag = TAG_DATE
  · rw [if_pos h9]
    exact presP_unserializeDate hP
  rw [if_neg h9]
  by_cases h10 : tag = TAG_UINT8ARRAY
  · rw [if_pos h10]
    refine presP_bind (presP_unserializeCount hP) (fun size s hs => ?_)
    intro b s2 h
    replace h :
        (if size < 0 then Except.error Err.truncated
         else (readBytes size.toNat s >>= fun p => Except.ok (JSVal.bytes p.1, p.2))) =
          Except.ok (b, s2) := h
    split_ifs at h
    exact presP_bind (presP_readBytes hs) (fun a s3 hs3 => by exact presP_ok hs3) b s2 h
  rw [if_neg h10]
  by_cases h11 : tag = TAG_BOOLEAN_TRUE
  · rw [if_pos h11]
    exact presP_ok hP
  rw [if_neg h11]
  by_cases h12 : tag = TAG_BOOLEAN_FALSE
  · rw [if_pos h12]
    exact presP_ok hP
  rw [if_neg h12]
  by_cases h13 : tag = TAG_NULL
  · rw [if_pos h13]
    exact presP_ok hP
  rw [if_neg h13]
  by_cases h14 : tag = TAG_UNDEFINED
  · rw [if_pos h14]
    exact presP_ok hP
  rw [if_neg h14]
  by_cases h15 : tag = TAG_OBJECT
  · rw [if_pos h15]
    exact presP_unserializeObject hcomp hP
  rw [if_neg h15]
  by_cases h16 : tag = TAG_ARRAY
  · rw [if_pos h16]
    exact presP_unserializeArray hcomp hP
  rw [if_neg h16]
  by_cases h17 : tag = TAG_OBJECT_REF
  · rw [if_pos h17]
    refine presP_bind (presP_unserializeCount hP) (fun c s hs => ?_)
    intro b s2 h
    replace h :
        (match (if 0 ≤ c + (s.offset : Int) then s.object_refs.lookup (c + s.offset).toNat else none) with
         | some a => Except.ok (JSVal.ref a, s)
         | none => Except.error Err.invalidObjectRef) = Except.ok (b, s2) := h
    cases hm : (if 0 ≤ c + (s.offset : Int) then s.object_refs.lookup (c + s.offset).toNat else none) with
    | some a =>
        rw [hm] at h
        cases Except.ok.inj h
        exact hs
    | none =>
        rw [hm] at h
        cases h
  rw [if_neg h17]
  exact presP_error

theorem presP_unserializeComponent :
    ∀ (fuel : Nat) {st : DecSt}, decP st → presP (unserializeComponent fuel st) := by
  intro fuel
  induction fuel with
  | zero => intro st hP; exact presP_error
  | succ fuel ih =>
      intro st hP
      unfold unserializeComponent
      exact presP_bind (presP_readUint8 hP)
        (fun tag s hs => presP_unserializeComponentPart (fun a ha => ih ha) tag hs)


theorem component_ref_tag {fuel : Nat} {st : DecSt} {b : Nat}
    (hrefs : st.object_refs = []) (hb : st.input[st.pos]? = some b)
    (h7 : b % 256 = TAG_OBJECT_REF) :
    unserializeComponent (fuel + 1) st =
      (match unserializeCountBytes (st.input.drop (st.pos + 1)) with
       | some _ => Except.error Err.invalidObjectRef
       | none => Except.error Err.truncated) := by
  have hr : readUint8 st = .ok (b % 256, { st with pos := st.pos + 1 }) := by
    unfold readUint8
    rw [hb]
  have e : unserializeComponent (fuel + 1) st =
      (readUint8 st >>= fun p =>
        unserializeComponentPart (unserializeComponent fuel) p.1 p.2) := rfl
  rw [e, hr, ok_bind, h7]
  have epart : unserializeComponentPart (unserializeComponent fuel) TAG_OBJECT_REF
      { st with pos := st.pos + 1 } =
      (unserializeCount { st with pos := st.pos + 1 } >>= fun p =>
        match (if 0 ≤ p.1 + (p.2.offset : Int) then
            p.2.object_refs.lookup (p.1 + p.2.offset).toNat else none) with
        | some a => Except.ok (JSVal.ref a, p.2)
        | none => Except.error Err.invalidObjectRef) := by
    unfold unserializeComponentPart
    rw [if_neg (by decide), if_neg (by decide), if_neg (by decide), if_neg (by decide),
      if_neg (by decide), if_neg (by decide), if_neg (by decide), if_neg (by decide),
      if_neg (by decide), if_neg (by decide), if_neg (by decide), if_neg (by decide),
      if_neg (by decide), if_neg (by decide), if_neg (by decide), if_neg (by decide),
      if_pos rfl]
  rw [epart]
  have hcnt : unserializeCount { st with pos := st.pos + 1 } =
      (match unserializeCountBytes (st.input.drop (st.pos + 1)) with
       | some p => Except.ok (p.1, { st with pos := st.pos + 1 + p.2 })
       | none => Except.error Err.truncated) := rfl
  cases hc : unserializeCountBytes (st.input.drop (st.pos + 1)) with
  | none =>
      rw [hc] at hcnt
      rw [hcnt]
      rfl
  | some p =>
      rw [hc] at hcnt
      rw [hcnt, ok_bind]
      have hnone : (if 0 ≤ p.1 + (({ st with pos := st.pos + 1 + p.2 } :
          DecSt).offset : Int) then
          ({ st with pos := st.pos + 1 + p.2 } : DecSt).object_refs.lookup
            (p.1 + ({ st with pos := st.pos + 1 + p.2 } : DecSt).offset).toNat
        else none) = none := by
        rw [show ({ st with pos := st.pos + 1 + p.2 } : DecSt).object_refs = [] from
          hrefs]
        split_ifs <;> rfl
      show (match (if 0 ≤ p.1 + (({ st with pos := st.pos + 1 + p.2 } :
          DecSt).offset : Int) then
          ({ st with pos := st.pos + 1 + p.2 } : DecSt).object_refs.lookup
            (p.1 + ({ st with pos := st.pos + 1 + p.2 } : DecSt).offset).toNat
        else none) with
        | some a => Except.ok (JSVal.ref a, { st with pos := st.pos + 1 + p.2 })
        | none => Except.error Err.invalidObjectRef) = Except.error Err.invalidObjectRef
      rw [hnone]

theorem decode_nocycle_ref {input0 : List Nat} {st' : DecSt} {b : Nat}
    (hTOS : unserializeTOS (initDecSt input0) = .ok st')
    (hb : st'.input[st'.pos]? = some b) (h7 : b % 256 = TAG_OBJECT_REF) :
    decode (some input0) =
      (match unserializeCountBytes (st'.input.drop (st'.pos + 1)) with
       | some _ => Except.error Err.invalidObjectRef
       | none => Except.error Err.truncated) := by
  have hshape := unserializeTOS_shape hTOS
  have hrefs : st'.object_refs = [] := hshape.1
  have hdecEq : decode (some input0) =
      (unserializeTOS (initDecSt input0) >>= fun st =>
        unserializeComponent (input0.length - st.pos + 1) { st with offset := st.pos } >>=
          fun p => Except.ok (p.1, p.2.heap)) := rfl
  rw [hdecEq, hTOS, ok_bind]
  have hcr := @component_ref_tag (input0.length - st'.pos)
    { st' with offset := st'.pos } _ hrefs hb h7
  replace hcr : unserializeComponent (input0.length - st'.pos + 1)
      { st' with offset := st'.pos } =
      (match unserializeCountBytes (st'.input.drop (st'.pos + 1)) with
       | some _ => Except.error Err.invalidObjectRef
       | none => Except.error Err.truncated) := hcr
  cases hc : unserializeCountBytes (st'.input.drop (st'.pos + 1)) with
  | none =>
      rw [hc] at hcr
      replace hcr : unserializeComponent (input0.length - st'.pos + 1)
          { st' with offset := st'.pos } = Except.error Err.truncated := hcr
      rw [hcr]
      rfl
  | some p =>
      rw [hc] at hcr
      replace hcr : unserializeComponent (input0.length - st'.pos + 1)
          { st' with offset := st'.pos } = Except.error Err.invalidObjectRef := hcr
      rw [hcr]
      rfl



/-- C10 counterexample: on the buffer `[0x41, 0, 0, 0x07]` — NOCYCLE set,
empty tables, payload consisting of the single by-reference tag byte —
decode fails, but with the byte-stream underflow error (the reference
index after the tag cannot be read), not with the invalid-object-reference
error the claim promises for every such buffer. -/
theorem c10_counterexample :
    decode (some [65, 0, 0, 7]) = .error .truncated ∧
      Err.truncated ≠ Err.invalidObjectRef :=
  ⟨rfl, by decide⟩

/-- C10 (amended): with the NOCYCLE bit set the decoder performs no
reference registration at all — the table-of-segments parser leaves the
reference map empty (and clears the cycle flag when bit 0x40 of byte 0 is
set), and every successful component read keeps the flag clear and the map
empty — and therefore a by-reference tag 0x07 never resolves: when the
decoder meets it, it fails with exactly `invalidObjectRef` when the varint
reference index after the tag can be read, and with exactly the underflow
error when the buffer ends before the index is complete; the same
conditional dichotomy holds for `decode` on a whole buffer whose first
payload byte is the 0x07 tag. -/
theorem c10_amended :
    (∀ input0 st', unserializeTOS (initDecSt input0) = .ok st' →
       st'.object_refs = [] ∧
       (∀ b0, input0[0]? = some b0 → b0 % 256 &&& OPTION_NOCYCLE ≠ 0 →
         st'.hasCycle = false)) ∧
    (∀ fuel st v st2, st.hasCycle = false → st.object_refs = [] →
       unserializeComponent fuel st = .ok (v, st2) →
       st2.hasCycle = false ∧ st2.object_refs = []) ∧
    (∀ fuel st b, st.object_refs = [] → st.input[st.pos]? = some b →
       b % 256 = TAG_OBJECT_REF →
       unserializeComponent (fuel + 1) st =
         (match unserializeCountBytes (st.input.drop (st.pos + 1)) with
          | some _ => Except.error Err.invalidObjectRef
          | none => Except.error Err.truncated)) ∧
    (∀ input0 st' b, unserializeTOS (initDecSt input0) = .ok st' →
       st'.input[st'.pos]? = some b → b % 256 = TAG_OBJECT_REF →
       decode (some input0) =
         (match unserializeCountBytes (st'.input.drop (st'.pos + 1)) with
          | some _ => Except.error Err.invalidObjectRef
          | none => Except.error Err.truncated)) := by
  refine ⟨?_, ?_, ?_, ?_⟩
  · intro input0 st' h
    have hs := unserializeTOS_shape h
    exact ⟨hs.1, fun b0 hb0 hbit => hs.2.2 b0 hb0 hbit⟩
  · intro fuel st v st2 hcy hrefs h
    exact presP_unserializeComponent fuel ⟨hcy, hrefs⟩ v st2 h
  · intro fuel st b hrefs hb h7
    exact component_ref_tag hrefs hb h7
  · intro input0 st' b hTOS hb h7
    exact decode_nocycle_ref hTOS hb h7

/-- C10 witness: both sides of the dichotomy at concrete buffers — on
`[0x41,0,0,0x07,0x00]` the index byte is readable and decode fails with
`invalidObjectRef`; on `[0x41,0,0,0x07]` the buffer ends at the tag and
decode fails with the underflow error. -/
theorem c10_witness :
    decode (some [65, 0, 0, 7, 0]) = .error .invalidObjectRef ∧
    decode (some [65, 0, 0, 7]) = .error .truncated :=
  ⟨(c10_amended.2.2.2 [65, 0, 0, 7, 0] ⟨[65, 0, 0, 7, 0], 3, [], [], [], false, [], 0, 0⟩
      7 rfl rfl rfl).trans rfl,
    (c10_amended.2.2.2 [65, 0, 0, 7] ⟨[65, 0, 0, 7], 3, [], [], [], false, [], 0, 0⟩
      7 rfl rfl rfl).trans rfl⟩

end JSBON

namespace JSBON

/-! ## Claims C4, C5, C7: number tags and the varint codec -/

/-- C4 (counterexample): the claim says the encoder emits `INT8` (0x02) for
every number in `[-128,127]` and never emits the unsigned tags.  But for
the number `0` the source's `getNumberTag` takes the unsigned branch and
returns `TAG_UINT8` (0x12), not `TAG_INT8` (0x02). -/
theorem c4_counterexample :
    getNumberTag (JSNum.ival 0) = TAG_UINT8 ∧ getNumberTag (JSNum.ival 0) ≠ TAG_INT8 := by
  decide

/-- C4 (amended): the encoder picks the narrowest unsigned tag
`UINT8/UINT16/UINT32` for integers in `[0, 2^32)`, the narrowest signed tag
`INT8/INT16/INT32` for negative integers in `[-2^31, 0)`, and `NUMBER`
(f64) for everything else; in particular it does emit the unsigned tags. -/
theorem c4_amended (v : Int) :
    getNumberTag (JSNum.ival v) =
      if 0 ≤ v ∧ v ≤ 255 then TAG_UINT8
      else if 0 ≤ v ∧ v ≤ 65535 then TAG_UINT16
      else if 0 ≤ v ∧ v ≤ 4294967295 then TAG_UINT32
      else if -128 ≤ v ∧ v < 0 then TAG_INT8
      else if -32768 ≤ v ∧ v < 0 then TAG_INT16
      else if -2147483648 ≤ v ∧ v < 0 then TAG_INT32
      else TAG_NUMBER := by
  simp only [getNumberTag, TAG_UINT8, TAG_UINT16, TAG_UINT32, TAG_INT8, TAG_INT16,
    TAG_INT32, TAG_NUMBER]
  split_ifs <;> omega

/-- C5: the claim says that for every unsigned 32-bit `c`, writing `c` with
the varint count writer and reading it back returns exactly `c`.  The
writer handles the full range, but the reader accumulates with JS `|=`,
which reinterprets the 32-bit pattern as a signed integer: at
`c = 2^31` the written bytes `[0x80,0x80,0x80,0x80,0x08]` read back as
`-2^31`, not `2^31`.  This is a slip in the reader (its accumulator is
initialised with `0 >>> 0` precisely to be unsigned): the claim states the
evident intent of the writer/reader pair. -/
theorem c5_failing_input :
    serializeCountBytes 2147483648 = [128, 128, 128, 128, 8] ∧
    unserializeCountBytes (serializeCountBytes 2147483648) = some (-2147483648, 5) ∧
    (-2147483648 : Int) ≠ 2147483648 := by
  decide

/-- C7 (counterexample): the claim says the varint reader reads at most
5 bytes and fails on a stream whose first five bytes all have the
continuation bit set.  The source reader has no such cap: on
`[0x80,0x80,0x80,0x80,0x80,0x00]` it happily consumes a sixth byte and
succeeds, returning value 0 after 6 bytes. -/
theorem c7_counterexample :
    unserializeCountBytes [128, 128, 128, 128, 128, 0] = some (0, 6) ∧
    unserializeCountBytes [128, 128, 128, 128, 128, 0] ≠ none := by
  decide

/-- C7 (amended): the reader does consume bytes while the continuation bit
is set, each contributing its low 7 bits with little-endian significance
(under JS 32-bit shift semantics), but it has no 5-byte bound: on a stream
whose first five bytes all have the continuation bit set it simply keeps
reading from the sixth byte on, with the byte counter advanced to 5. -/
theorem c7_amended (b1 b2 b3 b4 b5 : Nat) (rest : List Nat)
    (h1 : b1 % 256 &&& 128 ≠ 0) (h2 : b2 % 256 &&& 128 ≠ 0)
    (h3 : b3 % 256 &&& 128 ≠ 0) (h4 : b4 % 256 &&& 128 ≠ 0)
    (h5 : b5 % 256 &&& 128 ≠ 0) :
    unserializeCountBytes (b1 :: b2 :: b3 :: b4 :: b5 :: rest) =
      (unserializeCountAux rest 5
        (jsOr (jsOr (jsOr (jsOr (jsOr 0 (jsShl (((b1 % 256 &&& 127 : Nat) : Int)) 0))
          (jsShl (((b2 % 256 &&& 127 : Nat) : Int)) 7))
          (jsShl (((b3 % 256 &&& 127 : Nat) : Int)) 14))
          (jsShl (((b4 % 256 &&& 127 : Nat) : Int)) 21))
          (jsShl (((b5 % 256 &&& 127 : Nat) : Int)) 28))).map (fun p => (p.1, p.2 + 5)) := by
  simp only [unserializeCountBytes, unserializeCountAux, h1, h2, h3, h4, h5, ne_eq,
    not_false_eq_true, if_true, Option.map_map]
  norm_num
  cases unserializeCountAux rest 5 _ with
  | none => rfl
  | some p => rfl

/-! ## Claim C2: the cyclic example -/

/-- C2: for the cyclic input of scenario S4, the NOCYCLE bit of byte 0 is
clear, and decoding yields a root object `o'` (here the cell at address 0)
whose `children[0].parent` is the very same cell: the decoded heap maps
0 to `{name:"o1", children: ref 1}`, 1 to `[ref 2]` and 2 to
`{name:"o2", parent: ref 0}`, so the back-edge resolves to the root's own
address — identity, not a copy.  This works because the encoder registers
a container at the position of its tag byte before writing the body, and
the decoder registers the fresh cell at `position - 1` (the same tag-byte
position) before reading the body. -/
theorem c2_cycle_roundtrip :
    encode cycleHeap (JSVal.ref 0) false = .ok cycleBytes ∧
    cycleBytes.head? = some 1 ∧ (1 : Nat) &&& OPTION_NOCYCLE = 0 ∧
    decode (some cycleBytes) = .ok (JSVal.ref 0, cycleDecodedHeap) ∧
    cycleDecodedHeap.lookup 0 = some (.obj [(nameKey, .str [111, 49]), (childrenKey, .ref 1)]) ∧
    cycleDecodedHeap.lookup 1 = some (.arr [.ref 2]) ∧
    cycleDecodedHeap.lookup 2 = some (.obj [(nameKey, .str [111, 50]), (parentKey, .ref 0)]) :=
  ⟨rfl, rfl, rfl, rfl, rfl, rfl, rfl⟩

/-! ## Claim C3: the NOCYCLE hint on shared-but-acyclic inputs -/

/-- C3 (counterexample): the claim says the NOCYCLE bit (0x40) is set for
every acyclic input, including shared-but-acyclic duplicates such as
`b = [1,2,3]`, `o = {x:b, y:b}`.  But the encoder latches `hasCycle` on
every by-reference emission, cycle or not, so for exactly that input
byte 0 is 1 and its NOCYCLE bit is clear. -/
theorem c3_counterexample :
    encode sharedHeap (JSVal.ref 1) false = .ok sharedBytes ∧
    sharedBytes.head? = some 1 ∧ (1 : Nat) &&& OPTION_NOCYCLE = 0 :=
  ⟨rfl, rfl, rfl⟩

/-! ## Claim C8: decoding an empty buffer -/

/-- C8 (counterexample): the claim says `decode` of an empty byte buffer
fails with `InvalidData`, like an absent or non-buffer input.  But an
empty byte buffer passes the entry guard (it *is* a byte buffer), and the
failure actually comes from the byte stream underflowing on the version
byte — `truncated`, a different error. -/
theorem c8_counterexample :
    decode (some []) = .error .truncated ∧ Err.truncated ≠ Err.invalidData :=
  ⟨rfl, by decide⟩

/-- C8 (amended): `decode` of an empty buffer fails, but with the byte
stream's underflow error (`truncated`, raised reading byte 0);
`InvalidData` is reserved for input that is absent or not a byte buffer. -/
theorem c8_amended :
    decode (some []) = .error .truncated ∧ decode none = .error .invalidData :=
  ⟨rfl, rfl⟩

/-- C7 witness: the amended statement applied to the all-continuation
stream `[0x80,0x80,0x80,0x80,0x80,0x00]`. -/
theorem c7_witness :
    ((128 : Nat) % 256 &&& 128 ≠ 0) ∧
    unserializeCountBytes [128, 128, 128, 128, 128, 0] =
      (unserializeCountAux [0] 5
        (jsOr (jsOr (jsOr (jsOr (jsOr 0 (jsShl (((128 % 256 &&& 127 : Nat) : Int)) 0))
          (jsShl (((128 % 256 &&& 127 : Nat) : Int)) 7))
          (jsShl (((128 % 256 &&& 127 : Nat) : Int)) 14))
          (jsShl (((128 % 256 &&& 127 : Nat) : Int)) 21))
          (jsShl (((128 % 256 &&& 127 : Nat) : Int)) 28))).map (fun p => (p.1, p.2 + 5)) :=
  ⟨by decide, c7_amended 128 128 128 128 128 [0]
    (by decide) (by decide) (by decide) (by decide) (by decide)⟩

end JSBON

namespace JSBON

theorem tabExt_refl (t : List (List Nat)) : tabExt t t := ⟨[], by simp⟩

theorem tabExt_trans {t1 t2 t3 : List (List Nat)} (h1 : tabExt t1 t2) (h2 : tabExt t2 t3) :
    tabExt t1 t3 := by
  obtain ⟨a, ha⟩ := h1
  obtain ⟨b, hb⟩ := h2
  exact ⟨a ++ b, by rw [← hb, ← ha]; simp⟩

theorem tabExt_append (t1 t : List (List Nat)) : tabExt t1 (t1 ++ t) := ⟨t, rfl⟩

theorem tabExt_length {t1 t2 : List (List Nat)} (h : tabExt t1 t2) :
    t1.length ≤ t2.length := by
  obtain ⟨a, ha⟩ := h
  rw [← ha]
  simp

theorem tabExt_getElem? {t1 t2 : List (List Nat)} (h : tabExt t1 t2) {i : Nat}
    (hi : i < t1.length) : t2[i]? = t1[i]? := by
  obtain ⟨a, ha⟩ := h
  rw [← ha, List.getElem?_append_left hi]

theorem indexOf?_some {s : List Nat} : ∀ {tab : List (List Nat)} {i : Nat},
    tab.indexOf? s = some i → tab[i]? = some s ∧ i < tab.length := by
  intro tab
  induction tab with
  | nil => intro i h; cases h
  | cons x rest ih =>
      intro i h
      rw [List.indexOf?_cons] at h
      by_cases hx : x == s
      · rw [if_pos hx] at h
        cases Option.some.inj h
        refine ⟨?_, by simp⟩
        simp [beq_iff_eq.mp hx]
      · rw [if_neg hx] at h
        cases hm : rest.indexOf? s with
        | none => rw [hm] at h; cases h
        | some j =>
            rw [hm] at h
            have hi : i = j + 1 := (Option.some.inj h).symm
            subst hi
            have hj := ih hm
            refine ⟨?_, by simp; omega⟩
            simpa using hj.1


mutual
theorem flattenV_next : ∀ (t : TVal) (a : Addr), (flattenV t a).2.2 = a + cntV t
  | .vundef, a => by simp [flattenV, cntV]
  | .vnull, a => by simp [flattenV, cntV]
  | .vbool b, a => by simp [flattenV, cntV]
  | .vnum n, a => by simp [flattenV, cntV]
  | .vstr s, a => by simp [flattenV, cntV]
  | .vdate bits, a => by simp [flattenV, cntV]
  | .vbytes bs, a => by simp [flattenV, cntV]
  | .vobj fs, a => by
      show (flattenF fs (a + 1)).2.2 = a + cntV (.vobj fs)
      rw [flattenF_next fs (a + 1)]
      exact Nat.add_assoc a 1 (cntF fs)
  | .varr es, a => by
      show (flattenL es (a + 1)).2.2 = a + cntV (.varr es)
      rw [flattenL_next es (a + 1)]
      exact Nat.add_assoc a 1 (cntL es)
theorem flattenF_next : ∀ (fs : TFields) (a : Addr), (flattenF fs a).2.2 = a + cntF fs
  | .fnil, a => by simp [flattenF, cntF]
  | .fcons k v rest, a => by
      show (flattenF rest (flattenV v a).2.2).2.2 = a + cntF (.fcons k v rest)
      rw [flattenF_next rest (flattenV v a).2.2, flattenV_next v a]
      exact Nat.add_assoc a (cntV v) (cntF rest)
theorem flattenL_next : ∀ (es : TList) (a : Addr), (flattenL es a).2.2 = a + cntL es
  | .lnil, a => by simp [flattenL, cntL]
  | .lcons v rest, a => by
      show (flattenL rest (flattenV v a).2.2).2.2 = a + cntL (.lcons v rest)
      rw [flattenL_next rest (flattenV v a).2.2, flattenV_next v a]
      exact Nat.add_assoc a (cntV v) (cntL rest)
end

mutual
theorem flattenV_addrs : ∀ (t : TVal) (a : Addr),
    (flattenV t a).2.1.map Prod.fst = List.range' a (cntV t)
  | .vundef, a => by simp [flattenV, cntV]
  | .vnull, a => by simp [flattenV, cntV]
  | .vbool b, a => by simp [flattenV, cntV]
  | .vnum n, a => by simp [flattenV, cntV]
  | .vstr s, a => by simp [flattenV, cntV]
  | .vdate bits, a => by simp [flattenV, cntV]
  | .vbytes bs, a => by simp [flattenV, cntV]
  | .vobj fs, a => by
      show a :: (flattenF fs (a + 1)).2.1.map Prod.fst = List.range' a (cntV (.vobj fs))
      rw [flattenF_addrs fs (a + 1)]
      show a :: List.range' (a + 1) (cntF fs) = List.range' a (1 + cntF fs)
      rw [Nat.add_comm 1 (cntF fs), List.range'_succ]
  | .varr es, a => by
      show a :: (flattenL es (a + 1)).2.1.map Prod.fst = List.range' a (cntV (.varr es))
      rw [flattenL_addrs es (a + 1)]
      show a :: List.range' (a + 1) (cntL es) = List.range' a (1 + cntL es)
      rw [Nat.add_comm 1 (cntL es), List.range'_succ]
theorem flattenF_addrs : ∀ (fs : TFields) (a : Addr),
    (flattenF fs a).2.1.map Prod.fst = List.range' a (cntF fs)
  | .fnil, a => by simp [flattenF, cntF]
  | .fcons k v rest, a => by
      show ((flattenV v a).2.1 ++ (flattenF rest (flattenV v a).2.2).2.1).map Prod.fst =
        List.range' a (cntF (.fcons k v rest))
      rw [List.map_append, flattenV_addrs v a, flattenF_addrs rest (flattenV v a).2.2,
        flattenV_next v a]
      rw [show cntF (TFields.fcons k v rest) = cntF rest + cntV v from
        Nat.add_comm (cntV v) (cntF rest)]
      exact List.range'_append_1 a (cntV v) (cntF rest)
theorem flattenL_addrs : ∀ (es : TList) (a : Addr),
    (flattenL es a).2.1.map Prod.fst = List.range' a (cntL es)
  | .lnil, a => by simp [flattenL, cntL]
  | .lcons v rest, a => by
      show ((flattenV v a).2.1 ++ (flattenL rest (flattenV v a).2.2).2.1).map Prod.fst =
        List.range' a (cntL (.lcons v rest))
      rw [List.map_append, flattenV_addrs v a, flattenL_addrs rest (flattenV v a).2.2,
        flattenV_next v a]
      rw [show cntL (TList.lcons v rest) = cntL rest + cntV v from
        Nat.add_comm (cntV v) (cntL rest)]
      exact List.range'_append_1 a (cntV v) (cntL rest)
end
theorem lookup_lt_none {base : Addr} : ∀ {refs : List (Addr × Nat)},
    (∀ q ∈ refs, q.1 < base) → refs.lookup base = none := by
  intro refs
  induction refs with
  | nil => intro h9; rfl
  | cons q rest ih =>
      intro h9
      obtain ⟨q1, q2⟩ := q
      have hq := h9 (q1, q2) (by simp)
      simp only [List.lookup]
      rw [show (base == q1) = false from beq_eq_false_iff_ne.mpr (Nat.ne_of_lt hq).symm]
      exact ih (fun p hp => h9 p (by simp [hp]))

theorem bindPart_eq (comp : DecSt → Except Err (JSVal × DecSt)) (t : Nat) (ds1 : DecSt)
    (r : Except Err (JSVal × DecSt)) (hr : unserializeComponentPart comp t ds1 = r) :
    ((Except.ok (t, ds1) : Except Err (Nat × DecSt)) >>= fun p =>
      unserializeComponentPart comp p.1 p.2) = r := hr

theorem uc_succ (df : Nat) (ds : DecSt) :
    unserializeComponent (df + 1) ds =
      (readUint8 ds >>= fun p =>
        unserializeComponentPart (unserializeComponent df) p.1 p.2) := rfl

theorem caseVundef : StmtV .vundef := by
  intro h base st fuel hwf hheap hrefs hfuel hkb hsb
  cases fuel with
  | zero => exact absurd hfuel (by simp [depthV])
  | succ f =>
      refine ⟨writeUint8 TAG_UNDEFINED st, [6], rfl, rfl, rfl, tabExt_refl _, tabExt_refl _,
        Nat.le_refl _, Nat.le_refl _, ?_,
        (fun s hs => Or.inl hs), (fun s hs => Or.inl hs),
        (by simp only [depthV, depthF, depthL, List.length_cons, List.length_nil,
          List.length_append]; omega), ?_⟩
      · intro q hq
        exact hrefs q hq
      · intro Kfin Sfin dfuel ds pre post hK hS hKl hSl hdf hin hpos hcyc hk hs hmap
        cases dfuel with
        | zero => exact absurd hdf (by simp [depthV])
        | succ df =>
            have hrd : readUint8 ds = .ok (6 % 256, { ds with pos := ds.pos + 1 }) :=
              readUint8_spec (b := 6) (by simpa using hin) hpos
            rw [uc_succ, hrd, bindPart_eq _ _ _ _
              (show unserializeComponentPart (unserializeComponent df) (6 % 256)
                  { ds with pos := ds.pos + 1 } =
                Except.ok (JSVal.undef, { ds with pos := ds.pos + 1 }) from rfl)]
            simp [flattenV]

theorem caseVnull : StmtV .vnull := by
  intro h base st fuel hwf hheap hrefs hfuel hkb hsb
  cases fuel with
  | zero => exact absurd hfuel (by simp [depthV])
  | succ f =>
      refine ⟨writeUint8 TAG_NULL st, [5], rfl, rfl, rfl, tabExt_refl _, tabExt_refl _,
        Nat.le_refl _, Nat.le_refl _, ?_,
        (fun s hs => Or.inl hs), (fun s hs => Or.inl hs),
        (by simp only [depthV, depthF, depthL, List.length_cons, List.length_nil,
          List.length_append]; omega), ?_⟩
      · intro q hq
        exact hrefs q hq
      · intro Kfin Sfin dfuel ds pre post hK hS hKl hSl hdf hin hpos hcyc hk hs hmap
        cases dfuel with
        | zero => exact absurd hdf (by simp [depthV])
        | succ df =>
            have hrd : readUint8 ds = .ok (5 % 256, { ds with pos := ds.pos + 1 }) :=
              readUint8_spec (b := 5) (by simpa using hin) hpos
            rw [uc_succ, hrd, bindPart_eq _ _ _ _
              (show unserializeComponentPart (unserializeComponent df) (5 % 256)
                  { ds with pos := ds.pos + 1 } =
                Except.ok (JSVal.null, { ds with pos := ds.pos + 1 }) from rfl)]
            simp [flattenV]

theorem caseVbool (b : Bool) : StmtV (.vbool b) := by
  intro h base st fuel hwf hheap hrefs hfuel hkb hsb
  cases fuel with
  | zero => exact absurd hfuel (by simp [depthV])
  | succ f =>
      cases b with
      | true =>
          refine ⟨writeUint8 TAG_BOOLEAN_TRUE st, [1], rfl, rfl, rfl, tabExt_refl _,
            tabExt_refl _, Nat.le_refl _, Nat.le_refl _, ?_,
        (fun s hs => Or.inl hs), (fun s hs => Or.inl hs),
        (by simp only [depthV, depthF, depthL, List.length_cons, List.length_nil,
          List.length_append]; omega), ?_⟩
          · intro q hq
            exact hrefs q hq
          · intro Kfin Sfin dfuel ds pre post hK hS hKl hSl hdf hin hpos hcyc hk hs hmap
            cases dfuel with
            | zero => exact absurd hdf (by simp [depthV])
            | succ df =>
                have hrd : readUint8 ds = .ok (1 % 256, { ds with pos := ds.pos + 1 }) :=
                  readUint8_spec (b := 1) (by simpa using hin) hpos
                rw [uc_succ, hrd, bindPart_eq _ _ _ _
                  (show unserializeComponentPart (unserializeComponent df) (1 % 256)
                      { ds with pos := ds.pos + 1 } =
                    Except.ok (JSVal.bool true, { ds with pos := ds.pos + 1 }) from rfl)]
                simp [flattenV]
      | false =>
          refine ⟨writeUint8 TAG_BOOLEAN_FALSE st, [0], rfl, rfl, rfl, tabExt_refl _,
            tabExt_refl _, Nat.le_refl _, Nat.le_refl _, ?_,
        (fun s hs => Or.inl hs), (fun s hs => Or.inl hs),
        (by simp only [depthV, depthF, depthL, List.length_cons, List.length_nil,
          List.length_append]; omega), ?_⟩
          · intro q hq
            exact hrefs q hq
          · intro Kfin Sfin dfuel ds pre post hK hS hKl hSl hdf hin hpos hcyc hk hs hmap
            cases dfuel with
            | zero => exact absurd hdf (by simp [depthV])
            | succ df =>
                have hrd : readUint8 ds = .ok (0 % 256, { ds with pos := ds.pos + 1 }) :=
                  readUint8_spec (b := 0) (by simpa using hin) hpos
                rw [uc_succ, hrd, bindPart_eq _ _ _ _
                  (show unserializeComponentPart (unserializeComponent df) (0 % 256)
                      { ds with pos := ds.pos + 1 } =
                    Except.ok (JSVal.bool false, { ds with pos := ds.pos + 1 }) from rfl)]
                simp [flattenV]

theorem caseVdate (bits : Nat) : StmtV (.vdate bits) := by
  intro h base st fuel hwf hheap hrefs hfuel hkb hsb
  cases fuel with
  | zero => exact absurd hfuel (by simp [depthV])
  | succ f =>
      refine ⟨serializeDate bits (writeUint8 TAG_DATE st), 32 :: bytesBE 8 bits, rfl,
        by simp [serializeDate, writeUint8, TAG_DATE], rfl, tabExt_refl _, tabExt_refl _,
        Nat.le_refl _, Nat.le_refl _, ?_,
        (fun s hs => Or.inl hs), (fun s hs => Or.inl hs),
        (by simp only [depthV, depthF, depthL, List.length_cons, List.length_nil,
          List.length_append]; omega), ?_⟩
      · intro q hq
        exact hrefs q hq
      · intro Kfin Sfin dfuel ds pre post hK hS hKl hSl hdf hin hpos hcyc hk hs hmap
        cases dfuel with
        | zero => exact absurd hdf (by simp [depthV])
        | succ df =>
            have hin2 : ds.input = pre ++ 32 :: (bytesBE 8 bits ++ post) := by
              simpa using hin
            have hrd : readUint8 ds = .ok (32 % 256, { ds with pos := ds.pos + 1 }) :=
              readUint8_spec (b := 32) hin2 hpos
            have hrdBE : readUintBE (bytesBE 8 bits).length { ds with pos := ds.pos + 1 } =
                .ok (beVal ((bytesBE 8 bits).map (· % 256)),
                  { ds with pos := ds.pos + 1 + (bytesBE 8 bits).length }) :=
              readUintBE_spec
                (show ({ ds with pos := ds.pos + 1 } : DecSt).input =
                  (pre ++ [32]) ++ bytesBE 8 bits ++ post from by simp [hin])
                (by simp [hpos])
            rw [bytesBE_length] at hrdBE
            have hb : bits < 18446744073709551616 := hwf
            have hval : beVal ((bytesBE 8 bits).map (· % 256)) = bits := by
              rw [map_mod_id (bytesBE_lt 8 bits), beVal_bytesBE]
              exact Nat.mod_eq_of_lt (by norm_num; exact hb)
            rw [uc_succ, hrd, bindPart_eq _ _ _ _
              (show unserializeComponentPart (unserializeComponent df) (32 % 256)
                  { ds with pos := ds.pos + 1 } =
                unserializeDate { ds with pos := ds.pos + 1 } from rfl)]
            unfold unserializeDate
            rw [hrdBE, ok_bind, hval]
            show Except.ok (JSVal.date bits, _) = _
            simp [flattenV, bytesBE_length]

theorem caseVbytes (bs : List Nat) : StmtV (.vbytes bs) := by
  intro h base st fuel hwf hheap hrefs hfuel hkb hsb
  have hlen : bs.length < 2147483648 := hwf.2
  have hbytes : ∀ b ∈ bs, b < 256 := hwf.1
  cases fuel with
  | zero => exact absurd hfuel (by simp [depthV])
  | succ f =>
      have hcnt : serializeCount bs.length (writeUint8 TAG_UINT8ARRAY st) =
          .ok { writeUint8 TAG_UINT8ARRAY st with
            out := (writeUint8 TAG_UINT8ARRAY st).out ++ serializeCountBytes bs.length } := by
        unfold serializeCount
        rw [if_pos (by omega)]
      have hser : serializeComponent h (f + 1) (flattenV (.vbytes bs) base).1 st =
          .ok (writeUint8Array bs { writeUint8 TAG_UINT8ARRAY st with
            out := (writeUint8 TAG_UINT8ARRAY st).out ++ serializeCountBytes bs.length }) := by
        rw [show serializeComponent h (f + 1) (flattenV (.vbytes bs) base).1 st =
            (serializeCount bs.length (writeUint8 TAG_UINT8ARRAY st) >>= fun st2 =>
              .ok (writeUint8Array bs st2)) from rfl]
        rw [hcnt, ok_bind]
      refine ⟨_, 50 :: (serializeCountBytes bs.length ++ bs), hser,
        by simp [writeUint8Array, writeUint8, TAG_UINT8ARRAY, map_mod_id hbytes],
        rfl, tabExt_refl _, tabExt_refl _, Nat.le_refl _, Nat.le_refl _, ?_,
        (fun s hs => Or.inl hs), (fun s hs => Or.inl hs),
        (by simp only [depthV, depthF, depthL, List.length_cons, List.length_nil,
          List.length_append]; omega), ?_⟩
      · intro q hq
        exact hrefs q hq
      · intro Kfin Sfin dfuel ds pre post hK hS hKl hSl hdf hin hpos hcyc hk hs hmap
        cases dfuel with
        | zero => exact absurd hdf (by simp [depthV])
        | succ df =>
            have hin2 : ds.input = pre ++ 50 :: (serializeCountBytes bs.length ++ bs ++ post) := by
              simpa using hin
            have hrd : readUint8 ds = .ok (50 % 256, { ds with pos := ds.pos + 1 }) :=
              readUint8_spec (b := 50) hin2 hpos
            have hcount : unserializeCount { ds with pos := ds.pos + 1 } =
                .ok ((bs.length : Int),
                  { ds with pos := ds.pos + 1 + (serializeCountBytes bs.length).length }) :=
              unserializeCount_spec hlen
                (show ({ ds with pos := ds.pos + 1 } : DecSt).input =
                  (pre ++ [50]) ++ serializeCountBytes bs.length ++ (bs ++ post) from by
                    simp [hin])
                (by simp [hpos])
            have hrdB : readBytes bs.length
                { ds with pos := ds.pos + 1 + (serializeCountBytes bs.length).length } =
                .ok (bs.map (· % 256),
                  { ds with pos := ds.pos + 1 + (serializeCountBytes bs.length).length +
                    bs.length }) :=
              readBytes_spec
                (show ({ ds with pos := ds.pos + 1 + (serializeCountBytes bs.length).length } :
                    DecSt).input =
                  (pre ++ [50] ++ serializeCountBytes bs.length) ++ bs ++ post from by
                    simp [hin])
                (by simp [hpos]; omega)
            rw [uc_succ, hrd, bindPart_eq _ _ _ _
              (show unserializeComponentPart (unserializeComponent df) (50 % 256)
                  { ds with pos := ds.pos + 1 } =
                (unserializeCount { ds with pos := ds.pos + 1 } >>= fun p =>
                  if p.1 < 0 then Except.error Err.truncated
                  else (readBytes p.1.toNat p.2 >>= fun q =>
                    Except.ok (JSVal.bytes q.1, q.2))) from rfl)]
            rw [hcount, ok_bind]
            rw [if_neg (by omega)]
            rw [show ((bs.length : Int)).toNat = bs.length from Int.toNat_natCast _]
            rw [hrdB, ok_bind]
            rw [map_mod_id hbytes]
            show Except.ok (JSVal.bytes bs, _) = _
            simp [flattenV]
            omega

theorem ustr_eq (ds : DecSt) :
    unserializeString ds =
      (unserializeCount ds >>= fun p =>
        (if p.1 = 0 then Except.ok (JSVal.str [], p.2)
         else if p.1 > (p.2.string_refs.length : Int) then Except.error Err.outOfBoundString
         else match (if 0 ≤ p.1 - 1 then p.2.string_refs[(p.1 - 1).toNat]? else none) with
           | some s => Except.ok (JSVal.str s, p.2)
           | none => Except.ok (JSVal.undef, p.2))) := rfl

theorem bindStrBody (c : Int) (ds1 : DecSt) (r : Except Err (JSVal × DecSt))
    (hr : (if c = 0 then Except.ok (JSVal.str [], ds1)
           else if c > (ds1.string_refs.length : Int) then Except.error Err.outOfBoundString
           else match (if 0 ≤ c - 1 then ds1.string_refs[(c - 1).toNat]? else none) with
             | some s => Except.ok (JSVal.str s, ds1)
             | none => Except.ok (JSVal.undef, ds1)) = r) :
    ((Except.ok (c, ds1) : Except Err (Int × DecSt)) >>= fun p =>
      (if p.1 = 0 then Except.ok (JSVal.str [], p.2)
       else if p.1 > (p.2.string_refs.length : Int) then Except.error Err.outOfBoundString
       else match (if 0 ≤ p.1 - 1 then p.2.string_refs[(p.1 - 1).toNat]? else none) with
         | some s => Except.ok (JSVal.str s, p.2)
         | none => Except.ok (JSVal.undef, p.2))) = r := hr

theorem caseVstr (s : List Nat) : StmtV (.vstr s) := by
  intro h base st fuel hwf hheap hrefs hfuel hkb hsb
  have hok : okString s := hwf
  have hsb1 : st.string_refs.length + 1 ≤ 2147483647 := by
    have : nstrsV (.vstr s) = 1 := rfl
    omega
  cases fuel with
  | zero => exact absurd hfuel (by simp [depthV])
  | succ f =>
      by_cases hs0 : s = []
      · subst hs0
        have hser : serializeComponent h (f + 1) (flattenV (.vstr []) base).1 st =
            .ok { writeUint8 TAG_STRING_REF st with
              out := (writeUint8 TAG_STRING_REF st).out ++ serializeCountBytes 0 } := by
          rw [show serializeComponent h (f + 1) (flattenV (.vstr []) base).1 st =
              serializeCount 0 (writeUint8 TAG_STRING_REF st) from rfl]
          unfold serializeCount
          rw [if_pos (by omega)]
        refine ⟨_, 22 :: serializeCountBytes 0, hser, by simp [writeUint8, TAG_STRING_REF],
          rfl, tabExt_refl _, tabExt_refl _, Nat.le_refl _, by
            show st.string_refs.length ≤ st.string_refs.length + nstrsV (.vstr [])
            omega, ?_,
              (fun s9 hs9 => Or.inl hs9), (fun s9 hs9 => Or.inl hs9),
              (by simp only [depthV, List.length_cons]; omega), ?_⟩
        · intro q hq
          exact hrefs q hq
        · intro Kfin Sfin dfuel ds pre post hK hS hKl hSl hdf hin hpos hcyc hk hs hmap
          cases dfuel with
          | zero => exact absurd hdf (by simp [depthV])
          | succ df =>
              have hin2 : ds.input = pre ++ 22 :: (serializeCountBytes 0 ++ post) := by
                simpa using hin
              have hrd : readUint8 ds = .ok (22 % 256, { ds with pos := ds.pos + 1 }) :=
                readUint8_spec (b := 22) hin2 hpos
              have hcount : unserializeCount { ds with pos := ds.pos + 1 } =
                  .ok ((0 : Nat),
                    { ds with pos := ds.pos + 1 + (serializeCountBytes 0).length }) :=
                unserializeCount_spec (by norm_num)
                  (show ({ ds with pos := ds.pos + 1 } : DecSt).input =
                    (pre ++ [22]) ++ serializeCountBytes 0 ++ post from by simp [hin])
                  (by simp [hpos])
              rw [uc_succ, hrd, bindPart_eq _ _ _ _
                (show unserializeComponentPart (unserializeComponent df) (22 % 256)
                    { ds with pos := ds.pos + 1 } =
                  unserializeString { ds with pos := ds.pos + 1 } from rfl)]
              rw [ustr_eq, hcount, bindStrBody _ _ _
                (if_pos (show ((0 : Nat) : Int) = 0 from rfl))]
              show Except.ok (JSVal.str [], _) = _
              simp [flattenV]
              omega
      · cases hidx : st.string_refs.indexOf? s with
        | some i =>
            have hi := indexOf?_some hidx
            have hser : serializeComponent h (f + 1) (flattenV (.vstr s) base).1 st =
                .ok { writeUint8 TAG_STRING_REF st with
                  out := (writeUint8 TAG_STRING_REF st).out ++
                    serializeCountBytes (i + 1) } := by
              rw [show serializeComponent h (f + 1) (flattenV (.vstr s) base).1 st =
                  serializeString s (writeUint8 TAG_STRING_REF st) from rfl]
              unfold serializeString
              rw [if_neg hs0,
                show (writeUint8 TAG_STRING_REF st).string_refs.indexOf? s = some i from hidx]
              show serializeCount (i + 1) (writeUint8 TAG_STRING_REF st) = _
              unfold serializeCount
              have hi2 := hi.2
              rw [if_pos (by omega)]
            refine ⟨_, 22 :: serializeCountBytes (i + 1), hser,
              by simp [writeUint8, TAG_STRING_REF], rfl, tabExt_refl _, tabExt_refl _,
              Nat.le_refl _, by
                show st.string_refs.length ≤ st.string_refs.length + nstrsV (.vstr s)
                omega, ?_,
              (fun s9 hs9 => Or.inl hs9), (fun s9 hs9 => Or.inl hs9),
              (by simp only [depthV, List.length_cons]; omega), ?_⟩
            · intro q hq
              exact hrefs q hq
            · intro Kfin Sfin dfuel ds pre post hK hS hKl hSl hdf hin hpos hcyc hk hs hmap
              have hSlen : st.string_refs.length ≤ Sfin.length := tabExt_length hS
              have hSi : Sfin[i]? = some s := by
                rw [tabExt_getElem? hS hi.2]
                exact hi.1
              cases dfuel with
              | zero => exact absurd hdf (by simp [depthV])
              | succ df =>
                  have hin2 : ds.input = pre ++ 22 ::
                      (serializeCountBytes (i + 1) ++ post) := by
                    simpa using hin
                  have hrd : readUint8 ds = .ok (22 % 256, { ds with pos := ds.pos + 1 }) :=
                    readUint8_spec (b := 22) hin2 hpos
                  have hcount : unserializeCount { ds with pos := ds.pos + 1 } =
                      .ok (((i + 1 : Nat) : Int),
                        { ds with pos := ds.pos + 1 +
                          (serializeCountBytes (i + 1)).length }) :=
                    unserializeCount_spec (by omega)
                      (show ({ ds with pos := ds.pos + 1 } : DecSt).input =
                        (pre ++ [22]) ++ serializeCountBytes (i + 1) ++ post from by
                          simp [hin])
                      (by simp [hpos])
                  have hbody : ∀ (ds1 : DecSt), ds1.string_refs = Sfin →
                      (if ((i + 1 : Nat) : Int) = 0 then Except.ok (JSVal.str [], ds1)
                       else if ((i + 1 : Nat) : Int) > (ds1.string_refs.length : Int) then
                         Except.error Err.outOfBoundString
                       else match (if 0 ≤ ((i + 1 : Nat) : Int) - 1 then
                           ds1.string_refs[(((i + 1 : Nat) : Int) - 1).toNat]? else none) with
                         | some s0 => Except.ok (JSVal.str s0, ds1)
                         | none => Except.ok (JSVal.undef, ds1)) =
                      Except.ok (JSVal.str s, ds1) := by
                    intro ds1 hs1
                    rw [hs1]
                    rw [if_neg (by push_cast; omega)]
                    rw [if_neg (by push_cast; omega)]
                    rw [if_pos (by push_cast; omega)]
                    rw [show (((i + 1 : Nat) : Int) - 1).toNat = i from by push_cast; omega]
                    rw [hSi]
                  rw [uc_succ, hrd, bindPart_eq _ _ _ _
                    (show unserializeComponentPart (unserializeComponent df) (22 % 256)
                        { ds with pos := ds.pos + 1 } =
                      unserializeString { ds with pos := ds.pos + 1 } from rfl)]
                  rw [ustr_eq, hcount, bindStrBody _ _ _
                    (hbody { ds with pos := ds.pos + 1 +
                      (serializeCountBytes (i + 1)).length } hs)]
                  show Except.ok (JSVal.str s, _) = _
                  simp [flattenV]
                  omega
        | none =>
            have hser : serializeComponent h (f + 1) (flattenV (.vstr s) base).1 st =
                .ok { writeUint8 TAG_STRING_REF st with
                  string_refs := st.string_refs ++ [s],
                  out := (writeUint8 TAG_STRING_REF st).out ++
                    serializeCountBytes (st.string_refs.length + 1) } := by
              rw [show serializeComponent h (f + 1) (flattenV (.vstr s) base).1 st =
                  serializeString s (writeUint8 TAG_STRING_REF st) from rfl]
              unfold serializeString
              rw [if_neg hs0,
                show (writeUint8 TAG_STRING_REF st).string_refs.indexOf? s = none from hidx]
              show serializeCount ((writeUint8 TAG_STRING_REF st).string_refs.length + 1)
                { writeUint8 TAG_STRING_REF st with
                  string_refs := (writeUint8 TAG_STRING_REF st).string_refs ++ [s] } = _
              unfold serializeCount
              rw [if_pos (show (writeUint8 TAG_STRING_REF st).string_refs.length + 1 <
                4294967296 from by show st.string_refs.length + 1 < 4294967296; omega)]
              rfl
            refine ⟨_, 22 :: serializeCountBytes (st.string_refs.length + 1), hser,
              by simp [writeUint8, TAG_STRING_REF], rfl, tabExt_refl _,
              tabExt_append _ [s], Nat.le_refl _, by
                show (st.string_refs ++ [s]).length ≤
                  st.string_refs.length + nstrsV (.vstr s)
                simp [nstrsV], ?_,
              (fun s9 hs9 => Or.inl hs9),
              (fun s9 hs9 => by
                rcases List.mem_append.mp hs9 with h9 | h9
                · exact Or.inl h9
                · rcases List.mem_singleton.mp h9 with rfl
                  exact Or.inr hok),
              (by simp only [depthV, List.length_cons]; omega), ?_⟩
            · intro q hq
              exact hrefs q hq
            · intro Kfin Sfin dfuel ds pre post hK hS hKl hSl hdf hin hpos hcyc hk hs hmap
              have hSlen : st.string_refs.length + 1 ≤ Sfin.length := by
                have := tabExt_length hS
                simpa using this
              have hSi : Sfin[st.string_refs.length]? = some s := by
                rw [tabExt_getElem? hS (by simp)]
                simp
              cases dfuel with
              | zero => exact absurd hdf (by simp [depthV])
              | succ df =>
                  have hin2 : ds.input = pre ++ 22 ::
                      (serializeCountBytes (st.string_refs.length + 1) ++ post) := by
                    simpa using hin
                  have hrd : readUint8 ds = .ok (22 % 256, { ds with pos := ds.pos + 1 }) :=
                    readUint8_spec (b := 22) hin2 hpos
                  have hcount : unserializeCount { ds with pos := ds.pos + 1 } =
                      .ok (((st.string_refs.length + 1 : Nat) : Int),
                        { ds with pos := ds.pos + 1 +
                          (serializeCountBytes (st.string_refs.length + 1)).length }) :=
                    unserializeCount_spec (by omega)
                      (show ({ ds with pos := ds.pos + 1 } : DecSt).input =
                        (pre ++ [22]) ++ serializeCountBytes (st.string_refs.length + 1) ++
                          post from by simp [hin])
                      (by simp [hpos])
                  have hbody : ∀ (ds1 : DecSt), ds1.string_refs = Sfin →
                      (if ((st.string_refs.length + 1 : Nat) : Int) = 0 then
                         Except.ok (JSVal.str [], ds1)
                       else if ((st.string_refs.length + 1 : Nat) : Int) >
                           (ds1.string_refs.length : Int) then
                         Except.error Err.outOfBoundString
                       else match (if 0 ≤ ((st.string_refs.length + 1 : Nat) : Int) - 1 then
                           ds1.string_refs[(((st.string_refs.length + 1 : Nat) : Int) -
                             1).toNat]? else none) with
                         | some s0 => Except.ok (JSVal.str s0, ds1)
                         | none => Except.ok (JSVal.undef, ds1)) =
                      Except.ok (JSVal.str s, ds1) := by
                    intro ds1 hs1
                    rw [hs1]
                    rw [if_neg (by push_cast; omega)]
                    rw [if_neg (by push_cast; omega)]
                    rw [if_pos (by push_cast; omega)]
                    rw [show (((st.string_refs.length + 1 : Nat) : Int) - 1).toNat =
                      st.string_refs.length from by push_cast; omega]
                    rw [hSi]
                  rw [uc_succ, hrd, bindPart_eq _ _ _ _
                    (show unserializeComponentPart (unserializeComponent df) (22 % 256)
                        { ds with pos := ds.pos + 1 } =
                      unserializeString { ds with pos := ds.pos + 1 } from rfl)]
                  rw [ustr_eq, hcount, bindStrBody _ _ _
                    (hbody { ds with pos := ds.pos + 1 +
                      (serializeCountBytes (st.string_refs.length + 1)).length } hs)]
                  show Except.ok (JSVal.str s, _) = _
                  simp [flattenV]
                  omega

/-- Common shape of all seven number tags: once the tag and body bytes are
fixed, the encoder emits `tag :: body` and the decoder reads it back. -/
theorem numStmt (n : JSNum) (tag : Nat) (body : List Nat)
    (htag : getNumberTag n = tag)
    (hlt : tag < 256)
    (htagO : tag ≠ TAG_OBJECT) (htagA : tag ≠ TAG_ARRAY)
    (hnum : tag = TAG_NUMBER ∨ tag = TAG_INT8 ∨ tag = TAG_INT16 ∨ tag = TAG_INT32 ∨
      tag = TAG_UINT8 ∨ tag = TAG_UINT16 ∨ tag = TAG_UINT32)
    (hout : ∀ st : EncSt, serializeNumber n tag st = { st with out := st.out ++ body })
    (hdec : ∀ (df : Nat) (ds : DecSt) (pre post : List Nat),
       wfV (.vnum n) →
       ds.input = pre ++ body ++ post → ds.pos = pre.length →
       unserializeComponentPart (unserializeComponent df) (tag % 256) ds =
         .ok (.num n, { ds with pos := ds.pos + body.length })) :
    StmtV (.vnum n) := by
  intro h base st fuel hwf hheap hrefs hfuel hkb hsb
  cases fuel with
  | zero => exact absurd hfuel (by simp [depthV])
  | succ f =>
      have hser : serializeComponent h (f + 1) (flattenV (.vnum n) base).1 st =
          .ok { writeUint8 tag st with out := (writeUint8 tag st).out ++ body } := by
        rw [show serializeComponent h (f + 1) (flattenV (.vnum n) base).1 st =
            (if getNumberTag n = TAG_OBJECT then
              serializeObject h (serializeComponent h f) (addrOf (JSVal.num n)) st
            else if getNumberTag n = TAG_ARRAY then
              serializeArray h (serializeComponent h f) (addrOf (JSVal.num n)) st
            else serializeComponentPart (JSVal.num n) (getNumberTag n)
              (writeUint8 (getNumberTag n) st)) from rfl]
        rw [htag, if_neg htagO, if_neg htagA]
        unfold serializeComponentPart
        rw [if_pos hnum]
        show Except.ok (serializeNumber n tag (writeUint8 tag st)) = _
        rw [hout]
      refine ⟨_, tag :: body, hser, ?_, rfl, tabExt_refl _, tabExt_refl _,
        Nat.le_refl _, Nat.le_refl _, ?_,
        (fun s hs => Or.inl hs), (fun s hs => Or.inl hs),
        (by simp only [depthV, depthF, depthL, List.length_cons, List.length_nil,
          List.length_append]; omega), ?_⟩
      · show (writeUint8 tag st).out ++ body = st.out ++ (tag :: body)
        simp [writeUint8, Nat.mod_eq_of_lt hlt]
      · intro q hq
        exact hrefs q hq
      · intro Kfin Sfin dfuel ds pre post hK hS hKl hSl hdf hin hpos hcyc hk hs hmap
        cases dfuel with
        | zero => exact absurd hdf (by simp [depthV])
        | succ df =>
            have hin2 : ds.input = pre ++ tag :: (body ++ post) := by
              simpa using hin
            have hrd : readUint8 ds = .ok (tag % 256, { ds with pos := ds.pos + 1 }) :=
              readUint8_spec hin2 hpos
            have hd := hdec df { ds with pos := ds.pos + 1 } (pre ++ [tag]) post hwf
              (by simp [hin]) (by simp [hpos])
            rw [uc_succ, hrd, bindPart_eq _ _ _ _ hd]
            show Except.ok (JSVal.num n, _) = _
            simp [flattenV]
            omega

theorem caseVnum (n : JSNum) : StmtV (.vnum n) := by
  cases n with
  | fval bits =>
      refine numStmt _ TAG_NUMBER (bytesBE 8 bits) rfl (by decide) (by decide) (by decide)
        (Or.inl rfl) (fun st => rfl) ?_
      intro df ds pre post hwf hin hpos
      have hb : bits < 18446744073709551616 := hwf
      have hrdBE : readUintBE (bytesBE 8 bits).length ds =
          .ok (beVal ((bytesBE 8 bits).map (· % 256)),
            { ds with pos := ds.pos + (bytesBE 8 bits).length }) :=
        readUintBE_spec hin hpos
      rw [bytesBE_length] at hrdBE
      have hval : beVal ((bytesBE 8 bits).map (· % 256)) = bits := by
        rw [map_mod_id (bytesBE_lt 8 bits), beVal_bytesBE]
        exact Nat.mod_eq_of_lt (by norm_num; exact hb)
      rw [show unserializeComponentPart (unserializeComponent df) (TAG_NUMBER % 256) ds =
          (readUintBE 8 ds >>= fun p => .ok (.num (.fval p.1), p.2)) from rfl]
      rw [hrdBE, ok_bind, hval, bytesBE_length]
  | ival v =>
      by_cases h0 : -2147483648 ≤ v ∧ v < 4294967296
      · by_cases h1 : 0 ≤ v ∧ v < 4294967296
        · by_cases h2 : v < 256
          · refine numStmt _ TAG_UINT8 (bytesBE 1 (toUint32 v))
              (by simp only [getNumberTag]; rw [if_pos h1, if_pos h2])
              (by decide) (by decide) (by decide)
              (Or.inr (Or.inr (Or.inr (Or.inr (Or.inl rfl))))) (fun st => rfl) ?_
            intro df ds pre post hwf hin hpos
            have hin2 : ds.input = pre ++ (toUint32 v % 256) :: post := by
              simpa [bytesBE] using hin
            have hrd : readUint8 ds =
                .ok (toUint32 v % 256 % 256, { ds with pos := ds.pos + 1 }) :=
              readUint8_spec hin2 hpos
            have hv : ((toUint32 v % 256 % 256 : Nat) : Int) = v := by
              unfold toUint32
              omega
            rw [show unserializeComponentPart (unserializeComponent df) (TAG_UINT8 % 256) ds =
                (readUint8 ds >>= fun p => .ok (.num (.ival p.1), p.2)) from rfl]
            rw [hrd, ok_bind, hv]
            rfl
          · by_cases h3 : v < 65536
            · refine numStmt _ TAG_UINT16 (bytesBE 2 (toUint32 v))
                (by simp only [getNumberTag]; rw [if_pos h1, if_neg h2, if_pos h3])
                (by decide) (by decide) (by decide)
                (Or.inr (Or.inr (Or.inr (Or.inr (Or.inr (Or.inl rfl)))))) (fun st => rfl) ?_
              intro df ds pre post hwf hin hpos
              have hrdBE : readUintBE (bytesBE 2 (toUint32 v)).length ds =
                  .ok (beVal ((bytesBE 2 (toUint32 v)).map (· % 256)),
                    { ds with pos := ds.pos + (bytesBE 2 (toUint32 v)).length }) :=
                readUintBE_spec hin hpos
              rw [bytesBE_length] at hrdBE
              have hval : ((beVal ((bytesBE 2 (toUint32 v)).map (· % 256)) : Nat) : Int) =
                  v := by
                rw [map_mod_id (bytesBE_lt _ _), beVal_bytesBE]
                unfold toUint32
                norm_num
                omega
              rw [show unserializeComponentPart
                  (unserializeComponent df) (TAG_UINT16 % 256) ds =
                  (readUintBE 2 ds >>= fun p => .ok (.num (.ival p.1), p.2)) from rfl]
              rw [hrdBE, ok_bind, hval, bytesBE_length]
            · refine numStmt _ TAG_UINT32 (bytesBE 4 (toUint32 v))
                (by simp only [getNumberTag]; rw [if_pos h1, if_neg h2, if_neg h3])
                (by decide) (by decide) (by decide)
                (Or.inr (Or.inr (Or.inr (Or.inr (Or.inr (Or.inr rfl)))))) (fun st => rfl) ?_
              intro df ds pre post hwf hin hpos
              have hrdBE : readUintBE (bytesBE 4 (toUint32 v)).length ds =
                  .ok (beVal ((bytesBE 4 (toUint32 v)).map (· % 256)),
                    { ds with pos := ds.pos + (bytesBE 4 (toUint32 v)).length }) :=
                readUintBE_spec hin hpos
              rw [bytesBE_length] at hrdBE
              have hval : ((beVal ((bytesBE 4 (toUint32 v)).map (· % 256)) : Nat) : Int) =
                  v := by
                rw [map_mod_id (bytesBE_lt _ _), beVal_bytesBE]
                unfold toUint32
                norm_num
                omega
              rw [show unserializeComponentPart
                  (unserializeComponent df) (TAG_UINT32 % 256) ds =
                  (readUintBE 4 ds >>= fun p => .ok (.num (.ival p.1), p.2)) from rfl]
              rw [hrdBE, ok_bind, hval, bytesBE_length]
        · by_cases h4 : -128 ≤ v ∧ v ≤ 127
          · refine numStmt _ TAG_INT8 (bytesBE 1 (v % (256 : Int) ^ (1 : Nat)).toNat)
              (by
                simp only [getNumberTag]
                rw [if_neg h1, if_pos (show -2147483648 ≤ v ∧ v < 2147483648 from
                  ⟨h0.1, by omega⟩), if_pos h4])
              (by decide) (by decide) (by decide)
              (Or.inr (Or.inl rfl)) (fun st => rfl) ?_
            intro df ds pre post hwf hin hpos
            have hin2 : ds.input = pre ++ ((v % 256).toNat % 256) :: post := by
              simpa [bytesBE] using hin
            have hrd : readUint8 ds =
                .ok ((v % 256).toNat % 256 % 256, { ds with pos := ds.pos + 1 }) :=
              readUint8_spec hin2 hpos
            have hv : asSigned 1 ((v % 256).toNat % 256 % 256) = v := by
              unfold asSigned
              norm_num
              rw [if_neg (by omega)]
              omega
            rw [show unserializeComponentPart (unserializeComponent df) (TAG_INT8 % 256) ds =
                (readUint8 ds >>= fun p => .ok (.num (.ival (asSigned 1 p.1)), p.2)) from rfl]
            rw [hrd, ok_bind, hv]
            rfl
          · by_cases h5 : -32768 ≤ v ∧ v ≤ 32767
            · refine numStmt _ TAG_INT16 (bytesBE 2 (v % (256 : Int) ^ (2 : Nat)).toNat)
                (by
                  simp only [getNumberTag]
                  rw [if_neg h1, if_pos (show -2147483648 ≤ v ∧ v < 2147483648 from
                    ⟨h0.1, by omega⟩), if_neg h4, if_pos h5])
                (by decide) (by decide) (by decide)
                (Or.inr (Or.inr (Or.inl rfl))) (fun st => rfl) ?_
              intro df ds pre post hwf hin hpos
              have hrdBE : readUintBE (bytesBE 2 (v % (256 : Int) ^ (2 : Nat)).toNat).length ds =
                  .ok (beVal ((bytesBE 2 (v % (256 : Int) ^ (2 : Nat)).toNat).map (· % 256)),
                    { ds with pos := ds.pos + (bytesBE 2 (v % (256 : Int) ^ (2 : Nat)).toNat).length }) :=
                readUintBE_spec hin hpos
              rw [bytesBE_length] at hrdBE
              have hval : asSigned 2 (beVal ((bytesBE 2 (v % (256 : Int) ^ (2 : Nat)).toNat).map (· % 256))) =
                  v := by
                rw [map_mod_id (bytesBE_lt _ _), beVal_bytesBE]
                unfold asSigned
                norm_num
                rw [if_neg (by omega)]
                omega
              rw [show unserializeComponentPart
                  (unserializeComponent df) (TAG_INT16 % 256) ds =
                  (readUintBE 2 ds >>= fun p =>
                    .ok (.num (.ival (asSigned 2 p.1)), p.2)) from rfl]
              rw [hrdBE, ok_bind, hval, bytesBE_length]
            · refine numStmt _ TAG_INT32 (bytesBE 4 (v % (256 : Int) ^ (4 : Nat)).toNat)
                (by
                  simp only [getNumberTag]
                  rw [if_neg h1, if_pos (show -2147483648 ≤ v ∧ v < 2147483648 from
                    ⟨h0.1, by omega⟩), if_neg h4, if_neg h5])
                (by decide) (by decide) (by decide)
                (Or.inr (Or.inr (Or.inr (Or.inl rfl)))) (fun st => rfl) ?_
              intro df ds pre post hwf hin hpos
              have hrdBE : readUintBE (bytesBE 4 (v % (256 : Int) ^ (4 : Nat)).toNat).length ds =
                  .ok (beVal ((bytesBE 4 (v % (256 : Int) ^ (4 : Nat)).toNat).map (· % 256)),
                    { ds with pos := ds.pos + (bytesBE 4 (v % (256 : Int) ^ (4 : Nat)).toNat).length }) :=
                readUintBE_spec hin hpos
              rw [bytesBE_length] at hrdBE
              have hval : asSigned 4 (beVal ((bytesBE 4 (v % (256 : Int) ^ (4 : Nat)).toNat).map (· % 256))) =
                  v := by
                rw [map_mod_id (bytesBE_lt _ _), beVal_bytesBE]
                unfold asSigned
                norm_num
                rw [if_neg (by omega)]
                omega
              rw [show unserializeComponentPart
                  (unserializeComponent df) (TAG_INT32 % 256) ds =
                  (readUintBE 4 ds >>= fun p =>
                    .ok (.num (.ival (asSigned 4 p.1)), p.2)) from rfl]
              rw [hrdBE, ok_bind, hval, bytesBE_length]
      · intro h base st fuel hwf hheap hrefs hfuel hkb hsb
        exact absurd hwf h0

theorem flattenF_len : ∀ (fs : TFields) (a : Addr), (flattenF fs a).1.length = flen fs
  | .fnil, _ => rfl
  | .fcons k v rest, a => by
      show ((k, (flattenV v a).1) :: (flattenF rest (flattenV v a).2.2).1).length =
        flen (.fcons k v rest)
      rw [List.length_cons, flattenF_len rest _]
      show flen rest + 1 = 1 + flen rest
      omega

theorem flattenL_len : ∀ (es : TList) (a : Addr), (flattenL es a).1.length = llen es
  | .lnil, _ => rfl
  | .lcons v rest, a => by
      show ((flattenV v a).1 :: (flattenL rest (flattenV v a).2.2).1).length =
        llen (.lcons v rest)
      rw [List.length_cons, flattenL_len rest _]
      show llen rest + 1 = 1 + llen rest
      omega

theorem assignField_fresh {k : List Nat} {v : JSVal} :
    ∀ {F : List (List Nat × JSVal)}, (∀ p ∈ F, p.1 ≠ k) →
      assignField F k v = F ++ [(k, v)]
  | [], _ => rfl
  | (k', v') :: rest, h => by
      unfold assignField
      rw [if_neg (h (k', v') (by simp))]
      rw [assignField_fresh (fun p hp => h p (by simp [hp]))]
      rfl

theorem setField_mid {a : Addr} {k : List Nat} {v : JSVal} {F0 : List (List Nat × JSVal)}
    {H1 H2 : Heap} (h1 : ∀ p ∈ H1, p.1 ≠ a) (h2 : ∀ p ∈ H2, p.1 ≠ a) :
    setField a k v (H1 ++ [(a, .obj F0)] ++ H2) =
      H1 ++ [(a, .obj (assignField F0 k v))] ++ H2 := by
  unfold setField
  rw [List.map_append, List.map_append]
  rw [List.map_congr_left (fun p hp => if_neg (h1 p hp))]
  rw [List.map_congr_left (fun p hp => if_neg (h2 p hp))]
  simp

theorem pushElem_mid {a : Addr} {v : JSVal} {E0 : List JSVal}
    {H1 H2 : Heap} (h1 : ∀ p ∈ H1, p.1 ≠ a) (h2 : ∀ p ∈ H2, p.1 ≠ a) :
    pushElem a v (H1 ++ [(a, .arr E0)] ++ H2) =
      H1 ++ [(a, .arr (E0 ++ [v]))] ++ H2 := by
  unfold pushElem
  rw [List.map_append, List.map_append]
  rw [List.map_congr_left (fun p hp => if_neg (h1 p hp))]
  rw [List.map_congr_left (fun p hp => if_neg (h2 p hp))]
  simp

theorem mid_fresh {H1 H2 : Heap} {a : Nat} {o : HObj} {n : Nat}
    (hmap : (H1 ++ [(a, o)] ++ H2).map Prod.fst = List.range' 0 n) :
    (∀ p ∈ H1, p.1 ≠ a) ∧ (∀ p ∈ H2, p.1 ≠ a) ∧ a < n := by
  have hnd : ((H1 ++ [(a, o)] ++ H2).map Prod.fst).Nodup := by
    rw [hmap]
    exact List.nodup_range' _ _
  have hmem : a ∈ (H1 ++ [(a, o)] ++ H2).map Prod.fst := by simp
  have ha : a < n := by
    rw [hmap] at hmem
    have := List.mem_range'_1.mp hmem
    omega
  simp only [List.map_append, List.nodup_append] at hnd
  refine ⟨?_, ?_, ha⟩
  · intro p hp hpa
    exact hnd.1.2.2 (List.mem_map_of_mem Prod.fst hp) (by simp [hpa])
  · intro p hp hpa
    have hma : a ∈ List.map Prod.fst H1 ++ List.map Prod.fst [(a, o)] := by simp
    exact hnd.2.2 hma (by simpa [hpa] using List.mem_map_of_mem Prod.fst hp)

theorem caseFnil : StmtF .fnil := by
  intro h base st fuel hwf hnd hheap hrefs hfuel hkb hsb
  refine ⟨st, [], rfl, by simp, rfl, tabExt_refl _, tabExt_refl _,
    Nat.le_refl _, Nat.le_refl _, ?_,
        (fun s hs => Or.inl hs), (fun s hs => Or.inl hs),
        (by simp only [depthV, depthF, depthL, List.length_cons, List.length_nil,
          List.length_append]; omega), ?_⟩
  · intro q hq
    exact hrefs q hq
  · intro Kfin Sfin dfuel ds pre post aObj H1 F0 H2 hK hS hKl hSl hdf hin hpos hcyc hk hs
      hH hmap hfresh
    have hH2 : H1 ++ (aObj, HObj.obj F0) :: H2 = ds.heap := by simp [hH]
    show Except.ok ds = _
    simp [flattenF, hH2]

theorem caseLnil : StmtL .lnil := by
  intro h base st fuel hwf hheap hrefs hfuel hkb hsb
  refine ⟨st, [], rfl, by simp, rfl, tabExt_refl _, tabExt_refl _,
    Nat.le_refl _, Nat.le_refl _, ?_,
        (fun s hs => Or.inl hs), (fun s hs => Or.inl hs),
        (by simp only [depthV, depthF, depthL, List.length_cons, List.length_nil,
          List.length_append]; omega), ?_⟩
  · intro q hq
    exact hrefs q hq
  · intro Kfin Sfin dfuel ds pre post aArr H1 E0 H2 hK hS hKl hSl hdf hin hpos hcyc hk hs
      hH hmap
    have hH2 : H1 ++ (aArr, HObj.arr E0) :: H2 = ds.heap := by simp [hH]
    show Except.ok ds = _
    simp [flattenL, hH2]

theorem bindLoopObj (comp : DecSt → Except Err (JSVal × DecSt)) (a : Addr) (c : Int)
    (ds1 : DecSt) (r : Except Err (JSVal × DecSt))
    (hr : (unserializeObjectLoop comp a c.toNat ds1 >>= fun st4 =>
      .ok (.ref a, st4)) = r) :
    ((Except.ok (c, ds1) : Except Err (Int × DecSt)) >>= fun p =>
      unserializeObjectLoop comp a p.1.toNat p.2 >>= fun st4 => .ok (.ref a, st4)) = r := hr

theorem bindLoopArr (comp : DecSt → Except Err (JSVal × DecSt)) (a : Addr) (c : Int)
    (ds1 : DecSt) (r : Except Err (JSVal × DecSt))
    (hr : (unserializeArrayLoop comp a c.toNat ds1 >>= fun st4 =>
      .ok (.ref a, st4)) = r) :
    ((Except.ok (c, ds1) : Except Err (Int × DecSt)) >>= fun p =>
      unserializeArrayLoop comp a p.1.toNat p.2 >>= fun st4 => .ok (.ref a, st4)) = r := hr

theorem map_alloc_range {H : Heap} {n : Nat} (o : HObj)
    (hmap : H.map Prod.fst = List.range' 0 n) :
    (H ++ [(n, o)]).map Prod.fst = List.range' 0 (n + 1) := by
  rw [List.map_append, hmap]
  have h9 := List.range'_append_1 0 n 1
  simp at h9
  rw [Nat.add_comm 1 n] at h9
  simpa using h9

theorem caseVobj (fs : TFields) (ihF : StmtF fs) : StmtV (.vobj fs) := by
  intro h base st fuel hwf hheap hrefs hfuel hkb hsb
  have hflen : flen fs < 2147483648 := hwf.2.1
  cases fuel with
  | zero => exact absurd hfuel (by simp [depthV])
  | succ f =>
      have hl : st.object_refs.lookup base = none := lookup_lt_none hrefs
      have hobj : h.lookup base = some (.obj (flattenF fs (base + 1)).1) :=
        hheap (base, .obj (flattenF fs (base + 1)).1)
          (show _ ∈ (base, HObj.obj (flattenF fs (base + 1)).1) ::
            (flattenF fs (base + 1)).2.1 from List.mem_cons_self _ _)
      have htag : getValueTag h (.ref base) = TAG_OBJECT := by
        show (match h.lookup base with
          | some (.arr _) => TAG_ARRAY
          | _ => TAG_OBJECT) = TAG_OBJECT
        rw [hobj]
      have hcnt : serializeCount (flattenF fs (base + 1)).1.length
          (writeUint8 TAG_OBJECT
            { st with object_refs := st.object_refs ++ [(base, st.out.length)] }) =
          .ok { writeUint8 TAG_OBJECT
              { st with object_refs := st.object_refs ++ [(base, st.out.length)] } with
            out := (writeUint8 TAG_OBJECT
                { st with object_refs := st.object_refs ++ [(base, st.out.length)] }).out ++
              serializeCountBytes (flattenF fs (base + 1)).1.length } := by
        unfold serializeCount
        rw [if_pos (by rw [flattenF_len]; omega)]
      have hdep : depthF fs ≤ f := by
        have e9 : depthV (.vobj fs) = 1 + depthF fs := rfl
        omega
      obtain ⟨st', Bf, hserF, houtF, hcycF, hKext, hSext, hKlen, hSlen, hrefs',
        hKok, hSok, hdepB, hB⟩ :=
        ihF h (base + 1)
          { writeUint8 TAG_OBJECT
              { st with object_refs := st.object_refs ++ [(base, st.out.length)] } with
            out := (writeUint8 TAG_OBJECT
                { st with object_refs := st.object_refs ++ [(base, st.out.length)] }).out ++
              serializeCountBytes (flattenF fs (base + 1)).1.length }
          f hwf.1 hwf.2.2
          (fun p hp => hheap p (by
            show p ∈ (base, HObj.obj (flattenF fs (base + 1)).1) ::
              (flattenF fs (base + 1)).2.1
            exact List.mem_cons_of_mem _ hp))
          (by
            intro q hq
            show q.1 < base + 1
            rcases List.mem_append.mp hq with h9 | h9
            · exact Nat.lt_succ_of_lt (hrefs q h9)
            · rcases List.mem_singleton.mp h9 with rfl
              exact Nat.lt_succ_self base)
          hdep (by exact hkb) (by exact hsb)
      have hser : serializeComponent h (f + 1) (flattenV (.vobj fs) base).1 st = .ok st' := by
        rw [show serializeComponent h (f + 1) (flattenV (.vobj fs) base).1 st =
            (if getValueTag h (.ref base) = TAG_OBJECT then
              serializeObject h (serializeComponent h f) base st
            else if getValueTag h (.ref base) = TAG_ARRAY then
              serializeArray h (serializeComponent h f) base st
            else serializeComponentPart (.ref base) (getValueTag h (.ref base))
              (writeUint8 (getValueTag h (.ref base)) st)) from rfl]
        rw [htag, if_pos rfl]
        rw [serializeObject_new hl hobj]
        rw [hcnt, ok_bind]
        exact hserF
      refine ⟨st', 48 :: (serializeCountBytes (flen fs) ++ Bf), hser, ?_,
        by rw [hcycF]; rfl, hKext, hSext, by exact hKlen, by exact hSlen,
        by exact hrefs', by exact hKok, by exact hSok,
        (by
          have e9 : depthV (.vobj fs) = 1 + depthF fs := rfl
          simp only [List.length_cons, List.length_append]
          omega), ?_⟩
      · rw [houtF]
        show (st.out ++ [TAG_OBJECT % 256]) ++
            serializeCountBytes (flattenF fs (base + 1)).1.length ++ Bf = _
        rw [flattenF_len]
        simp [TAG_OBJECT]
      · intro Kfin Sfin dfuel ds pre post hK hS hKl hSl hdf hin hpos hcyc hk hs hmap
        cases dfuel with
        | zero => exact absurd hdf (by simp [depthV])
        | succ df =>
            have hin2 : ds.input = pre ++ 48 ::
                ((serializeCountBytes (flen fs) ++ Bf) ++ post) := by
              simpa using hin
            have hrd : readUint8 ds = .ok (48 % 256, { ds with pos := ds.pos + 1 }) :=
              readUint8_spec (b := 48) hin2 hpos
            have hcount : unserializeCount
                { ds with
                  pos := ds.pos + 1,
                  heap := ds.heap ++ [(ds.nextAddr, HObj.obj [])],
                  nextAddr := ds.nextAddr + 1 } =
                .ok ((flen fs : Int),
                  { ds with
                    pos := ds.pos + 1 + (serializeCountBytes (flen fs)).length,
                    heap := ds.heap ++ [(ds.nextAddr, HObj.obj [])],
                    nextAddr := ds.nextAddr + 1 }) :=
              unserializeCount_spec hflen
                (show _ = (pre ++ [48]) ++ serializeCountBytes (flen fs) ++ (Bf ++ post)
                  from by simp [hin])
                (by simp [hpos])
            have hdep2 : depthF fs ≤ df := by
              have e9 : depthV (.vobj fs) = 1 + depthF fs := rfl
              omega
            have hloop := hB Kfin Sfin df
              { ds with
                pos := ds.pos + 1 + (serializeCountBytes (flen fs)).length,
                heap := ds.heap ++ [(ds.nextAddr, HObj.obj [])],
                nextAddr := ds.nextAddr + 1 }
              (pre ++ 48 :: serializeCountBytes (flen fs)) post
              ds.nextAddr ds.heap [] []
              hK hS hKl hSl hdep2
              (by simpa using hin)
              (by simp [hpos]; omega)
              (by exact hcyc) (by exact hk) (by exact hs)
              (by simp)
              (by exact map_alloc_range (HObj.obj []) hmap)
              (by intro k9 h9 p9 hp9; cases hp9)
            replace hloop : unserializeObjectLoop (unserializeComponent df) ds.nextAddr
                (flen fs)
                { ds with
                  pos := ds.pos + 1 + (serializeCountBytes (flen fs)).length,
                  heap := ds.heap ++ [(ds.nextAddr, HObj.obj [])],
                  nextAddr := ds.nextAddr + 1 } =
                .ok { ds with
                  pos := ds.pos + 1 + (serializeCountBytes (flen fs)).length + Bf.length,
                  heap := ds.heap ++ [(ds.nextAddr,
                    HObj.obj ([] ++ (flattenF fs (ds.nextAddr + 1)).1))] ++
                    ([] ++ (flattenF fs (ds.nextAddr + 1)).2.1),
                  nextAddr := (flattenF fs (ds.nextAddr + 1)).2.2 } := hloop
            rw [uc_succ, hrd, bindPart_eq _ _ _ _
              (show unserializeComponentPart (unserializeComponent df) (48 % 256)
                  { ds with pos := ds.pos + 1 } =
                unserializeObject (unserializeComponent df)
                  { ds with pos := ds.pos + 1 } from rfl)]
            rw [show unserializeObject (unserializeComponent df)
                  { ds with pos := ds.pos + 1 } =
                (unserializeCount (if ds.hasCycle then
                    { ds with
                      pos := ds.pos + 1,
                      object_refs := ds.object_refs ++ [(ds.pos + 1 - 1, ds.nextAddr)],
                      heap := ds.heap ++ [(ds.nextAddr, HObj.obj [])],
                      nextAddr := ds.nextAddr + 1 }
                  else
                    { ds with
                      pos := ds.pos + 1,
                      heap := ds.heap ++ [(ds.nextAddr, HObj.obj [])],
                      nextAddr := ds.nextAddr + 1 }) >>= fun p =>
                  unserializeObjectLoop (unserializeComponent df) ds.nextAddr p.1.toNat
                      p.2 >>= fun st4 =>
                    .ok (.ref ds.nextAddr, st4)) from rfl]
            rw [if_neg (show ¬(ds.hasCycle = true) from by simp [hcyc])]
            rw [hcount, bindLoopObj _ _ _ _ _ (by
              rw [show ((flen fs : Int)).toNat = flen fs from Int.toNat_natCast _, hloop,
                ok_bind])]
            show Except.ok (JSVal.ref ds.nextAddr, _) = _
            simp [flattenV]
            omega

theorem caseVarr (es : TList) (ihL : StmtL es) : StmtV (.varr es) := by
  intro h base st fuel hwf hheap hrefs hfuel hkb hsb
  have hllen : llen es < 2147483648 := hwf.2
  cases fuel with
  | zero => exact absurd hfuel (by simp [depthV])
  | succ f =>
      have hl : st.object_refs.lookup base = none := lookup_lt_none hrefs
      have hobj : h.lookup base = some (.arr (flattenL es (base + 1)).1) :=
        hheap (base, .arr (flattenL es (base + 1)).1)
          (show _ ∈ (base, HObj.arr (flattenL es (base + 1)).1) ::
            (flattenL es (base + 1)).2.1 from List.mem_cons_self _ _)
      have htag : getValueTag h (.ref base) = TAG_ARRAY := by
        show (match h.lookup base with
          | some (.arr _) => TAG_ARRAY
          | _ => TAG_OBJECT) = TAG_ARRAY
        rw [hobj]
      have hcnt : serializeCount (flattenL es (base + 1)).1.length
          (writeUint8 TAG_ARRAY
            { st with object_refs := st.object_refs ++ [(base, st.out.length)] }) =
          .ok { writeUint8 TAG_ARRAY
              { st with object_refs := st.object_refs ++ [(base, st.out.length)] } with
            out := (writeUint8 TAG_ARRAY
                { st with object_refs := st.object_refs ++ [(base, st.out.length)] }).out ++
              serializeCountBytes (flattenL es (base + 1)).1.length } := by
        unfold serializeCount
        rw [if_pos (by rw [flattenL_len]; omega)]
      have hdep : depthL es ≤ f := by
        have e9 : depthV (.varr es) = 1 + depthL es := rfl
        omega
      obtain ⟨st', Be, hserL, houtL, hcycL, hKext, hSext, hKlen, hSlen, hrefs',
        hKok, hSok, hdepB, hB⟩ :=
        ihL h (base + 1)
          { writeUint8 TAG_ARRAY
              { st with object_refs := st.object_refs ++ [(base, st.out.length)] } with
            out := (writeUint8 TAG_ARRAY
                { st with object_refs := st.object_refs ++ [(base, st.out.length)] }).out ++
              serializeCountBytes (flattenL es (base + 1)).1.length }
          f hwf.1
          (fun p hp => hheap p (by
            show p ∈ (base, HObj.arr (flattenL es (base + 1)).1) ::
              (flattenL es (base + 1)).2.1
            exact List.mem_cons_of_mem _ hp))
          (by
            intro q hq
            show q.1 < base + 1
            rcases List.mem_append.mp hq with h9 | h9
            · exact Nat.lt_succ_of_lt (hrefs q h9)
            · rcases List.mem_singleton.mp h9 with rfl
              exact Nat.lt_succ_self base)
          hdep (by exact hkb) (by exact hsb)
      have hser : serializeComponent h (f + 1) (flattenV (.varr es) base).1 st = .ok st' := by
        rw [show serializeComponent h (f + 1) (flattenV (.varr es) base).1 st =
            (if getValueTag h (.ref base) = TAG_OBJECT then
              serializeObject h (serializeComponent h f) base st
            else if getValueTag h (.ref base) = TAG_ARRAY then
              serializeArray h (serializeComponent h f) base st
            else serializeComponentPart (.ref base) (getValueTag h (.ref base))
              (writeUint8 (getValueTag h (.ref base)) st)) from rfl]
        rw [htag, if_neg (by decide), if_pos rfl]
        rw [serializeArray_new hl hobj]
        rw [hcnt, ok_bind]
        exact hserL
      refine ⟨st', 49 :: (serializeCountBytes (llen es) ++ Be), hser, ?_,
        by rw [hcycL]; rfl, hKext, hSext, by exact hKlen, by exact hSlen,
        by exact hrefs', by exact hKok, by exact hSok,
        (by
          have e9 : depthV (.varr es) = 1 + depthL es := rfl
          simp only [List.length_cons, List.length_append]
          omega), ?_⟩
      · rw [houtL]
        show (st.out ++ [TAG_ARRAY % 256]) ++
            serializeCountBytes (flattenL es (base + 1)).1.length ++ Be = _
        rw [flattenL_len]
        simp [TAG_ARRAY]
      · intro Kfin Sfin dfuel ds pre post hK hS hKl hSl hdf hin hpos hcyc hk hs hmap
        cases dfuel with
        | zero => exact absurd hdf (by simp [depthV])
        | succ df =>
            have hin2 : ds.input = pre ++ 49 ::
                ((serializeCountBytes (llen es) ++ Be) ++ post) := by
              simpa using hin
            have hrd : readUint8 ds = .ok (49 % 256, { ds with pos := ds.pos + 1 }) :=
              readUint8_spec (b := 49) hin2 hpos
            have hcount : unserializeCount
                { ds with
                  pos := ds.pos + 1,
                  heap := ds.heap ++ [(ds.nextAddr, HObj.arr [])],
                  nextAddr := ds.nextAddr + 1 } =
                .ok ((llen es : Int),
                  { ds with
                    pos := ds.pos + 1 + (serializeCountBytes (llen es)).length,
                    heap := ds.heap ++ [(ds.nextAddr, HObj.arr [])],
                    nextAddr := ds.nextAddr + 1 }) :=
              unserializeCount_spec hllen
                (show _ = (pre ++ [49]) ++ serializeCountBytes (llen es) ++ (Be ++ post)
                  from by simp [hin])
                (by simp [hpos])
            have hdep2 : depthL es ≤ df := by
              have e9 : depthV (.varr es) = 1 + depthL es := rfl
              omega
            have hloop := hB Kfin Sfin df
              { ds with
                pos := ds.pos + 1 + (serializeCountBytes (llen es)).length,
                heap := ds.heap ++ [(ds.nextAddr, HObj.arr [])],
                nextAddr := ds.nextAddr + 1 }
              (pre ++ 49 :: serializeCountBytes (llen es)) post
              ds.nextAddr ds.heap [] []
              hK hS hKl hSl hdep2
              (by simpa using hin)
              (by simp [hpos]; omega)
              (by exact hcyc) (by exact hk) (by exact hs)
              (by simp)
              (by exact map_alloc_range (HObj.arr []) hmap)
            replace hloop : unserializeArrayLoop (unserializeComponent df) ds.nextAddr
                (llen es)
                { ds with
                  pos := ds.pos + 1 + (serializeCountBytes (llen es)).length,
                  heap := ds.heap ++ [(ds.nextAddr, HObj.arr [])],
                  nextAddr := ds.nextAddr + 1 } =
                .ok { ds with
                  pos := ds.pos + 1 + (serializeCountBytes (llen es)).length + Be.length,
                  heap := ds.heap ++ [(ds.nextAddr,
                    HObj.arr ([] ++ (flattenL es (ds.nextAddr + 1)).1))] ++
                    ([] ++ (flattenL es (ds.nextAddr + 1)).2.1),
                  nextAddr := (flattenL es (ds.nextAddr + 1)).2.2 } := hloop
            rw [uc_succ, hrd, bindPart_eq _ _ _ _
              (show unserializeComponentPart (unserializeComponent df) (49 % 256)
                  { ds with pos := ds.pos + 1 } =
                unserializeArray (unserializeComponent df)
                  { ds with pos := ds.pos + 1 } from rfl)]
            rw [show unserializeArray (unserializeComponent df)
                  { ds with pos := ds.pos + 1 } =
                (unserializeCount (if ds.hasCycle then
                    { ds with
                      pos := ds.pos + 1,
                      object_refs := ds.object_refs ++ [(ds.pos + 1 - 1, ds.nextAddr)],
                      heap := ds.heap ++ [(ds.nextAddr, HObj.arr [])],
                      nextAddr := ds.nextAddr + 1 }
                  else
                    { ds with
                      pos := ds.pos + 1,
                      heap := ds.heap ++ [(ds.nextAddr, HObj.arr [])],
                      nextAddr := ds.nextAddr + 1 }) >>= fun p =>
                  unserializeArrayLoop (unserializeComponent df) ds.nextAddr p.1.toNat
                      p.2 >>= fun st4 =>
                    .ok (.ref ds.nextAddr, st4)) from rfl]
            rw [if_neg (show ¬(ds.hasCycle = true) from by simp [hcyc])]
            rw [hcount, bindLoopArr _ _ _ _ _ (by
              rw [show ((llen es : Int)).toNat = llen es from Int.toNat_natCast _, hloop,
                ok_bind])]
            show Except.ok (JSVal.ref ds.nextAddr, _) = _
            simp [flattenV]
            omega

theorem uolS (comp : DecSt → Except Err (JSVal × DecSt)) (aObj : Addr) (m : Nat)
    (ds : DecSt) :
    unserializeObjectLoop comp aObj (m + 1) ds =
      (unserializeCount ds >>= fun p =>
        if p.1 ≥ (p.2.string_keys.length : Int) then Except.error Err.outOfBoundProperty
        else
          comp p.2 >>= fun q =>
            unserializeObjectLoop comp aObj m
              { q.2 with heap := setField aObj (match (if 0 ≤ p.1 then p.2.string_keys[p.1.toNat]? else none) with | some k9 => k9 | none => undefinedKeyBytes) q.1 q.2.heap }) := rfl

theorem ualS (comp : DecSt → Except Err (JSVal × DecSt)) (aArr : Addr) (m : Nat)
    (ds : DecSt) :
    unserializeArrayLoop comp aArr (m + 1) ds =
      (comp ds >>= fun q =>
        unserializeArrayLoop comp aArr m
          { q.2 with heap := pushElem aArr q.1 q.2.heap }) := rfl

theorem bindFieldCount (comp : DecSt → Except Err (JSVal × DecSt)) (aObj : Addr) (m : Nat)
    (c : Int) (ds1 : DecSt) (r : Except Err DecSt)
    (hr : (if c ≥ (ds1.string_keys.length : Int) then Except.error Err.outOfBoundProperty
           else comp ds1 >>= fun q =>
             unserializeObjectLoop comp aObj m
               { q.2 with heap := setField aObj (match (if 0 ≤ c then ds1.string_keys[c.toNat]? else none) with | some k9 => k9 | none => undefinedKeyBytes) q.1 q.2.heap }) = r) :
    ((Except.ok (c, ds1) : Except Err (Int × DecSt)) >>= fun p =>
      if p.1 ≥ (p.2.string_keys.length : Int) then Except.error Err.outOfBoundProperty
      else comp p.2 >>= fun q =>
        unserializeObjectLoop comp aObj m
          { q.2 with heap := setField aObj (match (if 0 ≤ p.1 then p.2.string_keys[p.1.toNat]? else none) with | some k9 => k9 | none => undefinedKeyBytes) q.1 q.2.heap }) = r := hr

theorem bindFieldVal (comp : DecSt → Except Err (JSVal × DecSt)) (aObj : Addr) (m : Nat)
    (key : List Nat) (v1 : JSVal) (ds2 : DecSt) (r : Except Err DecSt)
    (hr : unserializeObjectLoop comp aObj m
        { ds2 with heap := setField aObj key v1 ds2.heap } = r) :
    ((Except.ok (v1, ds2) : Except Err (JSVal × DecSt)) >>= fun q =>
      unserializeObjectLoop comp aObj m
        { q.2 with heap := setField aObj key q.1 q.2.heap }) = r := hr

theorem bindElemVal (comp : DecSt → Except Err (JSVal × DecSt)) (aArr : Addr) (m : Nat)
    (v1 : JSVal) (ds2 : DecSt) (r : Except Err DecSt)
    (hr : unserializeArrayLoop comp aArr m
        { ds2 with heap := pushElem aArr v1 ds2.heap } = r) :
    ((Except.ok (v1, ds2) : Except Err (JSVal × DecSt)) >>= fun q =>
      unserializeArrayLoop comp aArr m
        { q.2 with heap := pushElem aArr q.1 q.2.heap }) = r := hr

theorem map_heap_ext {H1 H2 Hv : Heap} {a : Nat} {o o2 : HObj} {n m : Nat}
    (hmap : (H1 ++ [(a, o)] ++ H2).map Prod.fst = List.range' 0 n)
    (hv : Hv.map Prod.fst = List.range' n m) :
    (H1 ++ [(a, o2)] ++ (H2 ++ Hv)).map Prod.fst = List.range' 0 (n + m) := by
  have e9 : (H1 ++ [(a, o2)] ++ (H2 ++ Hv)).map Prod.fst =
      (H1 ++ [(a, o)] ++ H2).map Prod.fst ++ Hv.map Prod.fst := by simp
  rw [e9, hmap, hv, Nat.add_comm n m]
  have h9 := List.range'_append_1 0 n m
  simpa using h9

theorem cells_fresh {Hv : Heap} {start cnt a : Nat}
    (hv : Hv.map Prod.fst = List.range' start cnt) (ha : a < start) :
    ∀ p ∈ Hv, p.1 ≠ a := by
  intro p hp hpa
  have h8 : p.1 ∈ List.range' start cnt := by
    rw [← hv]
    exact List.mem_map_of_mem _ hp
  rw [hpa] at h8
  have := List.mem_range'_1.mp h8
  omega

theorem caseFcons (k : List Nat) (v : TVal) (rest : TFields)
    (ihv : StmtV v) (ihr : StmtF rest) : StmtF (.fcons k v rest) := by
  intro h base st fuel hwf hnd hheap hrefs hfuel hkb hsb
  have hND := List.nodup_cons.mp (show (k :: fkeys rest).Nodup from hnd)
  have eNK : nkeysF (.fcons k v rest) = 1 + nkeysV v + nkeysF rest := rfl
  have eNS : nstrsF (.fcons k v rest) = nstrsV v + nstrsF rest := rfl
  have eDP : depthF (.fcons k v rest) = max (depthV v) (depthF rest) := rfl
  obtain ⟨idx, stK, hik, hkeyK, hidxlt, hKext0, hlen1, hS0, hout0, hrefs0, hcyc0, hKmem⟩ :
      ∃ idx stK, internKey k st = (idx, stK) ∧ stK.string_keys[idx]? = some k ∧
        idx < stK.string_keys.length ∧ tabExt st.string_keys stK.string_keys ∧
        stK.string_keys.length ≤ st.string_keys.length + 1 ∧
        stK.string_refs = st.string_refs ∧ stK.out = st.out ∧
        stK.object_refs = st.object_refs ∧ stK.hasCycle = st.hasCycle ∧
        (∀ s ∈ stK.string_keys, s ∈ st.string_keys ∨ s = k) := by
    cases hidx : st.string_keys.indexOf? k with
    | some i =>
        have hi := indexOf?_some hidx
        exact ⟨i, st, by unfold internKey; rw [hidx], hi.1, hi.2, tabExt_refl _,
          by omega, rfl, rfl, rfl, rfl, fun s hs => Or.inl hs⟩
    | none =>
        refine ⟨st.string_keys.length, { st with string_keys := st.string_keys ++ [k] },
          by unfold internKey; rw [hidx], ?_, ?_, tabExt_append _ _, ?_, rfl, rfl, rfl,
          rfl, ?_⟩
        · show (st.string_keys ++ [k])[st.string_keys.length]? = some k
          simp
        · show st.string_keys.length < (st.string_keys ++ [k]).length
          simp
        · show (st.string_keys ++ [k]).length ≤ st.string_keys.length + 1
          simp
        · intro s hs
          rcases List.mem_append.mp hs with h9 | h9
          · exact Or.inl h9
          · exact Or.inr (List.mem_singleton.mp h9)
  have hidxB : idx < 2147483648 := by omega
  have hcntK : serializeCount idx stK =
      .ok { stK with out := stK.out ++ serializeCountBytes idx } := by
    unfold serializeCount
    rw [if_pos (by omega)]
  obtain ⟨st3, Bv, hserV, houtV, hcycV, hKextV, hSextV, hKlenV, hSlenV, hrefsV,
    hKokV, hSokV, hdepBV, hBv⟩ :=
    ihv h base { stK with out := stK.out ++ serializeCountBytes idx } fuel hwf.2.1
      (fun p hp => hheap p (by
        show p ∈ (flattenV v base).2.1 ++ (flattenF rest (flattenV v base).2.2).2.1
        exact List.mem_append_left _ hp))
      (by
        intro q hq
        apply hrefs
        have hq2 : q ∈ st.object_refs := by
          rw [← hrefs0]
          exact hq
        exact hq2)
      (by omega)
      (by
        have e2 : ({ stK with out := stK.out ++ serializeCountBytes idx } :
          EncSt).string_keys.length = stK.string_keys.length := rfl
        omega)
      (by
        have e2 : ({ stK with out := stK.out ++ serializeCountBytes idx } :
          EncSt).string_refs.length = st.string_refs.length := by rw [show ({ stK with
            out := stK.out ++ serializeCountBytes idx } : EncSt).string_refs =
            stK.string_refs from rfl, hS0]
        omega)
  obtain ⟨st4, Br, hserR, houtR, hcycR, hKextR, hSextR, hKlenR, hSlenR, hrefsR,
    hKokR, hSokR, hdepBR, hBr⟩ :=
    ihr h (flattenV v base).2.2 st3 fuel hwf.2.2 hND.2
      (fun p hp => hheap p (by
        show p ∈ (flattenV v base).2.1 ++ (flattenF rest (flattenV v base).2.2).2.1
        exact List.mem_append_right _ hp))
      hrefsV
      (by omega)
      (by
        have e2 : ({ stK with out := stK.out ++ serializeCountBytes idx } :
          EncSt).string_keys.length = stK.string_keys.length := rfl
        omega)
      (by
        have e2 : ({ stK with out := stK.out ++ serializeCountBytes idx } :
          EncSt).string_refs.length = st.string_refs.length := by rw [show ({ stK with
            out := stK.out ++ serializeCountBytes idx } : EncSt).string_refs =
            stK.string_refs from rfl, hS0]
        omega)
  refine ⟨st4, serializeCountBytes idx ++ Bv ++ Br, ?_, ?_, ?_, ?_, ?_, ?_, ?_,
    by exact hrefsR, ?_, ?_, ?_, ?_⟩
  · rw [show serializeFields (serializeComponent h fuel)
        ((flattenF (.fcons k v rest) base).1) st =
        (serializeCount (internKey k st).1 (internKey k st).2 >>= fun stA =>
          serializeComponent h fuel (flattenV v base).1 stA >>= fun stB =>
            serializeFields (serializeComponent h fuel)
              (flattenF rest (flattenV v base).2.2).1 stB) from rfl]
    rw [hik]
    show (serializeCount idx stK >>= fun stA =>
      serializeComponent h fuel (flattenV v base).1 stA >>= fun stB =>
        serializeFields (serializeComponent h fuel)
          (flattenF rest (flattenV v base).2.2).1 stB) = _
    rw [hcntK, ok_bind, hserV, ok_bind]
    exact hserR
  · rw [houtR, houtV]
    show stK.out ++ serializeCountBytes idx ++ Bv ++ Br = _
    rw [hout0]
    simp [List.append_assoc]
  · rw [hcycR, hcycV]
    show stK.hasCycle = st.hasCycle
    exact hcyc0
  · exact tabExt_trans hKext0 (tabExt_trans (by exact hKextV) hKextR)
  · rw [← hS0]
    exact tabExt_trans (by exact hSextV) hSextR
  · have e2 : ({ stK with out := stK.out ++ serializeCountBytes idx } :
      EncSt).string_keys.length = stK.string_keys.length := rfl
    omega
  · have e2 : ({ stK with out := stK.out ++ serializeCountBytes idx } :
      EncSt).string_refs.length = st.string_refs.length := by rw [show ({ stK with
        out := stK.out ++ serializeCountBytes idx } : EncSt).string_refs =
        stK.string_refs from rfl, hS0]
    omega
  · intro s hs
    rcases hKokR s hs with h9 | h9
    · rcases hKokV s h9 with h8 | h8
      · rcases hKmem s (by exact h8) with h7 | h7
        · exact Or.inl h7
        · rcases h7 with rfl
          exact Or.inr hwf.1
      · exact Or.inr h8
    · exact Or.inr h9
  · intro s hs
    rcases hSokR s hs with h9 | h9
    · rcases hSokV s h9 with h8 | h8
      · refine Or.inl ?_
        rw [← hS0]
        exact h8
      · exact Or.inr h8
    · exact Or.inr h9
  · simp only [List.length_append]
    omega
  · intro Kfin Sfin dfuel ds pre post aObj H1 F0 H2 hK hS hKl hSl hdf hin hpos hcyc hk hs
      hH hmap hfresh
    have hKfin : tabExt stK.string_keys Kfin :=
      tabExt_trans (by exact hKextV) (tabExt_trans hKextR hK)
    have hKidx : Kfin[idx]? = some k := (tabExt_getElem? hKfin hidxlt).trans hkeyK
    have hidxK : idx < Kfin.length := lt_of_lt_of_le hidxlt (tabExt_length hKfin)
    obtain ⟨hfr1, hfr2, haObj⟩ := mid_fresh (show (H1 ++ [(aObj, HObj.obj F0)] ++
        H2).map Prod.fst = List.range' 0 ds.nextAddr from by rw [← hH]; exact hmap)
    have hfrV : ∀ p ∈ (flattenV v ds.nextAddr).2.1, p.1 ≠ aObj :=
      cells_fresh (flattenV_addrs v ds.nextAddr) haObj
    have hfr2ext : ∀ p ∈ H2 ++ (flattenV v ds.nextAddr).2.1, p.1 ≠ aObj := by
      intro p hp
      rcases List.mem_append.mp hp with h9 | h9
      · exact hfr2 p h9
      · exact hfrV p h9
    have hF0k : ∀ p ∈ F0, p.1 ≠ k :=
      hfresh k (show k ∈ k :: fkeys rest from List.mem_cons_self _ _)
    have hset : setField aObj k (flattenV v ds.nextAddr).1
        (ds.heap ++ (flattenV v ds.nextAddr).2.1) =
        H1 ++ [(aObj, HObj.obj (F0 ++ [(k, (flattenV v ds.nextAddr).1)]))] ++
          (H2 ++ (flattenV v ds.nextAddr).2.1) := by
      rw [show ds.heap ++ (flattenV v ds.nextAddr).2.1 =
          H1 ++ [(aObj, HObj.obj F0)] ++ (H2 ++ (flattenV v ds.nextAddr).2.1) from by
        rw [hH]; simp]
      rw [setField_mid hfr1 hfr2ext, assignField_fresh hF0k]
    have hcount : unserializeCount ds =
        .ok ((idx : Int), { ds with pos := ds.pos + (serializeCountBytes idx).length }) :=
      unserializeCount_spec hidxB
        (show ds.input = pre ++ serializeCountBytes idx ++ ((Bv ++ Br) ++ post) from by
          simp [hin])
        hpos
    have hcomp := hBv Kfin Sfin dfuel
      { ds with pos := ds.pos + (serializeCountBytes idx).length }
      (pre ++ serializeCountBytes idx) (Br ++ post)
      (tabExt_trans hKextR hK) (tabExt_trans hSextR hS) hKl hSl
      (by omega)
      (by simp [hin])
      (by simp [hpos])
      (by exact hcyc) (by exact hk) (by exact hs)
      (by exact hmap)
    replace hcomp : unserializeComponent dfuel
        { ds with pos := ds.pos + (serializeCountBytes idx).length } =
        .ok ((flattenV v ds.nextAddr).1,
          { ds with
            pos := ds.pos + (serializeCountBytes idx).length + Bv.length,
            heap := ds.heap ++ (flattenV v ds.nextAddr).2.1,
            nextAddr := (flattenV v ds.nextAddr).2.2 }) := hcomp
    have hloop := hBr Kfin Sfin dfuel
      { ds with
        pos := ds.pos + (serializeCountBytes idx).length + Bv.length,
        heap := H1 ++ [(aObj, HObj.obj (F0 ++ [(k, (flattenV v ds.nextAddr).1)]))] ++
          (H2 ++ (flattenV v ds.nextAddr).2.1),
        nextAddr := (flattenV v ds.nextAddr).2.2 }
      (pre ++ serializeCountBytes idx ++ Bv) post aObj
      H1 (F0 ++ [(k, (flattenV v ds.nextAddr).1)]) (H2 ++ (flattenV v ds.nextAddr).2.1)
      hK hS hKl hSl
      (by omega)
      (by simp [hin])
      (by simp [hpos]; omega)
      (by exact hcyc) (by exact hk) (by exact hs)
      (by exact rfl)
      (by
        show (H1 ++ [(aObj, HObj.obj (F0 ++ [(k, (flattenV v ds.nextAddr).1)]))] ++
          (H2 ++ (flattenV v ds.nextAddr).2.1)).map Prod.fst =
          List.range' 0 (flattenV v ds.nextAddr).2.2
        rw [flattenV_next v ds.nextAddr]
        exact map_heap_ext
          (show (H1 ++ [(aObj, HObj.obj F0)] ++ H2).map Prod.fst =
            List.range' 0 ds.nextAddr from by rw [← hH]; exact hmap)
          (flattenV_addrs v ds.nextAddr))
      (by
        intro k9 hk9 p hp
        rcases List.mem_append.mp hp with h9 | h9
        · exact hfresh k9 (List.mem_cons_of_mem _ hk9) p h9
        · rcases List.mem_singleton.mp h9 with rfl
          show k ≠ k9
          intro hkk
          exact hND.1 (hkk ▸ hk9))
    replace hloop : unserializeObjectLoop (unserializeComponent dfuel) aObj (flen rest)
        { ds with
          pos := ds.pos + (serializeCountBytes idx).length + Bv.length,
          heap := H1 ++ [(aObj, HObj.obj (F0 ++ [(k, (flattenV v ds.nextAddr).1)]))] ++
            (H2 ++ (flattenV v ds.nextAddr).2.1),
          nextAddr := (flattenV v ds.nextAddr).2.2 } =
        .ok { ds with
          pos := ds.pos + (serializeCountBytes idx).length + Bv.length + Br.length,
          heap := H1 ++ [(aObj, HObj.obj ((F0 ++ [(k, (flattenV v ds.nextAddr).1)]) ++
            (flattenF rest (flattenV v ds.nextAddr).2.2).1))] ++
            ((H2 ++ (flattenV v ds.nextAddr).2.1) ++
              (flattenF rest (flattenV v ds.nextAddr).2.2).2.1),
          nextAddr := (flattenF rest (flattenV v ds.nextAddr).2.2).2.2 } := hloop
    have hkey : (match (if 0 ≤ ((idx : Nat) : Int) then
        ({ ds with pos := ds.pos + (serializeCountBytes idx).length } :
          DecSt).string_keys[(((idx : Nat) : Int)).toNat]? else none) with
        | some k9 => k9
        | none => undefinedKeyBytes) = k := by
      rw [if_pos (Int.natCast_nonneg idx), Int.toNat_natCast]
      rw [show ({ ds with pos := ds.pos + (serializeCountBytes idx).length } :
        DecSt).string_keys = Kfin from hk]
      rw [hKidx]
    rw [show flen (.fcons k v rest) = flen rest + 1 from by
      show 1 + flen rest = flen rest + 1
      omega]
    rw [uolS]
    rw [hcount, bindFieldCount _ _ _ _ _
      (.ok { ds with
        pos := ds.pos + (serializeCountBytes idx).length + Bv.length + Br.length,
        heap := H1 ++ [(aObj, HObj.obj ((F0 ++ [(k, (flattenV v ds.nextAddr).1)]) ++
          (flattenF rest (flattenV v ds.nextAddr).2.2).1))] ++
          ((H2 ++ (flattenV v ds.nextAddr).2.1) ++
            (flattenF rest (flattenV v ds.nextAddr).2.2).2.1),
        nextAddr := (flattenF rest (flattenV v ds.nextAddr).2.2).2.2 })
      (by
      rw [if_neg (show ¬(((idx : Nat) : Int) ≥
          ((({ ds with pos := ds.pos + (serializeCountBytes idx).length } :
            DecSt).string_keys.length : Nat) : Int)) from by
        show ¬(((idx : Nat) : Int) ≥ ((ds.string_keys.length : Nat) : Int))
        rw [hk]
        push_cast
        omega)]
      rw [hkey]
      rw [hcomp]
      exact bindFieldVal _ _ _ _ _ _ _ (by
        rw [show ({ ds with
            pos := ds.pos + (serializeCountBytes idx).length + Bv.length,
            heap := ds.heap ++ (flattenV v ds.nextAddr).2.1,
            nextAddr := (flattenV v ds.nextAddr).2.2 } : DecSt).heap =
          ds.heap ++ (flattenV v ds.nextAddr).2.1 from rfl]
        rw [hset]
        exact hloop))]
    show Except.ok _ = _
    simp [flattenF]
    omega

theorem caseLcons (v : TVal) (rest : TList)
    (ihv : StmtV v) (ihr : StmtL rest) : StmtL (.lcons v rest) := by
  intro h base st fuel hwf hheap hrefs hfuel hkb hsb
  have eNK : nkeysL (.lcons v rest) = nkeysV v + nkeysL rest := rfl
  have eNS : nstrsL (.lcons v rest) = nstrsV v + nstrsL rest := rfl
  have eDP : depthL (.lcons v rest) = max (depthV v) (depthL rest) := rfl
  obtain ⟨st3, Bv, hserV, houtV, hcycV, hKextV, hSextV, hKlenV, hSlenV, hrefsV,
    hKokV, hSokV, hdepBV, hBv⟩ :=
    ihv h base st fuel hwf.1
      (fun p hp => hheap p (by
        show p ∈ (flattenV v base).2.1 ++ (flattenL rest (flattenV v base).2.2).2.1
        exact List.mem_append_left _ hp))
      hrefs
      (by omega)
      (by omega)
      (by omega)
  obtain ⟨st4, Br, hserR, houtR, hcycR, hKextR, hSextR, hKlenR, hSlenR, hrefsR,
    hKokR, hSokR, hdepBR, hBr⟩ :=
    ihr h (flattenV v base).2.2 st3 fuel hwf.2
      (fun p hp => hheap p (by
        show p ∈ (flattenV v base).2.1 ++ (flattenL rest (flattenV v base).2.2).2.1
        exact List.mem_append_right _ hp))
      hrefsV
      (by omega)
      (by omega)
      (by omega)
  refine ⟨st4, Bv ++ Br, ?_, ?_, ?_, tabExt_trans hKextV hKextR,
    tabExt_trans hSextV hSextR, by omega, by omega, by exact hrefsR, ?_, ?_, ?_, ?_⟩
  · rw [show serializeElems (serializeComponent h fuel)
        ((flattenL (.lcons v rest) base).1) st =
        (serializeComponent h fuel (flattenV v base).1 st >>= fun stB =>
          serializeElems (serializeComponent h fuel)
            (flattenL rest (flattenV v base).2.2).1 stB) from rfl]
    rw [hserV, ok_bind]
    exact hserR
  · rw [houtR, houtV]
    simp [List.append_assoc]
  · rw [hcycR, hcycV]
  · intro s hs
    rcases hKokR s hs with h9 | h9
    · exact hKokV s h9
    · exact Or.inr h9
  · intro s hs
    rcases hSokR s hs with h9 | h9
    · exact hSokV s h9
    · exact Or.inr h9
  · simp only [List.length_append]
    omega
  · intro Kfin Sfin dfuel ds pre post aArr H1 E0 H2 hK hS hKl hSl hdf hin hpos hcyc hk hs
      hH hmap
    obtain ⟨hfr1, hfr2, haArr⟩ := mid_fresh (show (H1 ++ [(aArr, HObj.arr E0)] ++
        H2).map Prod.fst = List.range' 0 ds.nextAddr from by rw [← hH]; exact hmap)
    have hfrV : ∀ p ∈ (flattenV v ds.nextAddr).2.1, p.1 ≠ aArr :=
      cells_fresh (flattenV_addrs v ds.nextAddr) haArr
    have hfr2ext : ∀ p ∈ H2 ++ (flattenV v ds.nextAddr).2.1, p.1 ≠ aArr := by
      intro p hp
      rcases List.mem_append.mp hp with h9 | h9
      · exact hfr2 p h9
      · exact hfrV p h9
    have hpush : pushElem aArr (flattenV v ds.nextAddr).1
        (ds.heap ++ (flattenV v ds.nextAddr).2.1) =
        H1 ++ [(aArr, HObj.arr (E0 ++ [(flattenV v ds.nextAddr).1]))] ++
          (H2 ++ (flattenV v ds.nextAddr).2.1) := by
      rw [show ds.heap ++ (flattenV v ds.nextAddr).2.1 =
          H1 ++ [(aArr, HObj.arr E0)] ++ (H2 ++ (flattenV v ds.nextAddr).2.1) from by
        rw [hH]; simp]
      rw [pushElem_mid hfr1 hfr2ext]
    have hcomp := hBv Kfin Sfin dfuel ds pre (Br ++ post)
      (tabExt_trans hKextR hK) (tabExt_trans hSextR hS) hKl hSl
      (by omega)
      (by simp [hin])
      hpos
      hcyc hk hs hmap
    replace hcomp : unserializeComponent dfuel ds =
        .ok ((flattenV v ds.nextAddr).1,
          { ds with
            pos := ds.pos + Bv.length,
            heap := ds.heap ++ (flattenV v ds.nextAddr).2.1,
            nextAddr := (flattenV v ds.nextAddr).2.2 }) := hcomp
    have hloop := hBr Kfin Sfin dfuel
      { ds with
        pos := ds.pos + Bv.length,
        heap := H1 ++ [(aArr, HObj.arr (E0 ++ [(flattenV v ds.nextAddr).1]))] ++
          (H2 ++ (flattenV v ds.nextAddr).2.1),
        nextAddr := (flattenV v ds.nextAddr).2.2 }
      (pre ++ Bv) post aArr
      H1 (E0 ++ [(flattenV v ds.nextAddr).1]) (H2 ++ (flattenV v ds.nextAddr).2.1)
      hK hS hKl hSl
      (by omega)
      (by simp [hin])
      (by simp [hpos])
      (by exact hcyc) (by exact hk) (by exact hs)
      (by exact rfl)
      (by
        show (H1 ++ [(aArr, HObj.arr (E0 ++ [(flattenV v ds.nextAddr).1]))] ++
          (H2 ++ (flattenV v ds.nextAddr).2.1)).map Prod.fst =
          List.range' 0 (flattenV v ds.nextAddr).2.2
        rw [flattenV_next v ds.nextAddr]
        exact map_heap_ext
          (show (H1 ++ [(aArr, HObj.arr E0)] ++ H2).map Prod.fst =
            List.range' 0 ds.nextAddr from by rw [← hH]; exact hmap)
          (flattenV_addrs v ds.nextAddr))
    replace hloop : unserializeArrayLoop (unserializeComponent dfuel) aArr (llen rest)
        { ds with
          pos := ds.pos + Bv.length,
          heap := H1 ++ [(aArr, HObj.arr (E0 ++ [(flattenV v ds.nextAddr).1]))] ++
            (H2 ++ (flattenV v ds.nextAddr).2.1),
          nextAddr := (flattenV v ds.nextAddr).2.2 } =
        .ok { ds with
          pos := ds.pos + Bv.length + Br.length,
          heap := H1 ++ [(aArr, HObj.arr ((E0 ++ [(flattenV v ds.nextAddr).1]) ++
            (flattenL rest (flattenV v ds.nextAddr).2.2).1))] ++
            ((H2 ++ (flattenV v ds.nextAddr).2.1) ++
              (flattenL rest (flattenV v ds.nextAddr).2.2).2.1),
          nextAddr := (flattenL rest (flattenV v ds.nextAddr).2.2).2.2 } := hloop
    rw [show llen (.lcons v rest) = llen rest + 1 from by
      show 1 + llen rest = llen rest + 1
      omega]
    rw [ualS, hcomp, bindElemVal _ _ _ _ _
      (.ok { ds with
        pos := ds.pos + Bv.length + Br.length,
        heap := H1 ++ [(aArr, HObj.arr ((E0 ++ [(flattenV v ds.nextAddr).1]) ++
          (flattenL rest (flattenV v ds.nextAddr).2.2).1))] ++
          ((H2 ++ (flattenV v ds.nextAddr).2.1) ++
            (flattenL rest (flattenV v ds.nextAddr).2.2).2.1),
        nextAddr := (flattenL rest (flattenV v ds.nextAddr).2.2).2.2 })
      (by
      rw [show ({ ds with
          pos := ds.pos + Bv.length,
          heap := ds.heap ++ (flattenV v ds.nextAddr).2.1,
          nextAddr := (flattenV v ds.nextAddr).2.2 } : DecSt).heap =
        ds.heap ++ (flattenV v ds.nextAddr).2.1 from rfl]
      rw [hpush]
      exact hloop)]
    show Except.ok _ = _
    simp [flattenL]
    omega

/-- The three walk statements hold for every tree, by mutual induction. -/
theorem stmtV_all : ∀ t : TVal, StmtV t := fun t =>
  @TVal.rec (fun t => StmtV t) (fun fs => StmtF fs) (fun es => StmtL es)
    caseVundef caseVnull (fun b => caseVbool b) (fun n => caseVnum n)
    (fun s => caseVstr s) (fun bits => caseVdate bits) (fun bs => caseVbytes bs)
    (fun fs ih => caseVobj fs ih) (fun es ih => caseVarr es ih)
    caseFnil (fun k v rest ihv ihr => caseFcons k v rest ihv ihr)
    caseLnil (fun v rest ihv ihr => caseLcons v rest ihv ihr)
    t

theorem depthCnt : ∀ t : TVal, depthV t ≤ cntV t + 1 := fun t =>
  @TVal.rec (fun t => depthV t ≤ cntV t + 1) (fun fs => depthF fs ≤ cntF fs + 1)
    (fun es => depthL es ≤ cntL es + 1)
    (by simp [depthV, cntV]) (by simp [depthV, cntV]) (fun b => by simp [depthV, cntV])
    (fun n => by simp [depthV, cntV]) (fun s => by simp [depthV, cntV])
    (fun bits => by simp [depthV, cntV]) (fun bs => by simp [depthV, cntV])
    (fun fs ih => by
      have e1 : depthV (.vobj fs) = 1 + depthF fs := rfl
      have e2 : cntV (.vobj fs) = 1 + cntF fs := rfl
      omega)
    (fun es ih => by
      have e1 : depthV (.varr es) = 1 + depthL es := rfl
      have e2 : cntV (.varr es) = 1 + cntL es := rfl
      omega)
    (by simp [depthF, cntF])
    (fun k v rest ihv ihr => by
      have e1 : depthF (.fcons k v rest) = max (depthV v) (depthF rest) := rfl
      have e2 : cntF (.fcons k v rest) = cntV v + cntF rest := rfl
      omega)
    (by simp [depthL, cntL])
    (fun v rest ihv ihr => by
      have e1 : depthL (.lcons v rest) = max (depthV v) (depthL rest) := rfl
      have e2 : cntL (.lcons v rest) = cntV v + cntL rest := rfl
      omega)
    t

/-- A heap whose addresses are distinct finds each of its own cells. -/
theorem lookup_self : ∀ {l : Heap}, (l.map Prod.fst).Nodup →
    ∀ p ∈ l, l.lookup p.1 = some p.2 := by
  intro l
  induction l with
  | nil =>
      intro _ p hp
      cases hp
  | cons q rest ih =>
      intro hnd p hp
      obtain ⟨q1, q2⟩ := q
      simp only [List.map_cons, List.nodup_cons] at hnd
      rcases List.mem_cons.mp hp with rfl | hp2
      · simp [List.lookup]
      · have hne : p.1 ≠ q1 := by
          intro he
          exact hnd.1 (he ▸ List.mem_map_of_mem Prod.fst hp2)
        simp only [List.lookup]
        rw [show (p.1 == q1) = false from beq_eq_false_iff_ne.mpr hne]
        exact ih hnd.2 p hp2

/-- C1 (amended): the round trip holds on the no-sharing fragment once the
values are well formed for the wire format: for every tree-shaped value
(no container appears more than once) whose strings and property names are
NUL-free byte strings and whose sizes fit the 32-bit count range, encoding
from its heap layout and decoding back yields exactly the original value
and the original heap. -/
theorem c1_amended (t : TVal) (hwf : wfV t)
    (hkb : nkeysV t < 2147483648) (hsb : nstrsV t < 2147483648) :
    ∃ bytes, encode (flattenV t 0).2.1 (flattenV t 0).1 false = .ok bytes ∧
      decode (some bytes) = .ok ((flattenV t 0).1, (flattenV t 0).2.1) := by
  have hmap0 : (flattenV t 0).2.1.map Prod.fst = List.range' 0 (cntV t) :=
    flattenV_addrs t 0
  have hnd : ((flattenV t 0).2.1.map Prod.fst).Nodup := by
    rw [hmap0]
    exact List.nodup_range' _ _
  have hlen : (flattenV t 0).2.1.length = cntV t := by
    have h9 := congrArg List.length hmap0
    simpa using h9
  have hdc := depthCnt t
  obtain ⟨st', B, hser, hout, hcyc, hKext, hSext, hKlen, hSlen, hrefs',
      hKok, hSok, hdepB, hB⟩ :=
    stmtV_all t (flattenV t 0).2.1 0 initEncSt ((flattenV t 0).2.1.length + 2) hwf
      (lookup_self hnd)
      (by intro q hq; cases hq)
      (by rw [hlen]; omega)
      (by
        have e9 : (initEncSt.string_keys).length = 0 := rfl
        omega)
      (by
        have e9 : (initEncSt.string_refs).length = 0 := rfl
        omega)
  have e0k : (initEncSt.string_keys).length = 0 := rfl
  have e0s : (initEncSt.string_refs).length = 0 := rfl
  have houtB : st'.out = B := by simpa using hout
  have hcycF : st'.hasCycle = false := by rw [hcyc]; rfl
  have hkeysOk : ∀ s ∈ st'.string_keys, okString s := by
    intro s hs
    rcases hKok s hs with h9 | h9
    · cases h9
    · exact h9
  have hstrsOk : ∀ s ∈ st'.string_refs, okString s := by
    intro s hs
    rcases hSok s hs with h9 | h9
    · cases h9
    · exact h9
  have hTOS := serializeTOS_spec st' false (by omega) (by omega)
  rw [hcycF] at hTOS
  rw [houtB] at hTOS
  replace hTOS : serializeTOS st' false = .ok (65 ::
      (serializeCountBytes st'.string_keys.length ++ tableBytes st'.string_keys ++
        serializeCountBytes st'.string_refs.length ++ tableBytes st'.string_refs) ++ B) := by
    rw [hTOS]
    norm_num [MAJOR_VERSION, OPTION_NOCYCLE]
    decide
  refine ⟨65 :: (serializeCountBytes st'.string_keys.length ++ tableBytes st'.string_keys ++
    serializeCountBytes st'.string_refs.length ++ tableBytes st'.string_refs) ++ B, ?_, ?_⟩
  · rw [show encode (flattenV t 0).2.1 (flattenV t 0).1 false =
        (serializeComponent (flattenV t 0).2.1 ((flattenV t 0).2.1.length + 2)
          (flattenV t 0).1 initEncSt >>= fun stx => serializeTOS stx false) from rfl]
    rw [hser, ok_bind, hTOS]
  · have hTd := @unserializeTOS_spec_nocrc
      (initDecSt (65 :: (serializeCountBytes st'.string_keys.length ++
        tableBytes st'.string_keys ++ serializeCountBytes st'.string_refs.length ++
        tableBytes st'.string_refs) ++ B))
      65 st'.string_keys st'.string_refs B
      (by decide) (by decide) (by decide)
      hkeysOk hstrsOk (by omega) (by omega) rfl rfl
    rw [show (if (65 &&& 64 ≠ 0) then false else
        (initDecSt (65 :: (serializeCountBytes st'.string_keys.length ++
        tableBytes st'.string_keys ++ serializeCountBytes st'.string_refs.length ++
        tableBytes st'.string_refs) ++ B)).hasCycle) = false from
      if_pos (by decide)] at hTd
    rw [show decode (some (65 :: (serializeCountBytes st'.string_keys.length ++
        tableBytes st'.string_keys ++ serializeCountBytes st'.string_refs.length ++
        tableBytes st'.string_refs) ++ B)) =
      (unserializeTOS (initDecSt (65 :: (serializeCountBytes st'.string_keys.length ++
        tableBytes st'.string_keys ++ serializeCountBytes st'.string_refs.length ++
        tableBytes st'.string_refs) ++ B)) >>= fun st0 =>
        unserializeComponent ((65 :: (serializeCountBytes st'.string_keys.length ++
        tableBytes st'.string_keys ++ serializeCountBytes st'.string_refs.length ++
        tableBytes st'.string_refs) ++ B).length -
            ({ st0 with offset := st0.pos } : DecSt).pos + 1)
          { st0 with offset := st0.pos } >>= fun p =>
          Except.ok (p.1, p.2.heap)) from rfl]
    rw [hTd, ok_bind]
    show (unserializeComponent ((65 :: (serializeCountBytes st'.string_keys.length ++
        tableBytes st'.string_keys ++ serializeCountBytes st'.string_refs.length ++
        tableBytes st'.string_refs) ++ B).length - (1 + (serializeCountBytes st'.string_keys.length).length +
        (tableBytes st'.string_keys).length +
        (serializeCountBytes st'.string_refs.length).length +
        (tableBytes st'.string_refs).length) + 1)
        { initDecSt (65 :: (serializeCountBytes st'.string_keys.length ++
        tableBytes st'.string_keys ++ serializeCountBytes st'.string_refs.length ++
        tableBytes st'.string_refs) ++ B) with
          pos := (1 + (serializeCountBytes st'.string_keys.length).length +
        (tableBytes st'.string_keys).length +
        (serializeCountBytes st'.string_refs.length).length +
        (tableBytes st'.string_refs).length),
          string_keys := st'.string_keys, string_refs := st'.string_refs,
          hasCycle := false,
          offset := (1 + (serializeCountBytes st'.string_keys.length).length +
        (tableBytes st'.string_keys).length +
        (serializeCountBytes st'.string_refs.length).length +
        (tableBytes st'.string_refs).length) } >>= fun p =>
        Except.ok (p.1, p.2.heap)) = _
    have hcomp := hB st'.string_keys st'.string_refs
      ((65 :: (serializeCountBytes st'.string_keys.length ++
        tableBytes st'.string_keys ++ serializeCountBytes st'.string_refs.length ++
        tableBytes st'.string_refs) ++ B).length - (1 + (serializeCountBytes st'.string_keys.length).length +
        (tableBytes st'.string_keys).length +
        (serializeCountBytes st'.string_refs.length).length +
        (tableBytes st'.string_refs).length) + 1)
      { initDecSt (65 :: (serializeCountBytes st'.string_keys.length ++
        tableBytes st'.string_keys ++ serializeCountBytes st'.string_refs.length ++
        tableBytes st'.string_refs) ++ B) with
        pos := (1 + (serializeCountBytes st'.string_keys.length).length +
        (tableBytes st'.string_keys).length +
        (serializeCountBytes st'.string_refs.length).length +
        (tableBytes st'.string_refs).length),
        string_keys := st'.string_keys, string_refs := st'.string_refs,
        hasCycle := false,
        offset := (1 + (serializeCountBytes st'.string_keys.length).length +
        (tableBytes st'.string_keys).length +
        (serializeCountBytes st'.string_refs.length).length +
        (tableBytes st'.string_refs).length) }
      (65 :: (serializeCountBytes st'.string_keys.length ++
        tableBytes st'.string_keys ++ serializeCountBytes st'.string_refs.length ++
        tableBytes st'.string_refs)) []
      (tabExt_refl _) (tabExt_refl _) (by omega) (by omega)
      (by
        have hblen : (65 :: (serializeCountBytes st'.string_keys.length ++
        tableBytes st'.string_keys ++ serializeCountBytes st'.string_refs.length ++
        tableBytes st'.string_refs) ++ B).length = (1 + (serializeCountBytes st'.string_keys.length).length +
        (tableBytes st'.string_keys).length +
        (serializeCountBytes st'.string_refs.length).length +
        (tableBytes st'.string_refs).length) + B.length := by
          simp [List.length_append]
          omega
        omega)
      (by simp [initDecSt])
      (by
        show (1 + (serializeCountBytes st'.string_keys.length).length +
        (tableBytes st'.string_keys).length +
        (serializeCountBytes st'.string_refs.length).length +
        (tableBytes st'.string_refs).length) = (65 :: (serializeCountBytes st'.string_keys.length ++
        tableBytes st'.string_keys ++ serializeCountBytes st'.string_refs.length ++
        tableBytes st'.string_refs)).length
        simp [List.length_append]
        omega)
      rfl rfl rfl
      rfl
    rw [hcomp, ok_bind]
    simp [initDecSt]


/-- C1 (counterexample): the claim promises the round trip for every value
of the universe with no repeated container.  The string `"\x00"` (one NUL
byte) is such a value, but strings travel in a NUL-terminated table: the
encoder embeds the NUL, the decoder stops at it early, the cursor desyncs,
and the value comes back as `false` instead of the string. -/
theorem c1_counterexample :
    encode [] (.str [0]) false = .ok [65, 0, 1, 0, 0, 22, 1] ∧
    decode (some [65, 0, 1, 0, 0, 22, 1]) = .ok (.bool false, []) ∧
    JSVal.bool false ≠ JSVal.str [0] :=
  ⟨rfl, rfl, by decide⟩

/-- C1 witness: the amended round trip at the boolean `true`. -/
theorem c1_witness :
    ∃ bytes, encode (flattenV (.vbool true) 0).2.1 (flattenV (.vbool true) 0).1 false =
        .ok bytes ∧
      decode (some bytes) =
        .ok ((flattenV (.vbool true) 0).1, (flattenV (.vbool true) 0).2.1) :=
  c1_amended (.vbool true) trivial (by decide) (by decide)

/-- C3 (amended): on tree-shaped inputs — no container repeated, so no
by-reference emission ever happens — the encoder's cycle flag stays down
and byte 0 of the output is `0x41`, whose NOCYCLE bit (0x40) is set. -/
theorem c3_amended (t : TVal) (hwf : wfV t)
    (hkb : nkeysV t < 2147483648) (hsb : nstrsV t < 2147483648) :
    ∃ bytes, encode (flattenV t 0).2.1 (flattenV t 0).1 false = .ok bytes ∧
      bytes.head? = some 65 ∧ (65 : Nat) &&& OPTION_NOCYCLE ≠ 0 := by
  have hmap0 : (flattenV t 0).2.1.map Prod.fst = List.range' 0 (cntV t) :=
    flattenV_addrs t 0
  have hnd : ((flattenV t 0).2.1.map Prod.fst).Nodup := by
    rw [hmap0]
    exact List.nodup_range' _ _
  have hlen : List.length (flattenV t 0).2.1 = cntV t := by
    have h9 := congrArg List.length hmap0
    simpa using h9
  have hdc := depthCnt t
  obtain ⟨st', B, hser, hout, hcyc, hKext, hSext, hKlen, hSlen, hrefs',
      hKok, hSok, hdepB, hB⟩ :=
    stmtV_all t (flattenV t 0).2.1 0 initEncSt ((flattenV t 0).2.1.length + 2) hwf
      (lookup_self hnd)
      (by intro q hq; cases hq)
      (by rw [hlen]; omega)
      (by
        have e9 : (initEncSt.string_keys).length = 0 := rfl
        omega)
      (by
        have e9 : (initEncSt.string_refs).length = 0 := rfl
        omega)
  have e0k : (initEncSt.string_keys).length = 0 := rfl
  have e0s : (initEncSt.string_refs).length = 0 := rfl
  have houtB : st'.out = B := by simpa using hout
  have hcycF : st'.hasCycle = false := by rw [hcyc]; rfl
  have hTOS := serializeTOS_spec st' false (by omega) (by omega)
  rw [hcycF] at hTOS
  rw [houtB] at hTOS
  replace hTOS : serializeTOS st' false = .ok (65 ::
      (serializeCountBytes st'.string_keys.length ++ tableBytes st'.string_keys ++
        serializeCountBytes st'.string_refs.length ++ tableBytes st'.string_refs) ++ B) := by
    rw [hTOS]
    norm_num [MAJOR_VERSION, OPTION_NOCYCLE]
    decide
  refine ⟨65 :: (serializeCountBytes st'.string_keys.length ++ tableBytes st'.string_keys ++
    serializeCountBytes st'.string_refs.length ++ tableBytes st'.string_refs) ++ B,
    ?_, rfl, by decide⟩
  rw [show encode (flattenV t 0).2.1 (flattenV t 0).1 false =
      (serializeComponent (flattenV t 0).2.1 ((flattenV t 0).2.1.length + 2)
        (flattenV t 0).1 initEncSt >>= fun stx => serializeTOS stx false) from rfl]
  rw [hser, ok_bind, hTOS]

/-- C3 witness: the amended NOCYCLE statement at the boolean `true`. -/
theorem c3_witness :
    ∃ bytes, encode (flattenV (.vbool true) 0).2.1 (flattenV (.vbool true) 0).1 false =
        .ok bytes ∧
      bytes.head? = some 65 ∧ (65 : Nat) &&& OPTION_NOCYCLE ≠ 0 :=
  c3_amended (.vbool true) trivial (by decide) (by decide)

end JSBON
